import Mathlib

/-!
# MySharedPtr: a reference-counted strong/weak handle pair

A shallow embedding of `sharedPtr.h` (classes `ControlBlock`, `shared_ptr<T>`,
`weak_ptr<T>`) as explicit state passing over a small memory model, followed by
theorems about the embedded code.

Memory model.
* A `ControlBlock*` is `Option Nat`: `none` is `nullptr`, `some a` names the
  `a`-th block ever returned by `new ControlBlock(..)`.  These names are
  allocation identities and are never reused: a deleted block and a block
  allocated later are different blocks, wherever the allocator places them.
* A `T*` is `Option Nat`: `none` is `nullptr`, `some p` is a payload address
  supplied by the caller.  The payload's contents are not modelled.
* `delete control_block_` and `delete pointer_` are recorded, in order, in two
  logs.  `delete` of a null payload pointer does nothing.
* Reading or writing a `ControlBlock` through a null pointer, through a pointer
  to a block that has been deleted, or through a pointer that `new` never
  returned, is a `Fault`: the operation has no defined result.
* A `size_t` is a `Nat` with explicit reduction modulo `2 ^ 64` at `++` and `--`.
* Handle objects live in an object table; an object is named by its index.
  `this` and `other` are such indices, so `&other != this` is index inequality.
-/

namespace MySharedPtr

/-! ## `size_t` arithmetic -/

/-- Number of values of a `size_t` (64-bit). -/
def SIZE_T_RANGE : Nat := 18446744073709551616

/-- Increment `++x` / `x++` on a `size_t`: `2 ^ 64 - 1` wraps to `0`. -/
def size_t_inc (x : Nat) : Nat := (x + 1) % SIZE_T_RANGE

/-- Decrement `--x` / `x--` on a `size_t`: `0` wraps to `2 ^ 64 - 1`. -/
def size_t_dec (x : Nat) : Nat := (x + (SIZE_T_RANGE - 1)) % SIZE_T_RANGE

/-! ## Data model -/

/-- Embeds `class ControlBlock { size_t ref_count; size_t weak_count; }`. -/
structure ControlBlock where
  ref_count : Nat
  weak_count : Nat
deriving DecidableEq, Repr

/-- Embeds `class shared_ptr<T> { T* pointer_; ControlBlock* control_block_; }`. -/
structure shared_ptr where
  pointer_ : Option Nat
  control_block_ : Option Nat
deriving DecidableEq, Repr

/-- Embeds `class weak_ptr<T> { T* pointer_; ControlBlock* control_block_; }`. -/
structure weak_ptr where
  pointer_ : Option Nat
  control_block_ : Option Nat
deriving DecidableEq, Repr

/-- Ways in which an operation can fail to have a defined result. -/
inductive Fault where
  /-- Access `control_block_->..` with `control_block_ == nullptr`. -/
  | nullDereference
  /-- Access `control_block_->..` after `delete control_block_`. -/
  | useAfterDelete
  /-- Access `control_block_->..` through an address `new` never returned. -/
  | invalidPointer
  /-- The named object is not alive or is of the other handle class. -/
  | noSuchObject
deriving DecidableEq, Repr

/-- The free store: every `ControlBlock` ever allocated, and the `delete` logs. -/
structure Heap where
  blocks : List ControlBlock
  deleted_blocks : List Nat
  deleted_payloads : List Nat
deriving DecidableEq, Repr

/-- A handle object of one of the two classes. -/
inductive Obj where
  | shared (x : shared_ptr)
  | weak (x : weak_ptr)
deriving DecidableEq, Repr

/-- Program state: the free store and the table of handle objects
(`none` marks an object whose lifetime has ended). -/
structure State where
  heap : Heap
  objs : List (Option Obj)
deriving DecidableEq, Repr

/-- The state before anything has been allocated or constructed. -/
def State.init : State := ⟨⟨[], [], []⟩, []⟩

/-! ## Free store primitives -/

/-- Allocation `new ControlBlock(ref, weak)`: the block gets the next unused address. -/
def Heap.new_block (h : Heap) (ref weak : Nat) : Heap × Nat :=
  ({ h with blocks := h.blocks ++ [⟨ref, weak⟩] }, h.blocks.length)

/-- Access `*cb`: yields the address and the current contents of the block. -/
def Heap.deref (h : Heap) (cb : Option Nat) : Except Fault (Nat × ControlBlock) :=
  match cb with
  | none => .error .nullDereference
  | some a =>
    if h.deleted_blocks.contains a then .error .useAfterDelete
    else
      match h.blocks[a]? with
      | some b => .ok (a, b)
      | none => .error .invalidPointer

/-- Overwrite the block at address `a`. -/
def Heap.write (h : Heap) (a : Nat) (b : ControlBlock) : Heap :=
  { h with blocks := h.blocks.set a b }

/-- Statement `delete pointer_`: a no-op on `nullptr`, otherwise logged. -/
def Heap.delete_payload (h : Heap) (p : Option Nat) : Heap :=
  match p with
  | none => h
  | some a => { h with deleted_payloads := h.deleted_payloads ++ [a] }

/-- Statement `delete control_block_` for a non-null block address: logged. -/
def Heap.delete_block (h : Heap) (a : Nat) : Heap :=
  { h with deleted_blocks := h.deleted_blocks ++ [a] }

/-! ## Object table primitives -/

/-- The live `shared_ptr` object named `x`. -/
def State.get_shared (s : State) (x : Nat) : Except Fault shared_ptr :=
  match s.objs[x]? with
  | some (some (.shared p)) => .ok p
  | _ => .error .noSuchObject

/-- The live `weak_ptr` object named `x`. -/
def State.get_weak (s : State) (x : Nat) : Except Fault weak_ptr :=
  match s.objs[x]? with
  | some (some (.weak p)) => .ok p
  | _ => .error .noSuchObject

/-- Store new member values into object `x`. -/
def State.put (s : State) (x : Nat) (o : Obj) : State :=
  { s with objs := s.objs.set x (some o) }

/-- Begin the lifetime of a new object; its name is the old table length. -/
def State.push (s : State) (o : Obj) : State :=
  { s with objs := s.objs ++ [some o] }

/-- End the lifetime of object `x`. -/
def State.drop (s : State) (x : Nat) : State :=
  { s with objs := s.objs.set x none }

/-! ## `shared_ptr<T>` -/

/-- Embeds `shared_ptr(T* pointer = nullptr)`: lines 35-37. -/
def shared_ptr.ctor (s : State) (pointer : Option Nat) : Except Fault State :=
  let (h, a) := s.heap.new_block 1 0
  .ok ({ s with heap := h }.push (.shared ⟨pointer, some a⟩))

/-- Embeds `shared_ptr(const shared_ptr& other)`: lines 39-44. -/
def shared_ptr.ctor_copy (s : State) (other : Nat) : Except Fault State := do
  let o ← s.get_shared other
  let (a, b) ← s.heap.deref o.control_block_
  let h := s.heap.write a { b with ref_count := size_t_inc b.ref_count }
  .ok ({ s with heap := h }.push (.shared ⟨o.pointer_, o.control_block_⟩))

/-- Embeds `shared_ptr(const weak_ptr<T>& other)`: lines 46-51. -/
def shared_ptr.ctor_weak (s : State) (other : Nat) : Except Fault State := do
  let o ← s.get_weak other
  let (a, b) ← s.heap.deref o.control_block_
  let h := s.heap.write a { b with ref_count := size_t_inc b.ref_count }
  .ok ({ s with heap := h }.push (.shared ⟨o.pointer_, o.control_block_⟩))

/-- Embeds `shared_ptr& operator=(const shared_ptr& other)`: lines 53-62. -/
def shared_ptr.assign_copy (s : State) (this other : Nat) : Except Fault State := do
  let _ ← s.get_shared this
  let o ← s.get_shared other
  if other ≠ this then
    let (a, b) ← s.heap.deref o.control_block_
    let h := s.heap.write a { b with ref_count := size_t_inc b.ref_count }
    .ok ({ s with heap := h }.put this (.shared ⟨o.pointer_, o.control_block_⟩))
  else .ok s

/-- Embeds `shared_ptr(shared_ptr&& other)`: lines 64-70. -/
def shared_ptr.ctor_move (s : State) (other : Nat) : Except Fault State := do
  let o ← s.get_shared other
  .ok ((s.put other (.shared ⟨none, none⟩)).push (.shared ⟨o.pointer_, o.control_block_⟩))

/-- Embeds `shared_ptr& operator=(shared_ptr&& other)`: lines 72-83. -/
def shared_ptr.assign_move (s : State) (this other : Nat) : Except Fault State := do
  let _ ← s.get_shared this
  let o ← s.get_shared other
  if other ≠ this then
    .ok ((s.put this (.shared ⟨o.pointer_, o.control_block_⟩)).put other (.shared ⟨none, none⟩))
  else .ok s

/-- Embeds `T* get() const`: lines 85-88. -/
def shared_ptr.get (s : State) (this : Nat) : Except Fault (Option Nat) := do
  let t ← s.get_shared this
  .ok t.pointer_

/-- Embeds `operator bool()`: lines 100-103. -/
def shared_ptr.operator_bool (s : State) (this : Nat) : Except Fault Bool := do
  let t ← s.get_shared this
  .ok (t.pointer_ != none)

/-- Embeds `size_t use_count()`: lines 105-108. -/
def shared_ptr.use_count (s : State) (this : Nat) : Except Fault Nat := do
  let t ← s.get_shared this
  if t.pointer_ != none then
    let (_, b) ← s.heap.deref t.control_block_
    .ok b.ref_count
  else .ok 0

/-- Embeds `void swap(shared_ptr& other)`: lines 110-114. -/
def shared_ptr.swap (s : State) (this other : Nat) : Except Fault State := do
  let t ← s.get_shared this
  let o ← s.get_shared other
  .ok ((s.put this (.shared ⟨o.pointer_, o.control_block_⟩)).put other
    (.shared ⟨t.pointer_, t.control_block_⟩))

/-- Embeds `~shared_ptr()`: lines 123-137.  Only the body; the object's storage is
untouched, so that `reset` can call it on `this`. -/
def shared_ptr.dtor (s : State) (this : Nat) : Except Fault State := do
  let t ← s.get_shared this
  match t.control_block_ with
  | none => .ok s
  | some _ =>
    let (a, b) ← s.heap.deref t.control_block_
    let rc := size_t_dec b.ref_count
    let h := s.heap.write a { b with ref_count := rc }
    if rc = 0 then
      let h := h.delete_payload t.pointer_
      if b.weak_count = 0 then
        .ok { s with heap := h.delete_block a }
      else .ok { s with heap := h }
    else .ok { s with heap := h }

/-- Embeds `void reset(T* new_pointer = nullptr)`: lines 116-121. -/
def shared_ptr.reset (s : State) (this : Nat) (new_pointer : Option Nat) :
    Except Fault State := do
  let s ← shared_ptr.dtor s this
  let (h, a) := s.heap.new_block 1 0
  .ok ({ s with heap := h }.put this (.shared ⟨new_pointer, some a⟩))

/-! ## `weak_ptr<T>` -/

/-- Embeds `weak_ptr(T* pointer = nullptr)`: lines 150-154. -/
def weak_ptr.ctor (s : State) (pointer : Option Nat) : Except Fault State :=
  let (h, a) := s.heap.new_block 0 1
  .ok ({ s with heap := h }.push (.weak ⟨pointer, some a⟩))

/-- Embeds `weak_ptr(const weak_ptr& other)`: lines 156-161. -/
def weak_ptr.ctor_copy (s : State) (other : Nat) : Except Fault State := do
  let o ← s.get_weak other
  let (a, b) ← s.heap.deref o.control_block_
  let h := s.heap.write a { b with weak_count := size_t_inc b.weak_count }
  .ok ({ s with heap := h }.push (.weak ⟨o.pointer_, o.control_block_⟩))

/-- Embeds `weak_ptr(const shared_ptr<T>& other)`: lines 163-168. -/
def weak_ptr.ctor_shared (s : State) (other : Nat) : Except Fault State := do
  let o ← s.get_shared other
  let (a, b) ← s.heap.deref o.control_block_
  let h := s.heap.write a { b with weak_count := size_t_inc b.weak_count }
  .ok ({ s with heap := h }.push (.weak ⟨o.pointer_, o.control_block_⟩))

/-- Embeds `weak_ptr(weak_ptr&& other)`: lines 170-176. -/
def weak_ptr.ctor_move (s : State) (other : Nat) : Except Fault State := do
  let o ← s.get_weak other
  .ok ((s.put other (.weak ⟨none, none⟩)).push (.weak ⟨o.pointer_, o.control_block_⟩))

/-- Embeds `weak_ptr& operator=(const weak_ptr& other)`: lines 178-188. -/
def weak_ptr.assign_copy (s : State) (this other : Nat) : Except Fault State := do
  let _ ← s.get_weak this
  let o ← s.get_weak other
  if other ≠ this then
    let (a, b) ← s.heap.deref o.control_block_
    let h := s.heap.write a { b with weak_count := size_t_inc b.weak_count }
    .ok ({ s with heap := h }.put this (.weak ⟨o.pointer_, o.control_block_⟩))
  else .ok s

/-- Embeds `weak_ptr& operator=(weak_ptr&& other)`: lines 190-201. -/
def weak_ptr.assign_move (s : State) (this other : Nat) : Except Fault State := do
  let _ ← s.get_weak this
  let o ← s.get_weak other
  if other ≠ this then
    .ok ((s.put this (.weak ⟨o.pointer_, o.control_block_⟩)).put other (.weak ⟨none, none⟩))
  else .ok s

/-- Embeds `const size_t& use_count()`: lines 203-206. -/
def weak_ptr.use_count (s : State) (this : Nat) : Except Fault Nat := do
  let t ← s.get_weak this
  let (_, b) ← s.heap.deref t.control_block_
  .ok b.ref_count

/-- Embeds `void reset()`: lines 208-213. -/
def weak_ptr.reset (s : State) (this : Nat) : Except Fault State := do
  let t ← s.get_weak this
  let (a, b) ← s.heap.deref t.control_block_
  let h := s.heap.write a { b with weak_count := size_t_dec b.weak_count }
  let (h, n) := h.new_block 0 0
  .ok ({ s with heap := h }.put this (.weak ⟨none, some n⟩))

/-- Embeds `bool expired()`: lines 215-218. -/
def weak_ptr.expired (s : State) (this : Nat) : Except Fault Bool := do
  let t ← s.get_weak this
  let (_, b) ← s.heap.deref t.control_block_
  .ok (b.ref_count == 0)

/-- Embeds `void swap(weak_ptr& other)`: lines 220-224. -/
def weak_ptr.swap (s : State) (this other : Nat) : Except Fault State := do
  let t ← s.get_weak this
  let o ← s.get_weak other
  .ok ((s.put this (.weak ⟨o.pointer_, o.control_block_⟩)).put other
    (.weak ⟨t.pointer_, t.control_block_⟩))

/-- Embeds `shared_ptr<T> lock()`: lines 226-229.  The returned handle is a new object. -/
def weak_ptr.lock (s : State) (this : Nat) : Except Fault State := do
  let e ← weak_ptr.expired s this
  if !e then shared_ptr.ctor_weak s this else shared_ptr.ctor s none

/-- Embeds `~weak_ptr()`: lines 231-241.  Only the body. -/
def weak_ptr.dtor (s : State) (this : Nat) : Except Fault State := do
  let t ← s.get_weak this
  match t.control_block_ with
  | none => .ok s
  | some _ =>
    let (a, b) ← s.heap.deref t.control_block_
    let wc := size_t_dec b.weak_count
    let h := s.heap.write a { b with weak_count := wc }
    if wc = 0 ∧ b.ref_count = 0 then
      .ok { s with heap := h.delete_block a }
    else .ok { s with heap := h }

/-! ## Programs over handles -/

/-- One statement of a client program.  Constructors and `lock` create the
object named by the current table length; the `destroy` statements run the
destructor and end the object's lifetime. -/
inductive Op where
  | shared_new (pointer : Option Nat)
  | shared_copy (other : Nat)
  | shared_from_weak (other : Nat)
  | shared_move (other : Nat)
  | shared_assign_copy (this other : Nat)
  | shared_assign_move (this other : Nat)
  | shared_swap (this other : Nat)
  | shared_reset (this : Nat) (new_pointer : Option Nat)
  | shared_destroy (this : Nat)
  | weak_new (pointer : Option Nat)
  | weak_copy (other : Nat)
  | weak_from_shared (other : Nat)
  | weak_move (other : Nat)
  | weak_assign_copy (this other : Nat)
  | weak_assign_move (this other : Nat)
  | weak_swap (this other : Nat)
  | weak_reset (this : Nat)
  | weak_lock (this : Nat)
  | weak_destroy (this : Nat)
deriving DecidableEq, Repr

/-- Execute one statement. -/
def step (s : State) : Op → Except Fault State
  | .shared_new p => shared_ptr.ctor s p
  | .shared_copy o => shared_ptr.ctor_copy s o
  | .shared_from_weak o => shared_ptr.ctor_weak s o
  | .shared_move o => shared_ptr.ctor_move s o
  | .shared_assign_copy t o => shared_ptr.assign_copy s t o
  | .shared_assign_move t o => shared_ptr.assign_move s t o
  | .shared_swap t o => shared_ptr.swap s t o
  | .shared_reset t p => shared_ptr.reset s t p
  | .shared_destroy t => (shared_ptr.dtor s t).map (fun s => s.drop t)
  | .weak_new p => weak_ptr.ctor s p
  | .weak_copy o => weak_ptr.ctor_copy s o
  | .weak_from_shared o => weak_ptr.ctor_shared s o
  | .weak_move o => weak_ptr.ctor_move s o
  | .weak_assign_copy t o => weak_ptr.assign_copy s t o
  | .weak_assign_move t o => weak_ptr.assign_move s t o
  | .weak_swap t o => weak_ptr.swap s t o
  | .weak_reset t => weak_ptr.reset s t
  | .weak_lock t => weak_ptr.lock s t
  | .weak_destroy t => (weak_ptr.dtor s t).map (fun s => s.drop t)

/-- Execute a list of statements in order, stopping at the first fault. -/
def run (s : State) : List Op → Except Fault State
  | [] => .ok s
  | op :: ops =>
    match step s op with
    | .ok s => run s ops
    | .error e => .error e

/-! ## Observations -/

/-- The current contents of block `a`, deleted or not. -/
def State.block (s : State) (a : Nat) : Option ControlBlock := s.heap.blocks[a]?

/-- How many times `delete pointer_` has been executed on payload `p`. -/
def State.payload_deletes (s : State) (p : Nat) : Nat := s.heap.deleted_payloads.count p

/-- How many times `delete control_block_` has been executed on block `a`. -/
def State.block_deletes (s : State) (a : Nat) : Nat := s.heap.deleted_blocks.count a

/-- Whether `o` is a `shared_ptr` whose `control_block_` is block `a`. -/
def Obj.is_shared_on (a : Nat) : Option Obj → Bool
  | some (.shared x) => x.control_block_ == some a
  | _ => false

/-- Whether `o` is a `weak_ptr` whose `control_block_` is block `a`. -/
def Obj.is_weak_on (a : Nat) : Option Obj → Bool
  | some (.weak x) => x.control_block_ == some a
  | _ => false

/-- Number of live `shared_ptr` objects whose `control_block_` is block `a`. -/
def State.live_shared (s : State) (a : Nat) : Nat := s.objs.countP (Obj.is_shared_on a)

/-- Number of live `weak_ptr` objects whose `control_block_` is block `a`. -/
def State.live_weak (s : State) (a : Nat) : Nat := s.objs.countP (Obj.is_weak_on a)

/-- Number of live objects of either class. -/
def State.live_objects (s : State) : Nat := s.objs.countP Option.isSome

/-! ## Scenario builders -/

/-- Predicate `sources_exist k l`: each statement of `l` names, as its source, an object
constructed before it, when `k` objects exist before the first statement and
every statement constructs one more. -/
def sources_exist (k : Nat) : List Nat → Prop
  | [] => True
  | x :: xs => x < k ∧ sources_exist (k + 1) xs

/-- Decision procedure for `sources_exist`. -/
instance sources_exist_decidable :
    ∀ (k : Nat) (l : List Nat), Decidable (sources_exist k l)
  | _, [] => isTrue trivial
  | k, x :: xs =>
    match Nat.decLt x k, sources_exist_decidable (k + 1) xs with
    | isTrue h1, isTrue h2 => isTrue ⟨h1, h2⟩
    | isFalse h1, _ => isFalse (fun h => h1 h.1)
    | _, isFalse h2 => isFalse (fun h => h2 h.2)

/-- Client program that builds one group: a strong handle over payload `p`
(object `0`), then one copy-constructed strong handle per entry of `copy_from`
(objects `1 .. copy_from.length`), then one weak handle derived from a strong
handle per entry of `weak_from`. -/
def build_group (p : Nat) (copy_from weak_from : List Nat) : List Op :=
  Op.shared_new (some p) ::
    (copy_from.map Op.shared_copy ++ weak_from.map Op.weak_from_shared)

/-! ## Classes of statements -/

/-- Statements that operate on `weak_ptr` objects only: construction from a raw
pointer, copy, move, assignment, swap, `reset`, `lock` and destruction. -/
def Op.weak_only : Op → Bool
  | .weak_new _ => true
  | .weak_copy _ => true
  | .weak_move _ => true
  | .weak_assign_copy _ _ => true
  | .weak_assign_move _ _ => true
  | .weak_swap _ _ => true
  | .weak_reset _ => true
  | .weak_lock _ => true
  | .weak_destroy _ => true
  | _ => false

/-- Statements of the counted fragment: copy and move construction of strong
handles, derivation of a weak handle from a strong one, copy and move
construction of weak handles, `lock`, and destruction of either kind. -/
def Op.counted : Op → Bool
  | .shared_copy _ => true
  | .shared_move _ => true
  | .weak_from_shared _ => true
  | .weak_copy _ => true
  | .weak_move _ => true
  | .weak_lock _ => true
  | .shared_destroy _ => true
  | .weak_destroy _ => true
  | _ => false

/-- Every statement except the direct construction of a strong handle from a
weak handle. -/
def Op.no_direct_promotion : Op → Bool
  | .shared_from_weak _ => false
  | _ => true

/-- The raw payload pointer a statement hands to a constructor or to
`shared_ptr::reset`, if any. -/
def Op.raw_payload : Op → Option Nat
  | .shared_new p => p
  | .shared_reset _ p => p
  | .weak_new p => p
  | _ => none

/-! ## Observations used by the invariants -/

/-- Strong count stored at address `a` of a block list; `0` where no block is. -/
def strong_at (bl : List ControlBlock) (a : Nat) : Nat :=
  match bl[a]? with
  | some b => b.ref_count
  | none => 0

/-- Weak count stored at address `a` of a block list; `0` where no block is. -/
def weak_at (bl : List ControlBlock) (a : Nat) : Nat :=
  match bl[a]? with
  | some b => b.weak_count
  | none => 0

/-- The `pointer_` member of a handle object. -/
def Obj.pointer : Obj → Option Nat
  | .shared x => x.pointer_
  | .weak x => x.pointer_

/-- The `control_block_` member of a handle object. -/
def Obj.record : Obj → Option Nat
  | .shared x => x.control_block_
  | .weak x => x.control_block_

/-- Invariant of the counted fragment for the group of payload `p`, whose
record is block 0: every block holds exactly the numbers of live strong and
weak handles attached to it, a block has been deleted (once) exactly when no
handle is attached to it, only allocated blocks were deleted, the handles on
block 0 are the ones that carry `p`, and `p` has been deleted (once) exactly
when no strong handle is attached to block 0. -/
def Exact (p : Nat) (s : State) : Prop :=
  (∀ a, strong_at s.heap.blocks a = s.live_shared a) ∧
  (∀ a, weak_at s.heap.blocks a = s.live_weak a) ∧
  (∀ a, a < s.heap.blocks.length →
    s.block_deletes a = if s.live_shared a + s.live_weak a = 0 then 1 else 0) ∧
  (∀ a ∈ s.heap.deleted_blocks, a < s.heap.blocks.length) ∧
  (∀ (x : Nat) (o : Obj), s.objs[x]? = some (some o) →
    (o.record = some 0 → o.pointer = some p) ∧ (o.pointer ≠ none → o.record = some 0)) ∧
  s.heap.deleted_payloads = (if s.live_shared 0 = 0 then [p] else []) ∧
  0 < s.heap.blocks.length

/-! ## Invariants of runs without direct promotion -/

/-- Invariant of runs without direct promotion, after `k` statements: every
block's strong count covers the live strong handles attached to it and is at
most `k`; a deleted block is an allocated block whose strong count is 0. -/
def Safe (s : State) (k : Nat) : Prop :=
  (∀ a, s.live_shared a ≤ strong_at s.heap.blocks a) ∧
  (∀ a, strong_at s.heap.blocks a ≤ k) ∧
  (∀ a ∈ s.heap.deleted_blocks, strong_at s.heap.blocks a = 0 ∧ a < s.heap.blocks.length)

/-- Ownership discipline for raw payloads, `used` being the payloads handed to
constructors and `reset` so far: a payload carried by a handle was handed out;
handles that carry the same payload are attached to the same record; a deleted
payload was handed out, and every handle that still carries it is attached to
an allocated block whose strong count is 0. -/
def Owned (s : State) (used : List Nat) : Prop :=
  (∀ (x : Nat) (o : Obj) (p : Nat), s.objs[x]? = some (some o) → o.pointer = some p →
    p ∈ used) ∧
  (∀ (x y : Nat) (o1 o2 : Obj) (p : Nat), s.objs[x]? = some (some o1) →
    s.objs[y]? = some (some o2) → o1.pointer = some p → o2.pointer = some p →
    o1.record = o2.record) ∧
  (∀ p ∈ s.heap.deleted_payloads, p ∈ used ∧
    ∀ (x : Nat) (o : Obj), s.objs[x]? = some (some o) → o.pointer = some p →
      ∃ a, o.record = some a ∧ a < s.heap.blocks.length ∧ strong_at s.heap.blocks a = 0)

/-- Where the members of an object come from: a null payload, or the members
of an object of the previous table `objs`, or the raw payload `rp` together
with the block allocated at address `n`. -/
def Derived (objs : List (Option Obj)) (rp : Option Nat) (n : Nat) (v : Option Obj) : Prop :=
  ∀ o', v = some o' →
    o'.pointer = none ∨
    (∃ (y : Nat) (o : Obj), objs[y]? = some (some o) ∧ o.pointer = o'.pointer ∧
      o.record = o'.record) ∨
    (o'.pointer = rp ∧ o'.record = some n)

/-- Every entry of the table `l` is `Derived` from the table `objs`. -/
def Prov (objs : List (Option Obj)) (rp : Option Nat) (n : Nat) (l : List (Option Obj)) :
    Prop :=
  ∀ (x : Nat) (v : Option Obj), l[x]? = some v → Derived objs rp n v

/-- What one statement does to the free store and the object table, as far as
the ownership discipline is concerned: objects get their members from old
objects or from the statement's raw payload; the block list only grows; a
strong count that is 0 stays 0; and the payload log is unchanged or extended by
the payload of a strong handle whose record's strong count has reached 0. -/
def Effect (s s' : State) (rp : Option Nat) : Prop :=
  Prov s.objs rp s.heap.blocks.length s'.objs ∧
  s.heap.blocks.length ≤ s'.heap.blocks.length ∧
  (∀ a, a < s.heap.blocks.length → strong_at s.heap.blocks a = 0 →
    strong_at s'.heap.blocks a = 0) ∧
  (s'.heap.deleted_payloads = s.heap.deleted_payloads ∨
    ∃ (p a t : Nat), s'.heap.deleted_payloads = s.heap.deleted_payloads ++ [p] ∧
      s.objs[t]? = some (some (Obj.shared ⟨some p, some a⟩)) ∧
      a < s'.heap.blocks.length ∧ strong_at s'.heap.blocks a = 0)

/-! ## Arithmetic and memory lemmas -/

/-- Below `SIZE_MAX` the increment does not wrap. -/
theorem size_t_inc_of_lt {x : Nat} (h : x + 1 < SIZE_T_RANGE) :
    size_t_inc x = x + 1 := by
  unfold size_t_inc SIZE_T_RANGE at *; omega

/-- Above `0` the decrement does not wrap. -/
theorem size_t_dec_of_pos {x : Nat} (h0 : 0 < x) (h : x < SIZE_T_RANGE) :
    size_t_dec x = x - 1 := by
  unfold size_t_dec SIZE_T_RANGE at *; omega

/-- A decrement reaches `0` exactly from `1`. -/
theorem size_t_dec_eq_zero_iff {x : Nat} (h : x < SIZE_T_RANGE) :
    size_t_dec x = 0 ↔ x = 1 := by
  unfold size_t_dec SIZE_T_RANGE at *; omega

/-- Access to an allocated, not deleted block succeeds. -/
theorem Heap.deref_ok {h : Heap} {a : Nat} {b : ControlBlock}
    (hd : a ∉ h.deleted_blocks) (hb : h.blocks[a]? = some b) :
    h.deref (some a) = .ok (a, b) := by
  simp [Heap.deref, hd, hb]

/-- An address holding a block is below the allocation count. -/
theorem Heap.lt_of_block {h : Heap} {a : Nat} {b : ControlBlock}
    (hb : h.blocks[a]? = some b) : a < h.blocks.length :=
  (List.getElem?_eq_some.1 hb).1

/-- Reading back the block that was just written. -/
theorem Heap.write_blocks_self {h : Heap} {a : Nat} {b : ControlBlock} (c : ControlBlock)
    (hb : h.blocks[a]? = some b) : (h.write a c).blocks[a]? = some c := by
  simp [Heap.write, Heap.lt_of_block hb]

/-- Writing block `a` leaves every other block as it was. -/
theorem Heap.write_blocks_ne {h : Heap} {a a' : Nat} (c : ControlBlock) (hne : a ≠ a') :
    (h.write a c).blocks[a']? = h.blocks[a']? := by
  simp [Heap.write, hne]

/-- Lookup of a live `shared_ptr` object. -/
theorem State.get_shared_ok {s : State} {x : Nat} {p : shared_ptr}
    (h : s.objs[x]? = some (some (.shared p))) : s.get_shared x = .ok p := by
  simp [State.get_shared, h]

/-- Lookup of a live `weak_ptr` object. -/
theorem State.get_weak_ok {s : State} {x : Nat} {p : weak_ptr}
    (h : s.objs[x]? = some (some (.weak p))) : s.get_weak x = .ok p := by
  simp [State.get_weak, h]

/-- Lookup of a `shared_ptr` succeeds exactly on a live `shared_ptr` entry. -/
theorem State.get_shared_eq_ok {s : State} {x : Nat} {p : shared_ptr} :
    s.get_shared x = .ok p ↔ s.objs[x]? = some (some (.shared p)) := by
  unfold State.get_shared
  split
  · next q h => simp [h]
  · next h =>
    constructor
    · intro h'; cases h'
    · intro h'; exact absurd h' (h p)

/-- Lookup of a `weak_ptr` succeeds exactly on a live `weak_ptr` entry. -/
theorem State.get_weak_eq_ok {s : State} {x : Nat} {p : weak_ptr} :
    s.get_weak x = .ok p ↔ s.objs[x]? = some (some (.weak p)) := by
  unfold State.get_weak
  split
  · next q h => simp [h]
  · next h =>
    constructor
    · intro h'; cases h'
    · intro h'; exact absurd h' (h p)

/-! ## One-step characterisations -/

/-- Effect of `~shared_ptr()` on a handle attached to a live record. -/
theorem shared_dtor_ok {s : State} {x a : Nat} {q : Option Nat} {b : ControlBlock}
    (hx : s.objs[x]? = some (some (.shared ⟨q, some a⟩)))
    (hd : a ∉ s.heap.deleted_blocks) (hb : s.heap.blocks[a]? = some b) :
    shared_ptr.dtor s x = .ok ⟨
      if size_t_dec b.ref_count = 0 then
        if b.weak_count = 0 then
          ((s.heap.write a ⟨size_t_dec b.ref_count, b.weak_count⟩).delete_payload q).delete_block a
        else (s.heap.write a ⟨size_t_dec b.ref_count, b.weak_count⟩).delete_payload q
      else s.heap.write a ⟨size_t_dec b.ref_count, b.weak_count⟩, s.objs⟩ := by
  simp only [shared_ptr.dtor, State.get_shared_ok hx, Heap.deref_ok hd hb, bind, Except.bind]
  split_ifs <;> rfl

/-- Effect of `~weak_ptr()` on a handle attached to a live record. -/
theorem weak_dtor_ok {s : State} {x a : Nat} {q : Option Nat} {b : ControlBlock}
    (hx : s.objs[x]? = some (some (.weak ⟨q, some a⟩)))
    (hd : a ∉ s.heap.deleted_blocks) (hb : s.heap.blocks[a]? = some b) :
    weak_ptr.dtor s x = .ok ⟨
      if size_t_dec b.weak_count = 0 ∧ b.ref_count = 0 then
        (s.heap.write a ⟨b.ref_count, size_t_dec b.weak_count⟩).delete_block a
      else s.heap.write a ⟨b.ref_count, size_t_dec b.weak_count⟩, s.objs⟩ := by
  simp only [weak_ptr.dtor, State.get_weak_ok hx, Heap.deref_ok hd hb, bind, Except.bind]
  split_ifs <;> rfl

/-- Value of `expired()` on a handle attached to a live record. -/
theorem weak_expired_ok {s : State} {x a : Nat} {q : Option Nat} {b : ControlBlock}
    (hx : s.objs[x]? = some (some (.weak ⟨q, some a⟩)))
    (hd : a ∉ s.heap.deleted_blocks) (hb : s.heap.blocks[a]? = some b) :
    weak_ptr.expired s x = .ok (b.ref_count == 0) := by
  simp only [weak_ptr.expired, State.get_weak_ok hx, Heap.deref_ok hd hb, bind, Except.bind]

/-- Effect of `lock()` when the strong count is positive. -/
theorem weak_lock_live {s : State} {x a : Nat} {q : Option Nat} {b : ControlBlock}
    (hx : s.objs[x]? = some (some (.weak ⟨q, some a⟩)))
    (hd : a ∉ s.heap.deleted_blocks) (hb : s.heap.blocks[a]? = some b)
    (hpos : 0 < b.ref_count) :
    weak_ptr.lock s x = .ok ⟨s.heap.write a ⟨size_t_inc b.ref_count, b.weak_count⟩,
      s.objs ++ [some (.shared ⟨q, some a⟩)]⟩ := by
  have hne : (b.ref_count == 0) = false := by simp; omega
  simp only [weak_ptr.lock, weak_expired_ok hx hd hb, hne, shared_ptr.ctor_weak,
    State.get_weak_ok hx, Heap.deref_ok hd hb, bind, Except.bind, State.push]
  rfl

/-- Effect of `lock()` when the strong count is zero. -/
theorem weak_lock_expired {s : State} {x a : Nat} {q : Option Nat} {b : ControlBlock}
    (hx : s.objs[x]? = some (some (.weak ⟨q, some a⟩)))
    (hd : a ∉ s.heap.deleted_blocks) (hb : s.heap.blocks[a]? = some b)
    (h0 : b.ref_count = 0) :
    weak_ptr.lock s x = .ok ⟨⟨s.heap.blocks ++ [⟨1, 0⟩], s.heap.deleted_blocks,
      s.heap.deleted_payloads⟩, s.objs ++ [some (.shared ⟨none, some s.heap.blocks.length⟩)]⟩ := by
  have he : (b.ref_count == 0) = true := by simp [h0]
  simp only [weak_ptr.lock, weak_expired_ok hx hd hb, he, shared_ptr.ctor,
    bind, Except.bind, State.push, Heap.new_block]
  rfl

/-- Effect of the `shared_ptr` move constructor. -/
theorem shared_ctor_move_ok {s : State} {src : Nat} {o : shared_ptr}
    (hs : s.get_shared src = .ok o) :
    shared_ptr.ctor_move s src = .ok ⟨s.heap,
      s.objs.set src (some (.shared ⟨none, none⟩)) ++ [some (.shared o)]⟩ := by
  simp only [shared_ptr.ctor_move, hs, bind, Except.bind]; rfl

/-- Effect of `shared_ptr` move assignment from a distinct source. -/
theorem shared_assign_move_ok {s : State} {dst src : Nat} {o d : shared_ptr}
    (hs : s.get_shared src = .ok o) (hd : s.get_shared dst = .ok d) (hne : src ≠ dst) :
    shared_ptr.assign_move s dst src = .ok ⟨s.heap,
      (s.objs.set dst (some (.shared o))).set src (some (.shared ⟨none, none⟩))⟩ := by
  simp only [shared_ptr.assign_move, hs, hd, bind, Except.bind, ne_eq, hne, not_false_eq_true,
    if_true]; rfl

/-- Effect of the `weak_ptr` move constructor. -/
theorem weak_ctor_move_ok {s : State} {src : Nat} {o : weak_ptr}
    (hs : s.get_weak src = .ok o) :
    weak_ptr.ctor_move s src = .ok ⟨s.heap,
      s.objs.set src (some (.weak ⟨none, none⟩)) ++ [some (.weak o)]⟩ := by
  simp only [weak_ptr.ctor_move, hs, bind, Except.bind]; rfl

/-- Effect of `weak_ptr` move assignment from a distinct source. -/
theorem weak_assign_move_ok {s : State} {dst src : Nat} {o d : weak_ptr}
    (hs : s.get_weak src = .ok o) (hd : s.get_weak dst = .ok d) (hne : src ≠ dst) :
    weak_ptr.assign_move s dst src = .ok ⟨s.heap,
      (s.objs.set dst (some (.weak o))).set src (some (.weak ⟨none, none⟩))⟩ := by
  simp only [weak_ptr.assign_move, hs, hd, bind, Except.bind, ne_eq, hne, not_false_eq_true,
    if_true]; rfl

/-- Effect of destroying a strong handle attached to a live record. -/
theorem step_shared_destroy_ok {s : State} {x a : Nat} {q : Option Nat} {b : ControlBlock}
    (hx : s.objs[x]? = some (some (.shared ⟨q, some a⟩)))
    (hd : a ∉ s.heap.deleted_blocks) (hb : s.heap.blocks[a]? = some b) :
    step s (.shared_destroy x) = .ok ⟨
      if size_t_dec b.ref_count = 0 then
        if b.weak_count = 0 then
          ((s.heap.write a ⟨size_t_dec b.ref_count, b.weak_count⟩).delete_payload q).delete_block a
        else (s.heap.write a ⟨size_t_dec b.ref_count, b.weak_count⟩).delete_payload q
      else s.heap.write a ⟨size_t_dec b.ref_count, b.weak_count⟩, s.objs.set x none⟩ := by
  simp only [step, shared_dtor_ok hx hd hb, Except.map]
  split_ifs <;> rfl

/-- Effect of destroying a weak handle attached to a live record. -/
theorem step_weak_destroy_ok {s : State} {x a : Nat} {q : Option Nat} {b : ControlBlock}
    (hx : s.objs[x]? = some (some (.weak ⟨q, some a⟩)))
    (hd : a ∉ s.heap.deleted_blocks) (hb : s.heap.blocks[a]? = some b) :
    step s (.weak_destroy x) = .ok ⟨
      if size_t_dec b.weak_count = 0 ∧ b.ref_count = 0 then
        (s.heap.write a ⟨b.ref_count, size_t_dec b.weak_count⟩).delete_block a
      else s.heap.write a ⟨b.ref_count, size_t_dec b.weak_count⟩, s.objs.set x none⟩ := by
  simp only [step, weak_dtor_ok hx hd hb, Except.map]
  split_ifs <;> rfl

/-- Effect of `shared_ptr::reset` on a handle attached to a live record. -/
theorem shared_reset_ok {s : State} {x a : Nat} {q np : Option Nat} {b : ControlBlock}
    (hx : s.objs[x]? = some (some (.shared ⟨q, some a⟩)))
    (hd : a ∉ s.heap.deleted_blocks) (hb : s.heap.blocks[a]? = some b) :
    shared_ptr.reset s x np = .ok ⟨
      ((if size_t_dec b.ref_count = 0 then
        if b.weak_count = 0 then
          ((s.heap.write a ⟨size_t_dec b.ref_count, b.weak_count⟩).delete_payload q).delete_block a
        else (s.heap.write a ⟨size_t_dec b.ref_count, b.weak_count⟩).delete_payload q
      else s.heap.write a ⟨size_t_dec b.ref_count, b.weak_count⟩).new_block 1 0).1,
      s.objs.set x (some (.shared ⟨np, some s.heap.blocks.length⟩))⟩ := by
  simp only [shared_ptr.reset, shared_dtor_ok hx hd hb, bind, Except.bind]
  split_ifs <;> cases q <;>
    simp [State.put, Heap.new_block, Heap.write, Heap.delete_payload, Heap.delete_block]

/-! ## Runs of a single group -/

/-- Running a concatenation continues from the state the first part ends in. -/
theorem run_append_of_ok {s s1 : State} {l1 : List Op} (l2 : List Op)
    (h : run s l1 = .ok s1) : run s (l1 ++ l2) = run s1 l2 := by
  induction l1 generalizing s with
  | nil => simp only [run] at h; cases h; rfl
  | cons op ops ih =>
    cases hstep : step s op with
    | error e => simp only [run, hstep] at h; cases h
    | ok s' =>
      simp only [List.cons_append, run, hstep] at h ⊢
      exact ih h

/-- Ending object lifetimes keeps the size of the object table. -/
theorem foldl_drop_length (l : List Nat) (objs : List (Option Obj)) :
    (l.foldl (fun o x => o.set x none) objs).length = objs.length := by
  induction l generalizing objs with
  | nil => rfl
  | cons x xs ih => simp only [List.foldl_cons, ih, List.length_set]

/-- Ending the lifetimes of the objects in `l` leaves the others alone. -/
theorem foldl_drop_of_not_mem (l : List Nat) (objs : List (Option Obj)) (y : Nat)
    (hy : y ∉ l) : (l.foldl (fun o x => o.set x none) objs)[y]? = objs[y]? := by
  induction l generalizing objs with
  | nil => rfl
  | cons x xs ih =>
    have hne : x ≠ y := fun h => hy (h ▸ List.mem_cons_self _ _)
    have hy' : y ∉ xs := fun h => hy (List.mem_cons_of_mem _ h)
    simp only [List.foldl_cons, ih _ hy', List.getElem?_set_ne hne]

/-- Every object named in `l` is gone after ending the lifetimes in `l`. -/
theorem foldl_drop_of_mem (l : List Nat) (objs : List (Option Obj)) (y : Nat)
    (hy : y ∈ l) (hlt : y < objs.length) :
    (l.foldl (fun o x => o.set x none) objs)[y]? = some none := by
  induction l generalizing objs with
  | nil => cases hy
  | cons x xs ih =>
    simp only [List.foldl_cons]
    by_cases hmem : y ∈ xs
    · exact ih _ hmem (by simpa using hlt)
    · have hxy : y = x := by
        rcases List.mem_cons.1 hy with h | h
        · exact h
        · exact absurd h hmem
      subst hxy
      rw [foldl_drop_of_not_mem _ _ _ hmem]
      simp [hlt]

/-- Copy-constructing from members of a group of `k` identical strong handles. -/
theorem run_shared_copies (p : Nat) (l : List Nat) :
    ∀ k : Nat, sources_exist k l → k + l.length < SIZE_T_RANGE →
      run ⟨⟨[⟨k, 0⟩], [], []⟩, List.replicate k (some (Obj.shared ⟨some p, some 0⟩))⟩
          (l.map Op.shared_copy) =
        .ok ⟨⟨[⟨k + l.length, 0⟩], [], []⟩,
          List.replicate (k + l.length) (some (Obj.shared ⟨some p, some 0⟩))⟩ := by
  induction l with
  | nil => intro k _ _; rfl
  | cons x xs ih =>
    intro k hsrc hlt
    obtain ⟨hx, hrest⟩ := hsrc
    have hlen : k + 1 + xs.length < SIZE_T_RANGE := by
      simp only [List.length_cons] at hlt; omega
    have hinc : size_t_inc k = k + 1 := size_t_inc_of_lt (by omega)
    have hstep : step ⟨⟨[⟨k, 0⟩], [], []⟩,
          List.replicate k (some (Obj.shared ⟨some p, some 0⟩))⟩ (Op.shared_copy x) =
        .ok ⟨⟨[⟨k + 1, 0⟩], [], []⟩,
          List.replicate (k + 1) (some (Obj.shared ⟨some p, some 0⟩))⟩ := by
      simp [step, shared_ptr.ctor_copy, State.get_shared, hx, Heap.deref, Heap.write,
        State.push, bind, Except.bind, hinc, List.replicate_succ']
    simp only [List.map_cons, run, hstep]
    rw [ih (k + 1) hrest hlen]
    have e : k + 1 + xs.length = k + (xs.length + 1) := by omega
    simp only [List.length_cons, e]

/-- Deriving weak handles from a group of `n` identical strong handles. -/
theorem run_weak_derivations (p n : Nat) (l : List Nat) :
    ∀ j : Nat, (∀ x ∈ l, x < n) → j + l.length < SIZE_T_RANGE →
      run ⟨⟨[⟨n, j⟩], [], []⟩, List.replicate n (some (Obj.shared ⟨some p, some 0⟩)) ++
            List.replicate j (some (Obj.weak ⟨some p, some 0⟩))⟩
          (l.map Op.weak_from_shared) =
        .ok ⟨⟨[⟨n, j + l.length⟩], [], []⟩,
          List.replicate n (some (Obj.shared ⟨some p, some 0⟩)) ++
            List.replicate (j + l.length) (some (Obj.weak ⟨some p, some 0⟩))⟩ := by
  induction l with
  | nil => intro j _ _; rfl
  | cons x xs ih =>
    intro j hsrc hlt
    have hx : x < n := hsrc x (List.mem_cons_self _ _)
    have hlen : j + 1 + xs.length < SIZE_T_RANGE := by
      simp only [List.length_cons] at hlt; omega
    have hinc : size_t_inc j = j + 1 := size_t_inc_of_lt (by omega)
    have hget : (List.replicate n (some (Obj.shared ⟨some p, some 0⟩)) ++
        List.replicate j (some (Obj.weak ⟨some p, some 0⟩)))[x]? =
        some (some (Obj.shared ⟨some p, some 0⟩)) := by
      rw [List.getElem?_append_left (by simpa using hx)]
      simp [hx]
    have hstep : step ⟨⟨[⟨n, j⟩], [], []⟩,
          List.replicate n (some (Obj.shared ⟨some p, some 0⟩)) ++
            List.replicate j (some (Obj.weak ⟨some p, some 0⟩))⟩ (Op.weak_from_shared x) =
        .ok ⟨⟨[⟨n, j + 1⟩], [], []⟩,
          List.replicate n (some (Obj.shared ⟨some p, some 0⟩)) ++
            List.replicate (j + 1) (some (Obj.weak ⟨some p, some 0⟩))⟩ := by
      simp only [step, weak_ptr.ctor_shared, State.get_shared, hget]
      simp [Heap.deref, Heap.write, State.push, bind, Except.bind, hinc, List.replicate_succ']
    simp only [List.map_cons, run, hstep]
    rw [ih (j + 1) (fun y hy => hsrc y (List.mem_cons_of_mem _ hy)) hlen]
    have e : j + 1 + xs.length = j + (xs.length + 1) := by omega
    simp only [List.length_cons, e]

/-- Destroying distinct strong handles of one group while weak handles remain. -/
theorem run_shared_destroys (p m : Nat) (hm : 0 < m) (l : List Nat) :
    ∀ (c : Nat) (objs : List (Option Obj)),
      l.Nodup → (∀ x ∈ l, objs[x]? = some (some (Obj.shared ⟨some p, some 0⟩))) →
      l.length ≤ c → c < SIZE_T_RANGE →
      run ⟨⟨[⟨c, m⟩], [], []⟩, objs⟩ (l.map Op.shared_destroy) =
        .ok ⟨⟨[⟨c - l.length, m⟩], [], if 0 < l.length ∧ l.length = c then [p] else []⟩,
          l.foldl (fun o x => o.set x none) objs⟩ := by
  induction l with
  | nil => intro c objs _ _ _ _; simp [run]
  | cons x xs ih =>
    intro c objs hnd hobj hlen hc
    simp only [List.length_cons] at hlen
    have hx := hobj x (List.mem_cons_self _ _)
    have hxs : x ∉ xs := (List.nodup_cons.1 hnd).1
    have hdv : size_t_dec c = c - 1 := size_t_dec_of_pos (by omega) hc
    have hm0 : m ≠ 0 := by omega
    have hstep := step_shared_destroy_ok (s := ⟨⟨[⟨c, m⟩], [], []⟩, objs⟩) (x := x) (a := 0)
      (q := some p) (b := ⟨c, m⟩) hx (by simp) rfl
    simp only [List.map_cons, run, hstep, hdv]
    by_cases h1 : c = 1
    · subst h1
      have hnil : xs = [] := List.length_eq_zero.1 (by omega)
      subst hnil
      simp [run, hm0, Heap.write, Heap.delete_payload]
    · have hne : ¬ c - 1 = 0 := by omega
      have hobj' : ∀ y ∈ xs, (objs.set x none)[y]? =
          some (some (Obj.shared ⟨some p, some 0⟩)) := by
        intro y hy
        have hxy : x ≠ y := fun h => hxs (h ▸ hy)
        rw [List.getElem?_set_ne hxy]
        exact hobj y (List.mem_cons_of_mem _ hy)
      have hrun := ih (c - 1) (objs.set x none) (List.nodup_cons.1 hnd).2 hobj' (by omega)
        (by omega)
      simp only [hne, if_false, Heap.write, List.set_cons_zero]
      rw [hrun]
      have e1 : c - 1 - xs.length = c - (xs.length + 1) := by omega
      have e2 : (0 < xs.length ∧ xs.length = c - 1) ↔
          (0 < xs.length + 1 ∧ xs.length + 1 = c) := by omega
      simp only [e1, e2, List.length_cons, List.foldl_cons]

/-- Destroying distinct weak handles of one group whose strong count is `0`. -/
theorem run_weak_destroys (p : Nat) (P : List Nat) (l : List Nat) :
    ∀ (c : Nat) (objs : List (Option Obj)),
      l.Nodup → (∀ x ∈ l, objs[x]? = some (some (Obj.weak ⟨some p, some 0⟩))) →
      l.length ≤ c → c < SIZE_T_RANGE →
      run ⟨⟨[⟨0, c⟩], [], P⟩, objs⟩ (l.map Op.weak_destroy) =
        .ok ⟨⟨[⟨0, c - l.length⟩], if 0 < l.length ∧ l.length = c then [0] else [], P⟩,
          l.foldl (fun o x => o.set x none) objs⟩ := by
  induction l with
  | nil => intro c objs _ _ _ _; simp [run]
  | cons x xs ih =>
    intro c objs hnd hobj hlen hc
    simp only [List.length_cons] at hlen
    have hx := hobj x (List.mem_cons_self _ _)
    have hxs : x ∉ xs := (List.nodup_cons.1 hnd).1
    have hdv : size_t_dec c = c - 1 := size_t_dec_of_pos (by omega) hc
    have hstep := step_weak_destroy_ok (s := ⟨⟨[⟨0, c⟩], [], P⟩, objs⟩) (x := x) (a := 0)
      (q := some p) (b := ⟨0, c⟩) hx (by simp) rfl
    simp only [List.map_cons, run, hstep, hdv]
    by_cases h1 : c = 1
    · subst h1
      have hnil : xs = [] := List.length_eq_zero.1 (by omega)
      subst hnil
      simp [run, Heap.write, Heap.delete_block]
    · have hne : ¬ c - 1 = 0 := by omega
      have hobj' : ∀ y ∈ xs, (objs.set x none)[y]? =
          some (some (Obj.weak ⟨some p, some 0⟩)) := by
        intro y hy
        have hxy : x ≠ y := fun h => hxs (h ▸ hy)
        rw [List.getElem?_set_ne hxy]
        exact hobj y (List.mem_cons_of_mem _ hy)
      have hrun := ih (c - 1) (objs.set x none) (List.nodup_cons.1 hnd).2 hobj' (by omega)
        (by omega)
      simp only [hne, false_and, if_false, Heap.write, List.set_cons_zero]
      rw [hrun]
      have e1 : c - 1 - xs.length = c - (xs.length + 1) := by omega
      have e2 : (0 < xs.length ∧ xs.length = c - 1) ↔
          (0 < xs.length + 1 ∧ xs.length + 1 = c) := by omega
      simp only [e1, e2, List.length_cons, List.foldl_cons]

/-- State reached by `build_group`: one record and identical handles. -/
theorem run_build_group (p : Nat) (copy_from weak_from : List Nat)
    (hcopy : sources_exist 1 copy_from)
    (hweak : ∀ x ∈ weak_from, x < copy_from.length + 1)
    (hn64 : copy_from.length + 1 < SIZE_T_RANGE) (hm64 : weak_from.length < SIZE_T_RANGE) :
    run State.init (build_group p copy_from weak_from) =
      .ok ⟨⟨[⟨copy_from.length + 1, weak_from.length⟩], [], []⟩,
        List.replicate (copy_from.length + 1) (some (Obj.shared ⟨some p, some 0⟩)) ++
          List.replicate weak_from.length (some (Obj.weak ⟨some p, some 0⟩))⟩ := by
  have h0 : step State.init (Op.shared_new (some p)) =
      .ok ⟨⟨[⟨1, 0⟩], [], []⟩, List.replicate 1 (some (Obj.shared ⟨some p, some 0⟩))⟩ := rfl
  have h1 := run_shared_copies p copy_from 1 hcopy (by omega)
  have h2 := run_weak_derivations p (copy_from.length + 1) weak_from 0 hweak (by omega)
  simp only [Nat.add_comm 1 copy_from.length, Nat.zero_add] at h1 h2
  simp only [List.replicate_zero, List.append_nil] at h2
  simp only [build_group, run, h0]
  rw [run_append_of_ok _ h1, h2]

/-! ## Strong count versus live strong handles (C1) -/

/-- C1, evaluated on the code: with `A` over payload 7 and `B` copy-constructed
from `A`, the copy assignment `B = A` leaves `ref_count == 3` with two live
strong handles on the record, and the move assignment `B = std::move(A)` leaves
`ref_count == 2` with one live strong handle on it. -/
theorem assignment_strong_count_exceeds_live_handles :
    (run State.init [.shared_new (some 7), .shared_copy 0, .shared_assign_copy 1 0]).map
        (fun s => (s.block 0, s.live_shared 0)) = .ok (some ⟨3, 0⟩, 2) ∧
    (run State.init [.shared_new (some 7), .shared_copy 0, .shared_assign_move 1 0]).map
        (fun s => (s.block 0, s.live_shared 0)) = .ok (some ⟨2, 0⟩, 1) :=
  ⟨rfl, rfl⟩

/-! ## Payload deallocation (C2) -/

/-- C2, evaluated on the code: after `A` over payload 7, `B(A)`, `B = A`,
`~A`, `~B` no handle is alive, the record still holds `ref_count == 1` and the
payload was never deleted; after `A` over payload 7, `W(A)`, `~A`,
`C = shared_ptr(W)`, `~C`, `~W` no handle is alive and the payload was deleted
twice. -/
theorem payload_leaked_or_deleted_twice :
    (run State.init [.shared_new (some 7), .shared_copy 0, .shared_assign_copy 1 0,
        .shared_destroy 0, .shared_destroy 1]).map
        (fun s => (s.live_objects, s.block 0, s.payload_deletes 7)) =
      .ok (0, some ⟨1, 0⟩, 0) ∧
    (run State.init [.shared_new (some 7), .weak_from_shared 0, .shared_destroy 0,
        .shared_from_weak 1, .shared_destroy 2, .weak_destroy 1]).map
        (fun s => (s.live_objects, s.payload_deletes 7)) = .ok (0, 2) :=
  ⟨rfl, rfl⟩

/-! ## Record deallocation (C3) -/

/-- C3, evaluated on the code: after `A` over payload 7, `W(A)`, `~A`, the call
`W.reset()` leaves record 0 with both counts 0 and not deleted; the following
`~W` wraps the weak count of the record allocated by `reset` to `2 ^ 64 - 1`,
and with no handle left alive neither record has been deleted. -/
theorem weak_reset_leaks_record_and_wraps :
    (run State.init [.shared_new (some 7), .weak_from_shared 0, .shared_destroy 0,
        .weak_reset 1]).map
        (fun s => (s.block 0, s.block_deletes 0)) = .ok (some ⟨0, 0⟩, 0) ∧
    (run State.init [.shared_new (some 7), .weak_from_shared 0, .shared_destroy 0,
        .weak_reset 1, .weak_destroy 1]).map
        (fun s => (s.live_objects, s.block 0, s.block 1, s.heap.deleted_blocks)) =
      .ok (0, some ⟨0, 0⟩, some ⟨0, 18446744073709551615⟩, []) :=
  ⟨rfl, rfl⟩

/-! ## Building and tearing down one group (C4) -/

/-- C4: build one group with `n = copy_from.length + 1` strong handles (one
constructed over payload `p`, the others copy-constructed from any earlier
one) and `m = weak_from.length >= 1` weak handles derived from any of them.
The record then holds (n, m).  Destroying the strong handles in any order
deletes the payload exactly at the last of them and leaves the record
allocated with (0, m); destroying the weak handles afterwards in any order
deletes the record exactly once, at the last of them, and no handle is left. -/
theorem group_teardown_frees_payload_then_record (p : Nat)
    (copy_from weak_from strong_order weak_order : List Nat)
    (hcopy : sources_exist 1 copy_from)
    (hweak : ∀ x ∈ weak_from, x < copy_from.length + 1)
    (hm : 0 < weak_from.length)
    (hn64 : copy_from.length + 1 < SIZE_T_RANGE) (hm64 : weak_from.length < SIZE_T_RANGE)
    (hso : strong_order.Perm (List.range (copy_from.length + 1)))
    (hwo : weak_order.Perm (List.range' (copy_from.length + 1) weak_from.length)) :
    ∃ s1 s2 s3 : State,
      run State.init (build_group p copy_from weak_from) = .ok s1 ∧
      s1.block 0 = some ⟨copy_from.length + 1, weak_from.length⟩ ∧
      s1.live_shared 0 = copy_from.length + 1 ∧
      s1.live_weak 0 = weak_from.length ∧
      (∀ k, k < copy_from.length + 1 →
        ∃ s, run s1 ((strong_order.take k).map Op.shared_destroy) = .ok s ∧
          s.payload_deletes p = 0) ∧
      run s1 (strong_order.map Op.shared_destroy) = .ok s2 ∧
      s2.payload_deletes p = 1 ∧
      s2.block_deletes 0 = 0 ∧
      s2.block 0 = some ⟨0, weak_from.length⟩ ∧
      (∀ k, k < weak_from.length →
        ∃ s, run s2 ((weak_order.take k).map Op.weak_destroy) = .ok s ∧
          s.block_deletes 0 = 0) ∧
      run s2 (weak_order.map Op.weak_destroy) = .ok s3 ∧
      s3.block_deletes 0 = 1 ∧
      s3.payload_deletes p = 1 ∧
      s3.live_objects = 0 := by
  -- facts about the two destruction orders
  have hsn : strong_order.Nodup := hso.nodup_iff.2 (List.nodup_range _)
  have hwn : weak_order.Nodup := hwo.nodup_iff.2 (List.nodup_range' _ _)
  have hsl : strong_order.length = copy_from.length + 1 := by
    rw [hso.length_eq, List.length_range]
  have hwl : weak_order.length = weak_from.length := by
    rw [hwo.length_eq, List.length_range']
  have hsmem : ∀ x, x ∈ strong_order ↔ x < copy_from.length + 1 := fun x => by
    rw [hso.mem_iff, List.mem_range]
  have hwmem : ∀ x, x ∈ weak_order ↔
      copy_from.length + 1 ≤ x ∧ x < copy_from.length + 1 + weak_from.length := fun x => by
    rw [hwo.mem_iff, List.mem_range'_1]
  -- the objects after construction
  have hS : ∀ x ∈ strong_order,
      (List.replicate (copy_from.length + 1) (some (Obj.shared ⟨some p, some 0⟩)) ++
        List.replicate weak_from.length (some (Obj.weak ⟨some p, some 0⟩)))[x]? =
        some (some (Obj.shared ⟨some p, some 0⟩)) := by
    intro x hx
    have hlt := (hsmem x).1 hx
    rw [List.getElem?_append_left (by simpa using hlt)]
    simp [hlt]
  have hW : ∀ x ∈ weak_order,
      (strong_order.foldl (fun o x => o.set x none)
        (List.replicate (copy_from.length + 1) (some (Obj.shared ⟨some p, some 0⟩)) ++
          List.replicate weak_from.length (some (Obj.weak ⟨some p, some 0⟩))))[x]? =
        some (some (Obj.weak ⟨some p, some 0⟩)) := by
    intro x hx
    obtain ⟨hge, hlt⟩ := (hwmem x).1 hx
    have hnot : x ∉ strong_order := fun h => by have := (hsmem x).1 h; omega
    rw [foldl_drop_of_not_mem _ _ _ hnot, List.getElem?_append_right (by simpa using hge)]
    simp only [List.length_replicate]
    rw [List.getElem?_replicate_of_lt (by omega)]
  have hbuild := run_build_group p copy_from weak_from hcopy hweak hn64 hm64
  have hrunS := run_shared_destroys p weak_from.length hm strong_order (copy_from.length + 1) _
    hsn hS (by omega) hn64
  have hrunW := run_weak_destroys p [p] weak_order weak_from.length _ hwn hW (by omega) hm64
  simp only [hsl, Nat.sub_self, Nat.succ_pos, and_self, if_true, Nat.lt_add_one,
    Nat.zero_lt_succ] at hrunS
  simp only [hwl, Nat.sub_self, hm, and_self, if_true] at hrunW
  refine ⟨_, _, _, hbuild, rfl, ?_, ?_, ?_, hrunS, ?_, rfl, rfl, ?_, hrunW, rfl, ?_, ?_⟩
  · simp [State.live_shared, List.countP_replicate, Obj.is_shared_on, Obj.is_weak_on]
  · simp [State.live_weak, List.countP_replicate, Obj.is_shared_on, Obj.is_weak_on]
  · intro k hk
    have hlen : (strong_order.take k).length = k := by
      rw [List.length_take]; omega
    have hrun := run_shared_destroys p weak_from.length hm (strong_order.take k)
      (copy_from.length + 1) _ (hsn.sublist (List.take_sublist _ _))
      (fun x hx => hS x (List.mem_of_mem_take hx)) (by omega) hn64
    have hcond : ¬ (0 < k ∧ k = copy_from.length + 1) := by omega
    simp only [hlen, hcond, if_false] at hrun
    exact ⟨_, hrun, rfl⟩
  · simp [State.payload_deletes]
  · intro k hk
    have hlen : (weak_order.take k).length = k := by
      rw [List.length_take]; omega
    have hrun := run_weak_destroys p [p] (weak_order.take k) weak_from.length _
      (hwn.sublist (List.take_sublist _ _))
      (fun x hx => hW x (List.mem_of_mem_take hx)) (by omega) hm64
    have hcond : ¬ (0 < k ∧ k = weak_from.length) := by omega
    simp only [hlen, hcond, if_false] at hrun
    exact ⟨_, hrun, rfl⟩
  · simp [State.payload_deletes]
  · simp only [State.live_objects, List.countP_eq_zero]
    intro o ho
    obtain ⟨i, hi⟩ := List.getElem?_of_mem ho
    have hilt : i < copy_from.length + 1 + weak_from.length := by
      have := (List.getElem?_eq_some.1 hi).1
      simpa [foldl_drop_length] using this
    by_cases hiw : i ∈ weak_order
    · rw [foldl_drop_of_mem _ _ _ hiw (by simpa [foldl_drop_length] using hilt)] at hi
      cases hi; simp
    · have his : i ∈ strong_order := by
        rw [hsmem]
        by_contra hge
        exact hiw ((hwmem i).2 ⟨by omega, hilt⟩)
      rw [foldl_drop_of_not_mem _ _ _ hiw,
        foldl_drop_of_mem _ _ _ his (by simpa using hilt)] at hi
      cases hi; simp

/-- C4 at a concrete group: payload 7, strong handles 0, 1, 2 (1 copied from 0,
2 copied from 1), weak handles 3, 4 (derived from 0 and 2); the strong handles
are destroyed in the order 2, 0, 1 and the weak handles in the order 4, 3. -/
theorem group_teardown_frees_payload_then_record_witness :
    ∃ s1 s2 s3 : State,
      run State.init (build_group 7 [0, 1] [0, 2]) = .ok s1 ∧
      s1.block 0 = some ⟨3, 2⟩ ∧
      s1.live_shared 0 = 3 ∧
      s1.live_weak 0 = 2 ∧
      (∀ k, k < 3 →
        ∃ s, run s1 ((([2, 0, 1] : List Nat).take k).map Op.shared_destroy) = .ok s ∧
          s.payload_deletes 7 = 0) ∧
      run s1 (([2, 0, 1] : List Nat).map Op.shared_destroy) = .ok s2 ∧
      s2.payload_deletes 7 = 1 ∧
      s2.block_deletes 0 = 0 ∧
      s2.block 0 = some ⟨0, 2⟩ ∧
      (∀ k, k < 2 →
        ∃ s, run s2 ((([4, 3] : List Nat).take k).map Op.weak_destroy) = .ok s ∧
          s.block_deletes 0 = 0) ∧
      run s2 (([4, 3] : List Nat).map Op.weak_destroy) = .ok s3 ∧
      s3.block_deletes 0 = 1 ∧
      s3.payload_deletes 7 = 1 ∧
      s3.live_objects = 0 :=
  group_teardown_frees_payload_then_record 7 [0, 1] [0, 2] [2, 0, 1] [4, 3]
    (by decide) (by decide) (by decide) (by decide) (by decide) (by decide) (by decide)

/-! ## Promotion through `lock` (C5, C6, C7) -/

/-- C5: `lock()` on a weak handle whose record is live with `ref_count > 0`
returns a new strong handle with the weak handle's payload pointer and record;
the record's strong count has been incremented once (`++` on a `size_t`, which
is one more than before for every count below `SIZE_MAX`), its weak count is
unchanged, the weak handle is unchanged and nothing is deleted. -/
theorem lock_live_shares_and_increments (s : State) (w a : Nat) (p : Option Nat)
    (b : ControlBlock)
    (hw : s.get_weak w = .ok ⟨p, some a⟩)
    (hd : a ∉ s.heap.deleted_blocks) (hb : s.block a = some b)
    (hpos : 0 < b.ref_count) :
    ∃ s', weak_ptr.lock s w = .ok s' ∧
      s'.get_shared s.objs.length = .ok ⟨p, some a⟩ ∧
      s'.block a = some ⟨size_t_inc b.ref_count, b.weak_count⟩ ∧
      (b.ref_count + 1 < SIZE_T_RANGE →
        s'.block a = some ⟨b.ref_count + 1, b.weak_count⟩) ∧
      s'.get_weak w = .ok ⟨p, some a⟩ ∧
      s'.heap.deleted_blocks = s.heap.deleted_blocks ∧
      s'.heap.deleted_payloads = s.heap.deleted_payloads := by
  have hw' := State.get_weak_eq_ok.1 hw
  have hlt : w < s.objs.length := (List.getElem?_eq_some.1 hw').1
  refine ⟨_, weak_lock_live hw' hd hb hpos, ?_, ?_, ?_, ?_, rfl, rfl⟩
  · simp [State.get_shared]
  · exact Heap.write_blocks_self _ hb
  · intro hmax
    rw [← size_t_inc_of_lt hmax]
    exact Heap.write_blocks_self _ hb
  · simp [State.get_weak, List.getElem?_append_left hlt, hw']

/-- C5 at a concrete state: one strong handle over payload 7, one weak handle. -/
theorem lock_live_shares_and_increments_witness :
    ∃ s', weak_ptr.lock ⟨⟨[⟨1, 1⟩], [], []⟩,
        [some (.shared ⟨some 7, some 0⟩), some (.weak ⟨some 7, some 0⟩)]⟩ 1 = .ok s' ∧
      s'.get_shared 2 = .ok ⟨some 7, some 0⟩ ∧
      s'.block 0 = some ⟨2, 1⟩ ∧
      (1 + 1 < SIZE_T_RANGE → s'.block 0 = some ⟨1 + 1, 1⟩) ∧
      s'.get_weak 1 = .ok ⟨some 7, some 0⟩ ∧
      s'.heap.deleted_blocks = [] ∧
      s'.heap.deleted_payloads = [] :=
  lock_live_shares_and_increments ⟨⟨[⟨1, 1⟩], [], []⟩,
    [some (.shared ⟨some 7, some 0⟩), some (.weak ⟨some 7, some 0⟩)]⟩ 1 0 (some 7) ⟨1, 1⟩
    rfl (by decide) rfl (by decide)

/-- C6 as stated fails: for a group started by a strong handle constructed with
no payload the record holds `ref_count == 1`, and `lock()` on a weak handle of
that group returns a strong handle whose boolean query is false. -/
theorem lock_of_null_payload_group_is_empty :
    (run State.init [.shared_new none, .weak_from_shared 0]).map (fun s => s.block 0) =
      .ok (some ⟨1, 1⟩) ∧
    (run State.init [.shared_new none, .weak_from_shared 0, .weak_lock 1]).map
        (fun s => (shared_ptr.operator_bool s 2, s.block 0)) =
      .ok (.ok false, some ⟨2, 1⟩) :=
  ⟨rfl, rfl⟩

/-- C6, amended: for a weak handle whose record is live with `ref_count > 0`,
`lock()` returns a strong handle carrying the weak handle's payload pointer, so
its boolean query is true exactly when that payload pointer is non-null. -/
theorem lock_live_bool_iff_payload (s : State) (w a : Nat) (p : Option Nat)
    (b : ControlBlock)
    (hw : s.get_weak w = .ok ⟨p, some a⟩)
    (hd : a ∉ s.heap.deleted_blocks) (hb : s.block a = some b)
    (hpos : 0 < b.ref_count) :
    ∃ s', weak_ptr.lock s w = .ok s' ∧
      shared_ptr.get s' s.objs.length = .ok p ∧
      shared_ptr.operator_bool s' s.objs.length = .ok p.isSome := by
  have hw' := State.get_weak_eq_ok.1 hw
  refine ⟨_, weak_lock_live hw' hd hb hpos, ?_, ?_⟩
  · simp [shared_ptr.get, State.get_shared, bind, Except.bind]
  · cases p <;> simp [shared_ptr.operator_bool, State.get_shared, bind, Except.bind]

/-- C6 amended, at concrete states: a payload-7 group and a null-payload group. -/
theorem lock_live_bool_iff_payload_witness :
    (∃ s', weak_ptr.lock ⟨⟨[⟨1, 1⟩], [], []⟩,
        [some (.shared ⟨some 7, some 0⟩), some (.weak ⟨some 7, some 0⟩)]⟩ 1 = .ok s' ∧
      shared_ptr.get s' 2 = .ok (some 7) ∧
      shared_ptr.operator_bool s' 2 = .ok true) ∧
    (∃ s', weak_ptr.lock ⟨⟨[⟨1, 1⟩], [], []⟩,
        [some (.shared ⟨none, some 0⟩), some (.weak ⟨none, some 0⟩)]⟩ 1 = .ok s' ∧
      shared_ptr.get s' 2 = .ok none ∧
      shared_ptr.operator_bool s' 2 = .ok false) :=
  ⟨lock_live_bool_iff_payload ⟨⟨[⟨1, 1⟩], [], []⟩,
      [some (.shared ⟨some 7, some 0⟩), some (.weak ⟨some 7, some 0⟩)]⟩ 1 0 (some 7) ⟨1, 1⟩
      rfl (by decide) rfl (by decide),
   lock_live_bool_iff_payload ⟨⟨[⟨1, 1⟩], [], []⟩,
      [some (.shared ⟨none, some 0⟩), some (.weak ⟨none, some 0⟩)]⟩ 1 0 none ⟨1, 1⟩
      rfl (by decide) rfl (by decide)⟩

/-- C7: `lock()` on a weak handle whose record is live with `ref_count == 0`
returns a new strong handle with null payload (boolean query false, count query
0) attached to a record allocated by the call, holding (1, 0); the call changes
no block that existed before and deletes nothing, and destroying the returned
handle afterwards again changes no block that existed before, deletes only the
record allocated by the call, and deletes no payload. -/
theorem lock_expired_returns_fresh_empty (s : State) (w a : Nat) (p : Option Nat)
    (b : ControlBlock)
    (hw : s.get_weak w = .ok ⟨p, some a⟩)
    (hd : a ∉ s.heap.deleted_blocks) (hb : s.block a = some b)
    (h0 : b.ref_count = 0)
    (hwf : ∀ d ∈ s.heap.deleted_blocks, d < s.heap.blocks.length) :
    ∃ s' s'', weak_ptr.lock s w = .ok s' ∧
      s'.get_shared s.objs.length = .ok ⟨none, some s.heap.blocks.length⟩ ∧
      shared_ptr.operator_bool s' s.objs.length = .ok false ∧
      shared_ptr.use_count s' s.objs.length = .ok 0 ∧
      s.block s.heap.blocks.length = none ∧
      s'.block s.heap.blocks.length = some ⟨1, 0⟩ ∧
      s'.block a = some b ∧
      (∀ c, c < s.heap.blocks.length → s'.block c = s.block c) ∧
      s'.heap.deleted_blocks = s.heap.deleted_blocks ∧
      s'.heap.deleted_payloads = s.heap.deleted_payloads ∧
      step s' (.shared_destroy s.objs.length) = .ok s'' ∧
      s''.block a = some b ∧
      (∀ c, c < s.heap.blocks.length → s''.block c = s.block c) ∧
      s''.heap.deleted_blocks = s.heap.deleted_blocks ++ [s.heap.blocks.length] ∧
      s''.heap.deleted_payloads = s.heap.deleted_payloads := by
  have hw' := State.get_weak_eq_ok.1 hw
  have ha : a < s.heap.blocks.length := Heap.lt_of_block hb
  have hfresh : s.heap.blocks.length ∉ s.heap.deleted_blocks :=
    fun h => Nat.lt_irrefl _ (hwf _ h)
  have hdec : size_t_dec 1 = 0 := by decide
  have hstep : step ⟨⟨s.heap.blocks ++ [⟨1, 0⟩], s.heap.deleted_blocks,
        s.heap.deleted_payloads⟩, s.objs ++ [some (.shared ⟨none, some s.heap.blocks.length⟩)]⟩
      (.shared_destroy s.objs.length) =
      .ok ⟨⟨(s.heap.blocks ++ [ControlBlock.mk 1 0]).set s.heap.blocks.length ⟨0, 0⟩,
        s.heap.deleted_blocks ++ [s.heap.blocks.length], s.heap.deleted_payloads⟩,
        (s.objs ++ [some (Obj.shared ⟨none, some s.heap.blocks.length⟩)]).set
          s.objs.length none⟩ := by
    have hdt := shared_dtor_ok
      (s := State.mk (Heap.mk (s.heap.blocks ++ [ControlBlock.mk 1 0]) s.heap.deleted_blocks
        s.heap.deleted_payloads)
        (s.objs ++ [some (Obj.shared ⟨none, some s.heap.blocks.length⟩)]))
      (x := s.objs.length) (a := s.heap.blocks.length) (q := none) (b := ControlBlock.mk 1 0)
      (by simp) hfresh (by simp)
    simp only [step, hdt, hdec, if_true, Except.map]
    rfl
  refine ⟨_, _, weak_lock_expired hw' hd hb h0, ?_, ?_, ?_, ?_, ?_, ?_, ?_, rfl, rfl, hstep,
    ?_, ?_, rfl, rfl⟩
  · simp [State.get_shared]
  · simp [shared_ptr.operator_bool, State.get_shared, bind, Except.bind]
  · simp [shared_ptr.use_count, State.get_shared, bind, Except.bind]
  · simp [State.block]
  · simp [State.block]
  · simp only [State.block, List.getElem?_append_left ha]; exact hb
  · intro c hc
    simp only [State.block, List.getElem?_append_left hc]
  · have hne : s.heap.blocks.length ≠ a := by omega
    simp only [State.block, List.getElem?_set_ne hne, List.getElem?_append_left ha]; exact hb
  · intro c hc
    have hne : s.heap.blocks.length ≠ c := by omega
    simp only [State.block, List.getElem?_set_ne hne, List.getElem?_append_left hc]

/-- C7 at a concrete state: the strong handle of a payload-7 group is gone, the
weak handle remains on record 0 holding (0, 1). -/
theorem lock_expired_returns_fresh_empty_witness :
    ∃ s' s'', weak_ptr.lock ⟨⟨[⟨0, 1⟩], [], [7]⟩, [none, some (.weak ⟨some 7, some 0⟩)]⟩ 1 =
        .ok s' ∧
      s'.get_shared 2 = .ok ⟨none, some 1⟩ ∧
      shared_ptr.operator_bool s' 2 = .ok false ∧
      shared_ptr.use_count s' 2 = .ok 0 ∧
      (⟨⟨[⟨0, 1⟩], [], [7]⟩, [none, some (.weak ⟨some 7, some 0⟩)]⟩ : State).block 1 = none ∧
      s'.block 1 = some ⟨1, 0⟩ ∧
      s'.block 0 = some ⟨0, 1⟩ ∧
      (∀ c, c < 1 → s'.block c =
        (⟨⟨[⟨0, 1⟩], [], [7]⟩, [none, some (.weak ⟨some 7, some 0⟩)]⟩ : State).block c) ∧
      s'.heap.deleted_blocks = [] ∧
      s'.heap.deleted_payloads = [7] ∧
      step s' (.shared_destroy 2) = .ok s'' ∧
      s''.block 0 = some ⟨0, 1⟩ ∧
      (∀ c, c < 1 → s''.block c =
        (⟨⟨[⟨0, 1⟩], [], [7]⟩, [none, some (.weak ⟨some 7, some 0⟩)]⟩ : State).block c) ∧
      s''.heap.deleted_blocks = [] ++ [1] ∧
      s''.heap.deleted_payloads = [7] :=
  lock_expired_returns_fresh_empty
    ⟨⟨[⟨0, 1⟩], [], [7]⟩, [none, some (.weak ⟨some 7, some 0⟩)]⟩ 1 0 (some 7) ⟨0, 1⟩
    rfl (by decide) rfl rfl (by decide)

/-! ## Moved-from strong handles (C8) -/

/-- C8, evaluated on the code: copy construction and copy assignment from a
moved-from strong handle dereference its null `control_block_`, while the same
operations on a handle that was reset to empty succeed and share its record. -/
theorem copy_from_moved_from_is_null_dereference :
    run State.init [.shared_new (some 7), .shared_move 0, .shared_copy 0] =
      .error .nullDereference ∧
    run State.init [.shared_new (some 7), .shared_move 0, .shared_new (some 8),
        .shared_assign_copy 2 0] = .error .nullDereference ∧
    (run State.init [.shared_new (some 7), .shared_reset 0 none, .shared_copy 0]).map
        (fun s => (s.get_shared 1, s.block 1)) =
      .ok (.ok ⟨none, some 1⟩, some ⟨2, 0⟩) ∧
    (run State.init [.shared_new (some 7), .shared_reset 0 none, .shared_new (some 8),
        .shared_assign_copy 1 0]).map
        (fun s => (s.get_shared 1, s.block 1)) =
      .ok (.ok ⟨none, some 1⟩, some ⟨2, 0⟩) :=
  ⟨rfl, rfl, rfl, rfl⟩

/-! ## Move construction and move assignment (C9) -/

/-- C9: for both handle classes, move construction and move assignment from a
distinct source leave the source with null payload and null record, give the
destination the source's former payload and record, and leave the whole free
store (every block's counts and both delete logs) unchanged. -/
theorem move_transfers_without_count_change (s : State) (src dst : Nat) (p cb : Option Nat)
    (hne : dst ≠ src) :
    (s.get_shared src = .ok ⟨p, cb⟩ →
      ∃ s', shared_ptr.ctor_move s src = .ok s' ∧
        s'.get_shared src = .ok ⟨none, none⟩ ∧
        s'.get_shared s.objs.length = .ok ⟨p, cb⟩ ∧ s'.heap = s.heap) ∧
    (s.get_shared src = .ok ⟨p, cb⟩ → (∃ d, s.get_shared dst = .ok d) →
      ∃ s', shared_ptr.assign_move s dst src = .ok s' ∧
        s'.get_shared src = .ok ⟨none, none⟩ ∧
        s'.get_shared dst = .ok ⟨p, cb⟩ ∧ s'.heap = s.heap) ∧
    (s.get_weak src = .ok ⟨p, cb⟩ →
      ∃ s', weak_ptr.ctor_move s src = .ok s' ∧
        s'.get_weak src = .ok ⟨none, none⟩ ∧
        s'.get_weak s.objs.length = .ok ⟨p, cb⟩ ∧ s'.heap = s.heap) ∧
    (s.get_weak src = .ok ⟨p, cb⟩ → (∃ d, s.get_weak dst = .ok d) →
      ∃ s', weak_ptr.assign_move s dst src = .ok s' ∧
        s'.get_weak src = .ok ⟨none, none⟩ ∧
        s'.get_weak dst = .ok ⟨p, cb⟩ ∧ s'.heap = s.heap) := by
  refine ⟨?_, ?_, ?_, ?_⟩
  · intro hs
    have hlt : src < s.objs.length := (List.getElem?_eq_some.1 (State.get_shared_eq_ok.1 hs)).1
    refine ⟨_, shared_ctor_move_ok hs, ?_, ?_, rfl⟩
    · simp [State.get_shared, List.getElem?_append_left, hlt]
    · simp [State.get_shared]
  · rintro hs ⟨d, hd⟩
    have hlt : src < s.objs.length := (List.getElem?_eq_some.1 (State.get_shared_eq_ok.1 hs)).1
    have hlt' : dst < s.objs.length := (List.getElem?_eq_some.1 (State.get_shared_eq_ok.1 hd)).1
    refine ⟨_, shared_assign_move_ok hs hd hne.symm, ?_, ?_, rfl⟩
    · simp [State.get_shared, hlt]
    · simp [State.get_shared, hne.symm, hlt']
  · intro hs
    have hlt : src < s.objs.length := (List.getElem?_eq_some.1 (State.get_weak_eq_ok.1 hs)).1
    refine ⟨_, weak_ctor_move_ok hs, ?_, ?_, rfl⟩
    · simp [State.get_weak, List.getElem?_append_left, hlt]
    · simp [State.get_weak]
  · rintro hs ⟨d, hd⟩
    have hlt : src < s.objs.length := (List.getElem?_eq_some.1 (State.get_weak_eq_ok.1 hs)).1
    have hlt' : dst < s.objs.length := (List.getElem?_eq_some.1 (State.get_weak_eq_ok.1 hd)).1
    refine ⟨_, weak_assign_move_ok hs hd hne.symm, ?_, ?_, rfl⟩
    · simp [State.get_weak, hlt]
    · simp [State.get_weak, hne.symm, hlt']

/-- C9 at a concrete state: objects 0 and 1 are strong handles on records 0 and
1, objects 2 and 3 are weak handles on those records. -/
theorem move_transfers_without_count_change_witness :
    (∃ s', shared_ptr.ctor_move ⟨⟨[⟨1, 1⟩, ⟨1, 1⟩], [], []⟩,
        [some (.shared ⟨some 7, some 0⟩), some (.shared ⟨some 8, some 1⟩),
         some (.weak ⟨some 7, some 0⟩), some (.weak ⟨some 8, some 1⟩)]⟩ 0 = .ok s' ∧
      s'.get_shared 0 = .ok ⟨none, none⟩ ∧
      s'.get_shared 4 = .ok ⟨some 7, some 0⟩ ∧
      s'.heap = ⟨[⟨1, 1⟩, ⟨1, 1⟩], [], []⟩) ∧
    (∃ s', shared_ptr.assign_move ⟨⟨[⟨1, 1⟩, ⟨1, 1⟩], [], []⟩,
        [some (.shared ⟨some 7, some 0⟩), some (.shared ⟨some 8, some 1⟩),
         some (.weak ⟨some 7, some 0⟩), some (.weak ⟨some 8, some 1⟩)]⟩ 1 0 = .ok s' ∧
      s'.get_shared 0 = .ok ⟨none, none⟩ ∧
      s'.get_shared 1 = .ok ⟨some 7, some 0⟩ ∧
      s'.heap = ⟨[⟨1, 1⟩, ⟨1, 1⟩], [], []⟩) ∧
    (∃ s', weak_ptr.ctor_move ⟨⟨[⟨1, 1⟩, ⟨1, 1⟩], [], []⟩,
        [some (.shared ⟨some 7, some 0⟩), some (.shared ⟨some 8, some 1⟩),
         some (.weak ⟨some 7, some 0⟩), some (.weak ⟨some 8, some 1⟩)]⟩ 2 = .ok s' ∧
      s'.get_weak 2 = .ok ⟨none, none⟩ ∧
      s'.get_weak 4 = .ok ⟨some 7, some 0⟩ ∧
      s'.heap = ⟨[⟨1, 1⟩, ⟨1, 1⟩], [], []⟩) ∧
    (∃ s', weak_ptr.assign_move ⟨⟨[⟨1, 1⟩, ⟨1, 1⟩], [], []⟩,
        [some (.shared ⟨some 7, some 0⟩), some (.shared ⟨some 8, some 1⟩),
         some (.weak ⟨some 7, some 0⟩), some (.weak ⟨some 8, some 1⟩)]⟩ 3 2 = .ok s' ∧
      s'.get_weak 2 = .ok ⟨none, none⟩ ∧
      s'.get_weak 3 = .ok ⟨some 7, some 0⟩ ∧
      s'.heap = ⟨[⟨1, 1⟩, ⟨1, 1⟩], [], []⟩) :=
  ⟨(move_transfers_without_count_change ⟨⟨[⟨1, 1⟩, ⟨1, 1⟩], [], []⟩,
      [some (.shared ⟨some 7, some 0⟩), some (.shared ⟨some 8, some 1⟩),
       some (.weak ⟨some 7, some 0⟩), some (.weak ⟨some 8, some 1⟩)]⟩ 0 1 (some 7) (some 0)
      (by decide)).1 rfl,
   (move_transfers_without_count_change ⟨⟨[⟨1, 1⟩, ⟨1, 1⟩], [], []⟩,
      [some (.shared ⟨some 7, some 0⟩), some (.shared ⟨some 8, some 1⟩),
       some (.weak ⟨some 7, some 0⟩), some (.weak ⟨some 8, some 1⟩)]⟩ 0 1 (some 7) (some 0)
      (by decide)).2.1 rfl ⟨_, rfl⟩,
   (move_transfers_without_count_change ⟨⟨[⟨1, 1⟩, ⟨1, 1⟩], [], []⟩,
      [some (.shared ⟨some 7, some 0⟩), some (.shared ⟨some 8, some 1⟩),
       some (.weak ⟨some 7, some 0⟩), some (.weak ⟨some 8, some 1⟩)]⟩ 2 3 (some 7) (some 0)
      (by decide)).2.2.1 rfl,
   (move_transfers_without_count_change ⟨⟨[⟨1, 1⟩, ⟨1, 1⟩], [], []⟩,
      [some (.shared ⟨some 7, some 0⟩), some (.shared ⟨some 8, some 1⟩),
       some (.weak ⟨some 7, some 0⟩), some (.weak ⟨some 8, some 1⟩)]⟩ 2 3 (some 7) (some 0)
      (by decide)).2.2.2 rfl ⟨_, rfl⟩⟩

/-! ## `shared_ptr::reset` (C10) -/

/-- C10: `reset(new_payload)` on a strong handle holding payload `q` on a live
record with strong count `>= 1` decrements that record's strong count by one,
deletes `q` iff the count reached 0, deletes the old record iff additionally
its weak count is 0, and leaves the handle holding `new_payload` on a record
allocated by the call, distinct from the old one and holding (1, 0), so that the
count query is 1 for a non-null `new_payload`; the free store afterwards is the
one produced by destroying the handle and then constructing a strong handle
over `new_payload`. -/
theorem reset_is_destroy_then_construct (s : State) (x a q : Nat) (np : Option Nat)
    (b : ControlBlock)
    (hx : s.get_shared x = .ok ⟨some q, some a⟩)
    (hd : a ∉ s.heap.deleted_blocks) (hb : s.block a = some b)
    (hpos : 0 < b.ref_count) (hlt : b.ref_count < SIZE_T_RANGE)
    (hwf : ∀ d ∈ s.heap.deleted_blocks, d < s.heap.blocks.length) :
    ∃ s', shared_ptr.reset s x np = .ok s' ∧
      s'.block a = some ⟨b.ref_count - 1, b.weak_count⟩ ∧
      s'.heap.deleted_payloads =
        (if b.ref_count = 1 then s.heap.deleted_payloads ++ [q] else s.heap.deleted_payloads) ∧
      s'.heap.deleted_blocks =
        (if b.ref_count = 1 ∧ b.weak_count = 0 then s.heap.deleted_blocks ++ [a]
         else s.heap.deleted_blocks) ∧
      s'.get_shared x = .ok ⟨np, some s.heap.blocks.length⟩ ∧
      s.heap.blocks.length ≠ a ∧
      s.block s.heap.blocks.length = none ∧
      s'.block s.heap.blocks.length = some ⟨1, 0⟩ ∧
      (np ≠ none → shared_ptr.use_count s' x = .ok 1) ∧
      (∃ s1 s2, step s (.shared_destroy x) = .ok s1 ∧ step s1 (.shared_new np) = .ok s2 ∧
        s'.heap = s2.heap) := by
  have hx' := State.get_shared_eq_ok.1 hx
  have hxlt : x < s.objs.length := (List.getElem?_eq_some.1 hx').1
  have ha : a < s.heap.blocks.length := Heap.lt_of_block hb
  have hne : s.heap.blocks.length ≠ a := by omega
  have hfresh : s.heap.blocks.length ∉ s.heap.deleted_blocks :=
    fun h => Nat.lt_irrefl _ (hwf _ h)
  have hdz : size_t_dec b.ref_count = 0 ↔ b.ref_count = 1 := size_t_dec_eq_zero_iff hlt
  have hdv : size_t_dec b.ref_count = b.ref_count - 1 := size_t_dec_of_pos hpos hlt
  refine ⟨_, shared_reset_ok hx' hd hb, ?_, ?_, ?_, ?_, hne, ?_, ?_, ?_, ?_⟩
  · rw [hdv]
    split_ifs <;>
      simp [State.block, Heap.new_block, Heap.write, Heap.delete_payload, Heap.delete_block,
        List.getElem?_append_left, ha]
  · by_cases h1 : b.ref_count = 1
    · have hz := hdz.2 h1
      have hz1 : size_t_dec 1 = 0 := by decide
      simp only [hz, hz1, h1, if_true]
      split_ifs <;> simp [Heap.new_block, Heap.write, Heap.delete_payload, Heap.delete_block]
    · have hz : ¬ size_t_dec b.ref_count = 0 := fun h => h1 (hdz.1 h)
      simp [hz, h1, Heap.new_block, Heap.write]
  · by_cases h1 : b.ref_count = 1
    · have hz := hdz.2 h1
      have hz1 : size_t_dec 1 = 0 := by decide
      simp only [hz, hz1, h1, if_true, true_and]
      split_ifs <;> simp [Heap.new_block, Heap.write, Heap.delete_payload, Heap.delete_block]
    · have hz : ¬ size_t_dec b.ref_count = 0 := fun h => h1 (hdz.1 h)
      simp [hz, h1, Heap.new_block, Heap.write]
  · simp [State.get_shared, hxlt]
  · simp [State.block]
  · split_ifs <;>
      simp [State.block, Heap.new_block, Heap.write, Heap.delete_payload, Heap.delete_block,
        List.getElem?_append_right]
  · intro hnp
    obtain ⟨n, rfl⟩ := Option.ne_none_iff_exists'.1 hnp
    split_ifs <;>
      simp [shared_ptr.use_count, State.get_shared, hxlt, bind, Except.bind, Heap.deref,
        Heap.new_block, Heap.write, Heap.delete_payload, Heap.delete_block, hfresh, hne]
  · refine ⟨_, _, step_shared_destroy_ok hx' hd hb, rfl, ?_⟩
    split_ifs <;> rfl

/-- C10 at a concrete state: the only strong handle of a payload-7 group is
reset to payload 9. -/
theorem reset_is_destroy_then_construct_witness :
    ∃ s', shared_ptr.reset ⟨⟨[⟨1, 0⟩], [], []⟩, [some (.shared ⟨some 7, some 0⟩)]⟩ 0 (some 9) =
        .ok s' ∧
      s'.block 0 = some ⟨0, 0⟩ ∧
      s'.heap.deleted_payloads = [7] ∧
      s'.heap.deleted_blocks = [0] ∧
      s'.get_shared 0 = .ok ⟨some 9, some 1⟩ ∧
      1 ≠ 0 ∧
      (⟨⟨[⟨1, 0⟩], [], []⟩, [some (.shared ⟨some 7, some 0⟩)]⟩ : State).block 1 = none ∧
      s'.block 1 = some ⟨1, 0⟩ ∧
      (some 9 ≠ none → shared_ptr.use_count s' 0 = .ok 1) ∧
      (∃ s1 s2,
        step ⟨⟨[⟨1, 0⟩], [], []⟩, [some (.shared ⟨some 7, some 0⟩)]⟩ (.shared_destroy 0) =
          .ok s1 ∧
        step s1 (.shared_new (some 9)) = .ok s2 ∧ s'.heap = s2.heap) :=
  reset_is_destroy_then_construct ⟨⟨[⟨1, 0⟩], [], []⟩, [some (.shared ⟨some 7, some 0⟩)]⟩
    0 0 7 (some 9) ⟨1, 0⟩ rfl (by decide) rfl (by decide) (by decide) (by decide)

/-! ## Inversion of successful statements -/

/-- Access to a block succeeds exactly on an allocated, not deleted block. -/
theorem Heap.deref_eq_ok {h : Heap} {cb : Option Nat} {r : Nat × ControlBlock} :
    h.deref cb = .ok r ↔
      cb = some r.1 ∧ r.1 ∉ h.deleted_blocks ∧ h.blocks[r.1]? = some r.2 := by
  obtain ⟨a, b⟩ := r
  cases cb with
  | none => simp [Heap.deref]
  | some c =>
    by_cases hc : c ∈ h.deleted_blocks
    · simp only [Heap.deref, List.contains_eq_any_beq, List.any_eq_true, beq_iff_eq]
      have : ∃ x, x ∈ h.deleted_blocks ∧ c = x := ⟨c, hc, rfl⟩
      simp only [this, if_true, Option.some.injEq]
      constructor
      · intro h'; cases h'
      · rintro ⟨rfl, h', _⟩; exact absurd hc h'
    · have hn : ¬ ∃ x, x ∈ h.deleted_blocks ∧ c = x := by
        rintro ⟨x, hx, rfl⟩; exact hc hx
      simp only [Heap.deref, List.contains_eq_any_beq, List.any_eq_true, beq_iff_eq, hn,
        if_false, Option.some.injEq]
      cases hb : h.blocks[c]? with
      | none =>
        constructor
        · intro h'; cases h'
        · rintro ⟨rfl, _, h'⟩; rw [hb] at h'; cases h'
      | some b' =>
        simp only [Except.ok.injEq, Prod.mk.injEq]
        constructor
        · rintro ⟨rfl, rfl⟩; exact ⟨rfl, hc, hb⟩
        · rintro ⟨rfl, _, h'⟩; rw [hb] at h'; cases h'; exact ⟨rfl, rfl⟩

/-- A successful `shared_ptr` copy construction, made explicit. -/
theorem step_shared_copy_inv {s s' : State} {o : Nat} (h : step s (.shared_copy o) = .ok s') :
    ∃ q a b, s.objs[o]? = some (some (.shared ⟨q, some a⟩)) ∧
      a ∉ s.heap.deleted_blocks ∧ s.heap.blocks[a]? = some b ∧
      s' = ⟨⟨s.heap.blocks.set a ⟨size_t_inc b.ref_count, b.weak_count⟩,
        s.heap.deleted_blocks, s.heap.deleted_payloads⟩,
        s.objs ++ [some (.shared ⟨q, some a⟩)]⟩ := by
  simp only [step, shared_ptr.ctor_copy] at h
  cases hg : s.get_shared o with
  | error e => simp [hg, bind, Except.bind] at h
  | ok t =>
    cases hd : s.heap.deref t.control_block_ with
    | error e => simp [hg, hd, bind, Except.bind] at h
    | ok r =>
      obtain ⟨hcb, hnd, hb⟩ := Heap.deref_eq_ok.1 hd
      simp only [hg, hd, bind, Except.bind, Except.ok.injEq] at h
      obtain ⟨q, cb⟩ := t
      simp only at hcb
      subst hcb
      exact ⟨q, r.1, r.2, State.get_shared_eq_ok.1 hg, hnd, hb, h.symm⟩

/-! ## One-step lemmas for destruction, `reset`, promotion and assignment -/

/-- Effect of destroying a strong handle whose record pointer is null. -/
theorem step_shared_destroy_null {s : State} {x : Nat} {q : Option Nat}
    (hx : s.objs[x]? = some (some (.shared ⟨q, none⟩))) :
    step s (.shared_destroy x) = .ok ⟨s.heap, s.objs.set x none⟩ := by
  simp only [step, shared_ptr.dtor, State.get_shared_ok hx, bind, Except.bind, Except.map]
  rfl

/-- Effect of destroying a weak handle whose record pointer is null. -/
theorem step_weak_destroy_null {s : State} {x : Nat} {q : Option Nat}
    (hx : s.objs[x]? = some (some (.weak ⟨q, none⟩))) :
    step s (.weak_destroy x) = .ok ⟨s.heap, s.objs.set x none⟩ := by
  simp only [step, weak_ptr.dtor, State.get_weak_ok hx, bind, Except.bind, Except.map]
  rfl

/-- Effect of `weak_ptr::reset` on a handle attached to a live record. -/
theorem weak_reset_ok {s : State} {x a : Nat} {q : Option Nat} {b : ControlBlock}
    (hx : s.objs[x]? = some (some (.weak ⟨q, some a⟩)))
    (hd : a ∉ s.heap.deleted_blocks) (hb : s.heap.blocks[a]? = some b) :
    weak_ptr.reset s x = .ok ⟨⟨s.heap.blocks.set a ⟨b.ref_count, size_t_dec b.weak_count⟩ ++
        [⟨0, 0⟩], s.heap.deleted_blocks, s.heap.deleted_payloads⟩,
      s.objs.set x (some (.weak ⟨none, some s.heap.blocks.length⟩))⟩ := by
  simp only [weak_ptr.reset, State.get_weak_ok hx, Heap.deref_ok hd hb, bind, Except.bind,
    Heap.new_block, Heap.write, State.put, List.length_set]

/-- Effect of `shared_ptr(const weak_ptr<T>&)` on a handle attached to a live record. -/
theorem shared_ctor_weak_ok {s : State} {x a : Nat} {q : Option Nat} {b : ControlBlock}
    (hx : s.objs[x]? = some (some (.weak ⟨q, some a⟩)))
    (hd : a ∉ s.heap.deleted_blocks) (hb : s.heap.blocks[a]? = some b) :
    shared_ptr.ctor_weak s x = .ok ⟨s.heap.write a ⟨size_t_inc b.ref_count, b.weak_count⟩,
      s.objs ++ [some (.shared ⟨q, some a⟩)]⟩ := by
  simp only [shared_ptr.ctor_weak, State.get_weak_ok hx, Heap.deref_ok hd hb, bind,
    Except.bind, State.push]

/-- Effect of `shared_ptr` copy assignment from a distinct source on a live record. -/
theorem shared_assign_copy_ok {s : State} {dst src a : Nat} {q : Option Nat} {d : shared_ptr}
    {b : ControlBlock}
    (hs : s.objs[src]? = some (some (.shared ⟨q, some a⟩)))
    (hdst : s.objs[dst]? = some (some (.shared d))) (hne : src ≠ dst)
    (hd : a ∉ s.heap.deleted_blocks) (hb : s.heap.blocks[a]? = some b) :
    shared_ptr.assign_copy s dst src =
      .ok ⟨s.heap.write a ⟨size_t_inc b.ref_count, b.weak_count⟩,
        s.objs.set dst (some (.shared ⟨q, some a⟩))⟩ := by
  simp only [shared_ptr.assign_copy, State.get_shared_ok hs, State.get_shared_ok hdst,
    Heap.deref_ok hd hb, bind, Except.bind, ne_eq, hne, not_false_eq_true, if_true, State.put]

/-- The default constructor of `shared_ptr`, made explicit. -/
theorem step_shared_new_eq (s : State) (p : Option Nat) :
    step s (.shared_new p) = .ok ⟨⟨s.heap.blocks ++ [⟨1, 0⟩], s.heap.deleted_blocks,
      s.heap.deleted_payloads⟩, s.objs ++ [some (.shared ⟨p, some s.heap.blocks.length⟩)]⟩ :=
  rfl

/-- The default constructor of `weak_ptr`, made explicit. -/
theorem step_weak_new_eq (s : State) (p : Option Nat) :
    step s (.weak_new p) = .ok ⟨⟨s.heap.blocks ++ [⟨0, 1⟩], s.heap.deleted_blocks,
      s.heap.deleted_payloads⟩, s.objs ++ [some (.weak ⟨p, some s.heap.blocks.length⟩)]⟩ :=
  rfl

/-- A successful `weak_ptr` copy construction, made explicit. -/
theorem step_weak_copy_inv {s s' : State} {o : Nat} (h : step s (.weak_copy o) = .ok s') :
    ∃ q a b, s.objs[o]? = some (some (.weak ⟨q, some a⟩)) ∧
      a ∉ s.heap.deleted_blocks ∧ s.heap.blocks[a]? = some b ∧
      s' = ⟨⟨s.heap.blocks.set a ⟨b.ref_count, size_t_inc b.weak_count⟩,
        s.heap.deleted_blocks, s.heap.deleted_payloads⟩,
        s.objs ++ [some (.weak ⟨q, some a⟩)]⟩ := by
  simp only [step, weak_ptr.ctor_copy] at h
  cases hg : s.get_weak o with
  | error e => simp [hg, bind, Except.bind] at h
  | ok t =>
    cases hd : s.heap.deref t.control_block_ with
    | error e => simp [hg, hd, bind, Except.bind] at h
    | ok r =>
      obtain ⟨hcb, hnd, hb⟩ := Heap.deref_eq_ok.1 hd
      simp only [hg, hd, bind, Except.bind, Except.ok.injEq] at h
      obtain ⟨q, cb⟩ := t
      simp only at hcb
      subst hcb
      exact ⟨q, r.1, r.2, State.get_weak_eq_ok.1 hg, hnd, hb, h.symm⟩

/-- A successful derivation of a `weak_ptr` from a `shared_ptr`, made explicit. -/
theorem step_weak_from_shared_inv {s s' : State} {o : Nat}
    (h : step s (.weak_from_shared o) = .ok s') :
    ∃ q a b, s.objs[o]? = some (some (.shared ⟨q, some a⟩)) ∧
      a ∉ s.heap.deleted_blocks ∧ s.heap.blocks[a]? = some b ∧
      s' = ⟨⟨s.heap.blocks.set a ⟨b.ref_count, size_t_inc b.weak_count⟩,
        s.heap.deleted_blocks, s.heap.deleted_payloads⟩,
        s.objs ++ [some (.weak ⟨q, some a⟩)]⟩ := by
  simp only [step, weak_ptr.ctor_shared] at h
  cases hg : s.get_shared o with
  | error e => simp [hg, bind, Except.bind] at h
  | ok t =>
    cases hd : s.heap.deref t.control_block_ with
    | error e => simp [hg, hd, bind, Except.bind] at h
    | ok r =>
      obtain ⟨hcb, hnd, hb⟩ := Heap.deref_eq_ok.1 hd
      simp only [hg, hd, bind, Except.bind, Except.ok.injEq] at h
      obtain ⟨q, cb⟩ := t
      simp only at hcb
      subst hcb
      exact ⟨q, r.1, r.2, State.get_shared_eq_ok.1 hg, hnd, hb, h.symm⟩

/-- A successful `shared_ptr` move construction, made explicit. -/
theorem step_shared_move_inv {s s' : State} {o : Nat} (h : step s (.shared_move o) = .ok s') :
    ∃ t, s.objs[o]? = some (some (.shared t)) ∧
      s' = ⟨s.heap, s.objs.set o (some (.shared ⟨none, none⟩)) ++ [some (.shared t)]⟩ := by
  simp only [step, shared_ptr.ctor_move] at h
  cases hg : s.get_shared o with
  | error e => simp [hg, bind, Except.bind] at h
  | ok t =>
    simp only [hg, bind, Except.bind, Except.ok.injEq] at h
    exact ⟨t, State.get_shared_eq_ok.1 hg, h.symm⟩

/-- A successful `weak_ptr` move construction, made explicit. -/
theorem step_weak_move_inv {s s' : State} {o : Nat} (h : step s (.weak_move o) = .ok s') :
    ∃ t, s.objs[o]? = some (some (.weak t)) ∧
      s' = ⟨s.heap, s.objs.set o (some (.weak ⟨none, none⟩)) ++ [some (.weak t)]⟩ := by
  simp only [step, weak_ptr.ctor_move] at h
  cases hg : s.get_weak o with
  | error e => simp [hg, bind, Except.bind] at h
  | ok t =>
    simp only [hg, bind, Except.bind, Except.ok.injEq] at h
    exact ⟨t, State.get_weak_eq_ok.1 hg, h.symm⟩

/-- A successful `shared_ptr` copy assignment, made explicit. -/
theorem step_shared_assign_copy_inv {s s' : State} {t o : Nat}
    (h : step s (.shared_assign_copy t o) = .ok s') :
    (o = t ∧ s' = s) ∨
    (o ≠ t ∧ ∃ d q a b, s.objs[t]? = some (some (.shared d)) ∧
      s.objs[o]? = some (some (.shared ⟨q, some a⟩)) ∧
      a ∉ s.heap.deleted_blocks ∧ s.heap.blocks[a]? = some b ∧
      s' = ⟨⟨s.heap.blocks.set a ⟨size_t_inc b.ref_count, b.weak_count⟩,
        s.heap.deleted_blocks, s.heap.deleted_payloads⟩,
        s.objs.set t (some (.shared ⟨q, some a⟩))⟩) := by
  simp only [step, shared_ptr.assign_copy] at h
  cases hgt : s.get_shared t with
  | error e => simp [hgt, bind, Except.bind] at h
  | ok d =>
    cases hg : s.get_shared o with
    | error e => simp [hgt, hg, bind, Except.bind] at h
    | ok u =>
      by_cases hne : o = t
      · left
        simp only [hgt, hg, bind, Except.bind, hne, ne_eq, not_true_eq_false, if_false,
          Except.ok.injEq] at h
        exact ⟨hne, h.symm⟩
      · right
        cases hd : s.heap.deref u.control_block_ with
        | error e => simp [hgt, hg, hd, hne, bind, Except.bind] at h
        | ok r =>
          obtain ⟨hcb, hnd, hb⟩ := Heap.deref_eq_ok.1 hd
          simp only [hgt, hg, hd, bind, Except.bind, ne_eq, hne, not_false_eq_true, if_true,
            Except.ok.injEq] at h
          obtain ⟨q, cb⟩ := u
          simp only at hcb
          subst hcb
          exact ⟨hne, d, q, r.1, r.2, State.get_shared_eq_ok.1 hgt,
            State.get_shared_eq_ok.1 hg, hnd, hb, h.symm⟩

/-- A successful `weak_ptr` copy assignment, made explicit. -/
theorem step_weak_assign_copy_inv {s s' : State} {t o : Nat}
    (h : step s (.weak_assign_copy t o) = .ok s') :
    (o = t ∧ s' = s) ∨
    (o ≠ t ∧ ∃ d q a b, s.objs[t]? = some (some (.weak d)) ∧
      s.objs[o]? = some (some (.weak ⟨q, some a⟩)) ∧
      a ∉ s.heap.deleted_blocks ∧ s.heap.blocks[a]? = some b ∧
      s' = ⟨⟨s.heap.blocks.set a ⟨b.ref_count, size_t_inc b.weak_count⟩,
        s.heap.deleted_blocks, s.heap.deleted_payloads⟩,
        s.objs.set t (some (.weak ⟨q, some a⟩))⟩) := by
  simp only [step, weak_ptr.assign_copy] at h
  cases hgt : s.get_weak t with
  | error e => simp [hgt, bind, Except.bind] at h
  | ok d =>
    cases hg : s.get_weak o with
    | error e => simp [hgt, hg, bind, Except.bind] at h
    | ok u =>
      by_cases hne : o = t
      · left
        simp only [hgt, hg, bind, Except.bind, hne, ne_eq, not_true_eq_false, if_false,
          Except.ok.injEq] at h
        exact ⟨hne, h.symm⟩
      · right
        cases hd : s.heap.deref u.control_block_ with
        | error e => simp [hgt, hg, hd, hne, bind, Except.bind] at h
        | ok r =>
          obtain ⟨hcb, hnd, hb⟩ := Heap.deref_eq_ok.1 hd
          simp only [hgt, hg, hd, bind, Except.bind, ne_eq, hne, not_false_eq_true, if_true,
            Except.ok.injEq] at h
          obtain ⟨q, cb⟩ := u
          simp only at hcb
          subst hcb
          exact ⟨hne, d, q, r.1, r.2, State.get_weak_eq_ok.1 hgt,
            State.get_weak_eq_ok.1 hg, hnd, hb, h.symm⟩

/-- A successful `shared_ptr` move assignment, made explicit. -/
theorem step_shared_assign_move_inv {s s' : State} {t o : Nat}
    (h : step s (.shared_assign_move t o) = .ok s') :
    (o = t ∧ s' = s) ∨
    (o ≠ t ∧ ∃ d u, s.objs[t]? = some (some (.shared d)) ∧
      s.objs[o]? = some (some (.shared u)) ∧
      s' = ⟨s.heap, (s.objs.set t (some (.shared u))).set o (some (.shared ⟨none, none⟩))⟩) := by
  simp only [step, shared_ptr.assign_move] at h
  cases hgt : s.get_shared t with
  | error e => simp [hgt, bind, Except.bind] at h
  | ok d =>
    cases hg : s.get_shared o with
    | error e => simp [hgt, hg, bind, Except.bind] at h
    | ok u =>
      by_cases hne : o = t
      · left
        simp only [hgt, hg, bind, Except.bind, hne, ne_eq, not_true_eq_false, if_false,
          Except.ok.injEq] at h
        exact ⟨hne, h.symm⟩
      · right
        simp only [hgt, hg, bind, Except.bind, ne_eq, hne, not_false_eq_true, if_true,
          Except.ok.injEq] at h
        exact ⟨hne, d, u, State.get_shared_eq_ok.1 hgt, State.get_shared_eq_ok.1 hg, h.symm⟩

/-- A successful `weak_ptr` move assignment, made explicit. -/
theorem step_weak_assign_move_inv {s s' : State} {t o : Nat}
    (h : step s (.weak_assign_move t o) = .ok s') :
    (o = t ∧ s' = s) ∨
    (o ≠ t ∧ ∃ d u, s.objs[t]? = some (some (.weak d)) ∧
      s.objs[o]? = some (some (.weak u)) ∧
      s' = ⟨s.heap, (s.objs.set t (some (.weak u))).set o (some (.weak ⟨none, none⟩))⟩) := by
  simp only [step, weak_ptr.assign_move] at h
  cases hgt : s.get_weak t with
  | error e => simp [hgt, bind, Except.bind] at h
  | ok d =>
    cases hg : s.get_weak o with
    | error e => simp [hgt, hg, bind, Except.bind] at h
    | ok u =>
      by_cases hne : o = t
      · left
        simp only [hgt, hg, bind, Except.bind, hne, ne_eq, not_true_eq_false, if_false,
          Except.ok.injEq] at h
        exact ⟨hne, h.symm⟩
      · right
        simp only [hgt, hg, bind, Except.bind, ne_eq, hne, not_false_eq_true, if_true,
          Except.ok.injEq] at h
        exact ⟨hne, d, u, State.get_weak_eq_ok.1 hgt, State.get_weak_eq_ok.1 hg, h.symm⟩

/-- A successful `shared_ptr::swap`, made explicit. -/
theorem step_shared_swap_inv {s s' : State} {t o : Nat}
    (h : step s (.shared_swap t o) = .ok s') :
    ∃ d u, s.objs[t]? = some (some (.shared d)) ∧ s.objs[o]? = some (some (.shared u)) ∧
      s' = ⟨s.heap, (s.objs.set t (some (.shared u))).set o (some (.shared d))⟩ := by
  simp only [step, shared_ptr.swap] at h
  cases hgt : s.get_shared t with
  | error e => simp [hgt, bind, Except.bind] at h
  | ok d =>
    cases hg : s.get_shared o with
    | error e => simp [hgt, hg, bind, Except.bind] at h
    | ok u =>
      simp only [hgt, hg, bind, Except.bind, Except.ok.injEq] at h
      exact ⟨d, u, State.get_shared_eq_ok.1 hgt, State.get_shared_eq_ok.1 hg, h.symm⟩

/-- A successful `weak_ptr::swap`, made explicit. -/
theorem step_weak_swap_inv {s s' : State} {t o : Nat}
    (h : step s (.weak_swap t o) = .ok s') :
    ∃ d u, s.objs[t]? = some (some (.weak d)) ∧ s.objs[o]? = some (some (.weak u)) ∧
      s' = ⟨s.heap, (s.objs.set t (some (.weak u))).set o (some (.weak d))⟩ := by
  simp only [step, weak_ptr.swap] at h
  cases hgt : s.get_weak t with
  | error e => simp [hgt, bind, Except.bind] at h
  | ok d =>
    cases hg : s.get_weak o with
    | error e => simp [hgt, hg, bind, Except.bind] at h
    | ok u =>
      simp only [hgt, hg, bind, Except.bind, Except.ok.injEq] at h
      exact ⟨d, u, State.get_weak_eq_ok.1 hgt, State.get_weak_eq_ok.1 hg, h.symm⟩

/-- A successful `~shared_ptr()` body, made explicit. -/
theorem shared_dtor_inv {s s' : State} {t : Nat} (h : shared_ptr.dtor s t = .ok s') :
    (∃ q, s.objs[t]? = some (some (.shared ⟨q, none⟩)) ∧ s' = s) ∨
    (∃ q a b, s.objs[t]? = some (some (.shared ⟨q, some a⟩)) ∧
      a ∉ s.heap.deleted_blocks ∧ s.heap.blocks[a]? = some b ∧
      s' = ⟨⟨s.heap.blocks.set a ⟨size_t_dec b.ref_count, b.weak_count⟩,
        s.heap.deleted_blocks ++
          (if size_t_dec b.ref_count = 0 ∧ b.weak_count = 0 then [a] else []),
        s.heap.deleted_payloads ++ (if size_t_dec b.ref_count = 0 then q.toList else [])⟩,
        s.objs⟩) := by
  cases hg : s.get_shared t with
  | error e => simp [shared_ptr.dtor, hg, bind, Except.bind] at h
  | ok u =>
    obtain ⟨q, cb⟩ := u
    have hx := State.get_shared_eq_ok.1 hg
    cases cb with
    | none =>
      left
      simp only [shared_ptr.dtor, hg, bind, Except.bind, Except.ok.injEq] at h
      exact ⟨q, hx, h.symm⟩
    | some a =>
      right
      cases hd : s.heap.deref (some a) with
      | error e => simp [shared_ptr.dtor, hg, hd, bind, Except.bind] at h
      | ok r =>
        obtain ⟨hcb, hnd, hb⟩ := Heap.deref_eq_ok.1 hd
        simp only [Option.some.injEq] at hcb
        subst hcb
        rw [shared_dtor_ok hx hnd hb] at h
        simp only [Except.ok.injEq] at h
        refine ⟨q, r.1, r.2, hx, hnd, hb, ?_⟩
        rw [← h]
        by_cases h0 : size_t_dec r.2.ref_count = 0 <;> by_cases hw : r.2.weak_count = 0 <;>
          cases q <;>
          simp [h0, hw, Heap.write, Heap.delete_payload, Heap.delete_block]

/-- A successful `~weak_ptr()` body, made explicit. -/
theorem weak_dtor_inv {s s' : State} {t : Nat} (h : weak_ptr.dtor s t = .ok s') :
    (∃ q, s.objs[t]? = some (some (.weak ⟨q, none⟩)) ∧ s' = s) ∨
    (∃ q a b, s.objs[t]? = some (some (.weak ⟨q, some a⟩)) ∧
      a ∉ s.heap.deleted_blocks ∧ s.heap.blocks[a]? = some b ∧
      s' = ⟨⟨s.heap.blocks.set a ⟨b.ref_count, size_t_dec b.weak_count⟩,
        s.heap.deleted_blocks ++
          (if size_t_dec b.weak_count = 0 ∧ b.ref_count = 0 then [a] else []),
        s.heap.deleted_payloads⟩, s.objs⟩) := by
  cases hg : s.get_weak t with
  | error e => simp [weak_ptr.dtor, hg, bind, Except.bind] at h
  | ok u =>
    obtain ⟨q, cb⟩ := u
    have hx := State.get_weak_eq_ok.1 hg
    cases cb with
    | none =>
      left
      simp only [weak_ptr.dtor, hg, bind, Except.bind, Except.ok.injEq] at h
      exact ⟨q, hx, h.symm⟩
    | some a =>
      right
      cases hd : s.heap.deref (some a) with
      | error e => simp [weak_ptr.dtor, hg, hd, bind, Except.bind] at h
      | ok r =>
        obtain ⟨hcb, hnd, hb⟩ := Heap.deref_eq_ok.1 hd
        simp only [Option.some.injEq] at hcb
        subst hcb
        rw [weak_dtor_ok hx hnd hb] at h
        simp only [Except.ok.injEq] at h
        refine ⟨q, r.1, r.2, hx, hnd, hb, ?_⟩
        rw [← h]
        by_cases h0 : size_t_dec r.2.weak_count = 0 <;> by_cases hw : r.2.ref_count = 0 <;>
          simp [h0, hw, Heap.write, Heap.delete_block]

/-- A successful destruction of a strong handle, made explicit. -/
theorem step_shared_destroy_inv {s s' : State} {t : Nat}
    (h : step s (.shared_destroy t) = .ok s') :
    (∃ q, s.objs[t]? = some (some (.shared ⟨q, none⟩)) ∧ s' = ⟨s.heap, s.objs.set t none⟩) ∨
    (∃ q a b, s.objs[t]? = some (some (.shared ⟨q, some a⟩)) ∧
      a ∉ s.heap.deleted_blocks ∧ s.heap.blocks[a]? = some b ∧
      s' = ⟨⟨s.heap.blocks.set a ⟨size_t_dec b.ref_count, b.weak_count⟩,
        s.heap.deleted_blocks ++
          (if size_t_dec b.ref_count = 0 ∧ b.weak_count = 0 then [a] else []),
        s.heap.deleted_payloads ++ (if size_t_dec b.ref_count = 0 then q.toList else [])⟩,
        s.objs.set t none⟩) := by
  simp only [step] at h
  cases hd : shared_ptr.dtor s t with
  | error e => simp [hd, Except.map] at h
  | ok s1 =>
    simp only [hd, Except.map, Except.ok.injEq] at h
    rcases shared_dtor_inv hd with ⟨q, hx, rfl⟩ | ⟨q, a, b, hx, hnd, hb, rfl⟩
    · exact Or.inl ⟨q, hx, h.symm⟩
    · exact Or.inr ⟨q, a, b, hx, hnd, hb, h.symm⟩

/-- A successful destruction of a weak handle, made explicit. -/
theorem step_weak_destroy_inv {s s' : State} {t : Nat}
    (h : step s (.weak_destroy t) = .ok s') :
    (∃ q, s.objs[t]? = some (some (.weak ⟨q, none⟩)) ∧ s' = ⟨s.heap, s.objs.set t none⟩) ∨
    (∃ q a b, s.objs[t]? = some (some (.weak ⟨q, some a⟩)) ∧
      a ∉ s.heap.deleted_blocks ∧ s.heap.blocks[a]? = some b ∧
      s' = ⟨⟨s.heap.blocks.set a ⟨b.ref_count, size_t_dec b.weak_count⟩,
        s.heap.deleted_blocks ++
          (if size_t_dec b.weak_count = 0 ∧ b.ref_count = 0 then [a] else []),
        s.heap.deleted_payloads⟩, s.objs.set t none⟩) := by
  simp only [step] at h
  cases hd : weak_ptr.dtor s t with
  | error e => simp [hd, Except.map] at h
  | ok s1 =>
    simp only [hd, Except.map, Except.ok.injEq] at h
    rcases weak_dtor_inv hd with ⟨q, hx, rfl⟩ | ⟨q, a, b, hx, hnd, hb, rfl⟩
    · exact Or.inl ⟨q, hx, h.symm⟩
    · exact Or.inr ⟨q, a, b, hx, hnd, hb, h.symm⟩

/-- A successful `shared_ptr::reset`, made explicit. -/
theorem step_shared_reset_inv {s s' : State} {t : Nat} {p : Option Nat}
    (h : step s (.shared_reset t p) = .ok s') :
    (∃ q, s.objs[t]? = some (some (.shared ⟨q, none⟩)) ∧
      s' = ⟨⟨s.heap.blocks ++ [⟨1, 0⟩], s.heap.deleted_blocks, s.heap.deleted_payloads⟩,
        s.objs.set t (some (.shared ⟨p, some s.heap.blocks.length⟩))⟩) ∨
    (∃ q a b, s.objs[t]? = some (some (.shared ⟨q, some a⟩)) ∧
      a ∉ s.heap.deleted_blocks ∧ s.heap.blocks[a]? = some b ∧
      s' = ⟨⟨s.heap.blocks.set a ⟨size_t_dec b.ref_count, b.weak_count⟩ ++ [⟨1, 0⟩],
        s.heap.deleted_blocks ++
          (if size_t_dec b.ref_count = 0 ∧ b.weak_count = 0 then [a] else []),
        s.heap.deleted_payloads ++ (if size_t_dec b.ref_count = 0 then q.toList else [])⟩,
        s.objs.set t (some (.shared ⟨p, some s.heap.blocks.length⟩))⟩) := by
  simp only [step, shared_ptr.reset] at h
  cases hd : shared_ptr.dtor s t with
  | error e => simp [hd, bind, Except.bind] at h
  | ok s1 =>
    simp only [hd, bind, Except.bind, Except.ok.injEq] at h
    rcases shared_dtor_inv hd with ⟨q, hx, rfl⟩ | ⟨q, a, b, hx, hnd, hb, rfl⟩
    · exact Or.inl ⟨q, hx, h.symm⟩
    · refine Or.inr ⟨q, a, b, hx, hnd, hb, ?_⟩
      rw [← h]
      simp [State.put, Heap.new_block]

/-- A successful `weak_ptr::reset`, made explicit. -/
theorem step_weak_reset_inv {s s' : State} {t : Nat} (h : step s (.weak_reset t) = .ok s') :
    ∃ q a b, s.objs[t]? = some (some (.weak ⟨q, some a⟩)) ∧
      a ∉ s.heap.deleted_blocks ∧ s.heap.blocks[a]? = some b ∧
      s' = ⟨⟨s.heap.blocks.set a ⟨b.ref_count, size_t_dec b.weak_count⟩ ++ [⟨0, 0⟩],
        s.heap.deleted_blocks, s.heap.deleted_payloads⟩,
        s.objs.set t (some (.weak ⟨none, some s.heap.blocks.length⟩))⟩ := by
  simp only [step] at h
  cases hg : s.get_weak t with
  | error e => simp [weak_ptr.reset, hg, bind, Except.bind] at h
  | ok u =>
    obtain ⟨q, cb⟩ := u
    have hx := State.get_weak_eq_ok.1 hg
    cases hd : s.heap.deref cb with
    | error e => simp [weak_ptr.reset, hg, hd, bind, Except.bind] at h
    | ok r =>
      obtain ⟨hcb, hnd, hb⟩ := Heap.deref_eq_ok.1 hd
      subst hcb
      rw [weak_reset_ok hx hnd hb] at h
      exact ⟨q, r.1, r.2, hx, hnd, hb, (Except.ok.inj h).symm⟩

/-- A successful `weak_ptr::lock`, made explicit. -/
theorem step_weak_lock_inv {s s' : State} {t : Nat} (h : step s (.weak_lock t) = .ok s') :
    ∃ q a b, s.objs[t]? = some (some (.weak ⟨q, some a⟩)) ∧
      a ∉ s.heap.deleted_blocks ∧ s.heap.blocks[a]? = some b ∧
      ((0 < b.ref_count ∧
        s' = ⟨⟨s.heap.blocks.set a ⟨size_t_inc b.ref_count, b.weak_count⟩,
          s.heap.deleted_blocks, s.heap.deleted_payloads⟩,
          s.objs ++ [some (.shared ⟨q, some a⟩)]⟩) ∨
       (b.ref_count = 0 ∧
        s' = ⟨⟨s.heap.blocks ++ [⟨1, 0⟩], s.heap.deleted_blocks, s.heap.deleted_payloads⟩,
          s.objs ++ [some (.shared ⟨none, some s.heap.blocks.length⟩)]⟩)) := by
  simp only [step] at h
  cases hg : s.get_weak t with
  | error e => simp [weak_ptr.lock, weak_ptr.expired, hg, bind, Except.bind] at h
  | ok u =>
    obtain ⟨q, cb⟩ := u
    have hx := State.get_weak_eq_ok.1 hg
    cases hd : s.heap.deref cb with
    | error e => simp [weak_ptr.lock, weak_ptr.expired, hg, hd, bind, Except.bind] at h
    | ok r =>
      obtain ⟨hcb, hnd, hb⟩ := Heap.deref_eq_ok.1 hd
      subst hcb
      refine ⟨q, r.1, r.2, hx, hnd, hb, ?_⟩
      by_cases h0 : r.2.ref_count = 0
      · right
        rw [weak_lock_expired hx hnd hb h0] at h
        exact ⟨h0, (Except.ok.inj h).symm⟩
      · left
        have hpos : 0 < r.2.ref_count := Nat.pos_of_ne_zero h0
        rw [weak_lock_live hx hnd hb hpos] at h
        exact ⟨hpos, (Except.ok.inj h).symm⟩

/-! ## Counting toolkit -/

/-- Strong count at an address that holds a block. -/
theorem strong_at_of_block {bl : List ControlBlock} {a : Nat} {b : ControlBlock}
    (h : bl[a]? = some b) : strong_at bl a = b.ref_count := by
  simp [strong_at, h]

/-- Weak count at an address that holds a block. -/
theorem weak_at_of_block {bl : List ControlBlock} {a : Nat} {b : ControlBlock}
    (h : bl[a]? = some b) : weak_at bl a = b.weak_count := by
  simp [weak_at, h]

/-- Strong counts after overwriting the block at an allocated address. -/
theorem strong_at_set {bl : List ControlBlock} {a : Nat} (c : ControlBlock) (a' : Nat)
    (ha : a < bl.length) :
    strong_at (bl.set a c) a' = if a = a' then c.ref_count else strong_at bl a' := by
  by_cases h : a = a'
  · subst h; simp [strong_at, ha]
  · simp [strong_at, h, List.getElem?_set_ne h]

/-- Weak counts after overwriting the block at an allocated address. -/
theorem weak_at_set {bl : List ControlBlock} {a : Nat} (c : ControlBlock) (a' : Nat)
    (ha : a < bl.length) :
    weak_at (bl.set a c) a' = if a = a' then c.weak_count else weak_at bl a' := by
  by_cases h : a = a'
  · subst h; simp [weak_at, ha]
  · simp [weak_at, h, List.getElem?_set_ne h]

/-- Strong counts after allocating one more block. -/
theorem strong_at_append (bl : List ControlBlock) (c : ControlBlock) (a' : Nat) :
    strong_at (bl ++ [c]) a' = if bl.length = a' then c.ref_count else strong_at bl a' := by
  by_cases h : bl.length = a'
  · subst h; simp [strong_at]
  · by_cases hlt : a' < bl.length
    · simp [strong_at, h, List.getElem?_append_left hlt]
    · have hge : bl.length + 1 ≤ a' := by omega
      have h1 : (bl ++ [c])[a']? = none := by
        rw [List.getElem?_eq_none_iff]; simpa using hge
      have h2 : bl[a']? = none := by
        rw [List.getElem?_eq_none_iff]; omega
      simp [strong_at, h, h1, h2]

/-- Weak counts after allocating one more block. -/
theorem weak_at_append (bl : List ControlBlock) (c : ControlBlock) (a' : Nat) :
    weak_at (bl ++ [c]) a' = if bl.length = a' then c.weak_count else weak_at bl a' := by
  by_cases h : bl.length = a'
  · subst h; simp [weak_at]
  · by_cases hlt : a' < bl.length
    · simp [weak_at, h, List.getElem?_append_left hlt]
    · have hge : bl.length + 1 ≤ a' := by omega
      have h1 : (bl ++ [c])[a']? = none := by
        rw [List.getElem?_eq_none_iff]; simpa using hge
      have h2 : bl[a']? = none := by
        rw [List.getElem?_eq_none_iff]; omega
      simp [weak_at, h, h1, h2]

/-- No strong count is stored beyond the allocated blocks. -/
theorem strong_at_of_le {bl : List ControlBlock} {a : Nat} (h : bl.length ≤ a) :
    strong_at bl a = 0 := by
  have h2 : bl[a]? = none := by rw [List.getElem?_eq_none_iff]; omega
  simp [strong_at, h2]

/-- No weak count is stored beyond the allocated blocks. -/
theorem weak_at_of_le {bl : List ControlBlock} {a : Nat} (h : bl.length ≤ a) :
    weak_at bl a = 0 := by
  have h2 : bl[a]? = none := by rw [List.getElem?_eq_none_iff]; omega
  simp [weak_at, h2]

/-- Counting after appending one element. -/
theorem countP_push {α : Type} (f : α → Bool) (l : List α) (v : α) :
    (l ++ [v]).countP f = l.countP f + (if f v then 1 else 0) := by
  simp [List.countP_append, List.countP_cons]

/-- Counting after replacing the element at a valid index. -/
theorem countP_set_add {α : Type} (f : α → Bool) (l : List α) (i : Nat) (old new : α)
    (h : l[i]? = some old) :
    (l.set i new).countP f + (if f old then 1 else 0) =
      l.countP f + (if f new then 1 else 0) := by
  induction l generalizing i with
  | nil => simp at h
  | cons x xs ih =>
    cases i with
    | zero =>
      simp only [List.getElem?_cons_zero, Option.some.injEq] at h
      subst h
      simp only [List.set_cons_zero, List.countP_cons]
      omega
    | succ j =>
      simp only [List.getElem?_cons_succ] at h
      have := ih j h
      simp only [List.set_cons_succ, List.countP_cons]
      omega

/-! ## Attached handles and the counted-fragment invariant -/

/-- Whether a strong handle object is attached to block `a`. -/
@[simp] theorem is_shared_on_shared (a : Nat) (x : shared_ptr) :
    Obj.is_shared_on a (some (.shared x)) = (x.control_block_ == some a) := rfl

/-- A weak handle object is not a strong handle. -/
@[simp] theorem is_shared_on_weak (a : Nat) (x : weak_ptr) :
    Obj.is_shared_on a (some (.weak x)) = false := rfl

/-- A destroyed object is not a strong handle. -/
@[simp] theorem is_shared_on_none (a : Nat) : Obj.is_shared_on a none = false := rfl

/-- Whether a weak handle object is attached to block `a`. -/
@[simp] theorem is_weak_on_weak (a : Nat) (x : weak_ptr) :
    Obj.is_weak_on a (some (.weak x)) = (x.control_block_ == some a) := rfl

/-- A strong handle object is not a weak handle. -/
@[simp] theorem is_weak_on_shared (a : Nat) (x : shared_ptr) :
    Obj.is_weak_on a (some (.shared x)) = false := rfl

/-- A destroyed object is not a weak handle. -/
@[simp] theorem is_weak_on_none (a : Nat) : Obj.is_weak_on a none = false := rfl

/-- A live strong handle on block `a` is counted. -/
theorem live_shared_pos {objs : List (Option Obj)} {x a : Nat} {q : Option Nat}
    (h : objs[x]? = some (some (.shared ⟨q, some a⟩))) :
    0 < objs.countP (Obj.is_shared_on a) := by
  rw [List.countP_pos_iff]
  exact ⟨_, List.getElem?_mem h, by simp⟩

/-- A live weak handle on block `a` is counted. -/
theorem live_weak_pos {objs : List (Option Obj)} {x a : Nat} {q : Option Nat}
    (h : objs[x]? = some (some (.weak ⟨q, some a⟩))) :
    0 < objs.countP (Obj.is_weak_on a) := by
  rw [List.countP_pos_iff]
  exact ⟨_, List.getElem?_mem h, by simp⟩

/-- An entry of an extended list is the new element or an old entry. -/
theorem getElem?_push_cases {α : Type} {l : List α} {v w : α} {i : Nat}
    (h : (l ++ [v])[i]? = some w) : l[i]? = some w ∨ w = v := by
  by_cases hi : i < l.length
  · left; rw [List.getElem?_append_left hi] at h; exact h
  · right
    rw [List.getElem?_append_right (by omega)] at h
    cases hj : i - l.length with
    | zero => simp [hj] at h; exact h.symm
    | succ j => simp [hj] at h

/-- An entry of an updated list is the new element or an old entry. -/
theorem getElem?_set_cases {α : Type} {l : List α} {v w : α} {i j : Nat}
    (h : (l.set j v)[i]? = some w) : l[i]? = some w ∨ w = v := by
  by_cases hij : j = i
  · subst hij
    right
    rw [List.getElem?_set_self'] at h
    cases hl : l[j]? with
    | none => simp [hl] at h
    | some u => simp [hl] at h; exact h.symm
  · left; rw [List.getElem?_set_ne hij] at h; exact h

/-- The counted fragment: a strong count is incremented and a strong handle
on that block is added. -/
theorem exact_inc_strong {p : Nat} {s : State} {a : Nat} {q : Option Nat} {b : ControlBlock}
    {x : Nat} {o : Obj}
    (hE : Exact p s) (hlen : s.objs.length + 1 < SIZE_T_RANGE)
    (hx : s.objs[x]? = some (some o)) (hq : o.pointer = q) (hr : o.record = some a)
    (hb : s.heap.blocks[a]? = some b) (hpos : 0 < b.ref_count) :
    Exact p ⟨⟨s.heap.blocks.set a ⟨size_t_inc b.ref_count, b.weak_count⟩,
      s.heap.deleted_blocks, s.heap.deleted_payloads⟩,
      s.objs ++ [some (Obj.shared ⟨q, some a⟩)]⟩ := by
  obtain ⟨h1, h2, h3, h4, h5, h6, h7⟩ := hE
  have ha : a < s.heap.blocks.length := (List.getElem?_eq_some.1 hb).1
  have hrc := strong_at_of_block hb
  have hwc := weak_at_of_block hb
  have hle : s.objs.countP (Obj.is_shared_on a) ≤ s.objs.length := List.countP_le_length _
  have e1a := h1 a
  simp only [State.live_shared] at e1a
  have hinc : size_t_inc b.ref_count = b.ref_count + 1 := size_t_inc_of_lt (by omega)
  refine ⟨?_, ?_, ?_, ?_, ?_, ?_, ?_⟩
  · intro a'
    have e1 := h1 a'
    simp only [State.live_shared] at e1 ⊢
    simp only [strong_at_set _ _ ha, countP_push, is_shared_on_shared, beq_iff_eq,
      Option.some.injEq, hinc]
    by_cases haa : a = a'
    · subst haa; simp only [eq_self, if_true]; omega
    · simp only [haa, if_false]; omega
  · intro a'
    have e2 := h2 a'
    simp only [State.live_weak] at e2 ⊢
    simp only [weak_at_set _ _ ha, countP_push, is_weak_on_shared, Bool.false_eq_true,
      if_false, Nat.add_zero]
    by_cases haa : a = a'
    · subst haa; simp only [eq_self, if_true]; omega
    · simp only [haa, if_false]; omega
  · intro a' ha'
    have e3 := h3 a' (by simpa using ha')
    simp only [State.block_deletes, State.live_shared, State.live_weak] at e3 ⊢
    simp only [e3, countP_push, is_shared_on_shared, is_weak_on_shared, beq_iff_eq,
      Option.some.injEq, Bool.false_eq_true, if_false, Nat.add_zero]
    by_cases haa : a = a'
    · subst haa
      simp only [eq_self, if_true]
      rw [if_neg (by omega), if_neg (by omega)]
    · simp only [haa, if_false, Nat.add_zero]
  · intro d hd
    simpa using h4 d hd
  · intro y o' hy
    rcases getElem?_push_cases hy with h | h
    · exact h5 y o' h
    · cases h
      have := h5 x o hx
      rw [hq, hr] at this
      simpa [Obj.pointer, Obj.record] using this
  · simp only [State.live_shared] at h6 ⊢
    simp only [h6, countP_push, is_shared_on_shared, beq_iff_eq, Option.some.injEq]
    by_cases ha0 : a = 0
    · subst ha0
      simp only [eq_self, if_true]
      rw [if_neg (by omega), if_neg (by omega)]
    · simp only [ha0, if_false, Nat.add_zero]
  · simpa using h7

/-- The counted fragment: a weak count is incremented and a weak handle on
that block is added. -/
theorem exact_inc_weak {p : Nat} {s : State} {a : Nat} {q : Option Nat} {b : ControlBlock}
    {x : Nat} {o : Obj}
    (hE : Exact p s) (hlen : s.objs.length + 1 < SIZE_T_RANGE)
    (hx : s.objs[x]? = some (some o)) (hq : o.pointer = q) (hr : o.record = some a)
    (hb : s.heap.blocks[a]? = some b)
    (hatt : 0 < s.objs.countP (Obj.is_shared_on a) + s.objs.countP (Obj.is_weak_on a)) :
    Exact p ⟨⟨s.heap.blocks.set a ⟨b.ref_count, size_t_inc b.weak_count⟩,
      s.heap.deleted_blocks, s.heap.deleted_payloads⟩,
      s.objs ++ [some (Obj.weak ⟨q, some a⟩)]⟩ := by
  obtain ⟨h1, h2, h3, h4, h5, h6, h7⟩ := hE
  have ha : a < s.heap.blocks.length := (List.getElem?_eq_some.1 hb).1
  have hrc := strong_at_of_block hb
  have hwc := weak_at_of_block hb
  have hle : s.objs.countP (Obj.is_weak_on a) ≤ s.objs.length := List.countP_le_length _
  have e2a := h2 a
  simp only [State.live_weak] at e2a
  have hinc : size_t_inc b.weak_count = b.weak_count + 1 := size_t_inc_of_lt (by omega)
  refine ⟨?_, ?_, ?_, ?_, ?_, ?_, ?_⟩
  · intro a'
    have e1 := h1 a'
    simp only [State.live_shared] at e1 ⊢
    simp only [strong_at_set _ _ ha, countP_push, is_shared_on_weak, Bool.false_eq_true,
      if_false, Nat.add_zero]
    by_cases haa : a = a'
    · subst haa; simp only [eq_self, if_true]; omega
    · simp only [haa, if_false]; omega
  · intro a'
    have e2 := h2 a'
    simp only [State.live_weak] at e2 ⊢
    simp only [weak_at_set _ _ ha, countP_push, is_weak_on_weak, beq_iff_eq,
      Option.some.injEq, hinc]
    by_cases haa : a = a'
    · subst haa; simp only [eq_self, if_true]; omega
    · simp only [haa, if_false]; omega
  · intro a' ha'
    have e3 := h3 a' (by simpa using ha')
    simp only [State.block_deletes, State.live_shared, State.live_weak] at e3 ⊢
    simp only [e3, countP_push, is_shared_on_weak, is_weak_on_weak, beq_iff_eq,
      Option.some.injEq, Bool.false_eq_true, if_false, Nat.add_zero]
    by_cases haa : a = a'
    · subst haa
      simp only [eq_self, if_true]
      rw [if_neg (by omega), if_neg (by omega)]
    · simp only [haa, if_false, Nat.add_zero]
  · intro d hd
    simpa using h4 d hd
  · intro y o' hy
    rcases getElem?_push_cases hy with h | h
    · exact h5 y o' h
    · cases h
      have := h5 x o hx
      rw [hq, hr] at this
      simpa [Obj.pointer, Obj.record] using this
  · simp only [State.live_shared] at h6 ⊢
    simp only [h6, countP_push, is_shared_on_weak, Bool.false_eq_true, if_false, Nat.add_zero]
  · simpa using h7

/-- The counted fragment: a strong handle is moved into a new object. -/
theorem exact_move_shared {p : Nat} {s : State} {x : Nat} {t : shared_ptr}
    (hE : Exact p s) (hx : s.objs[x]? = some (some (Obj.shared t))) :
    Exact p ⟨s.heap,
      s.objs.set x (some (Obj.shared ⟨none, none⟩)) ++ [some (Obj.shared t)]⟩ := by
  obtain ⟨h1, h2, h3, h4, h5, h6, h7⟩ := hE
  have hs : ∀ a, (s.objs.set x (some (Obj.shared ⟨none, none⟩)) ++
      [some (Obj.shared t)]).countP (Obj.is_shared_on a) =
      s.objs.countP (Obj.is_shared_on a) := by
    intro a
    have c := countP_set_add (Obj.is_shared_on a) s.objs x _
      (some (Obj.shared ⟨none, none⟩)) hx
    simp only [is_shared_on_shared, beq_iff_eq, reduceCtorEq, if_false, Nat.add_zero] at c
    simp only [countP_push, is_shared_on_shared, beq_iff_eq]
    omega
  have hw : ∀ a, (s.objs.set x (some (Obj.shared ⟨none, none⟩)) ++
      [some (Obj.shared t)]).countP (Obj.is_weak_on a) =
      s.objs.countP (Obj.is_weak_on a) := by
    intro a
    have c := countP_set_add (Obj.is_weak_on a) s.objs x _
      (some (Obj.shared ⟨none, none⟩)) hx
    simp only [is_weak_on_shared, Bool.false_eq_true, if_false, Nat.add_zero] at c
    simp only [countP_push, is_weak_on_shared, Bool.false_eq_true, if_false, Nat.add_zero]
    exact c
  refine ⟨?_, ?_, ?_, h4, ?_, ?_, h7⟩
  · intro a; simp only [State.live_shared, hs]; exact h1 a
  · intro a; simp only [State.live_weak, hw]; exact h2 a
  · intro a ha
    simp only [State.block_deletes, State.live_shared, State.live_weak, hs, hw]
    exact h3 a ha
  · intro y o' hy
    rcases getElem?_push_cases hy with h | h
    · rcases getElem?_set_cases h with h' | h'
      · exact h5 y o' h'
      · cases h'; simp [Obj.pointer, Obj.record]
    · cases h; exact h5 x _ hx
  · simp only [State.live_shared, hs]; exact h6

/-- The counted fragment: a weak handle is moved into a new object. -/
theorem exact_move_weak {p : Nat} {s : State} {x : Nat} {t : weak_ptr}
    (hE : Exact p s) (hx : s.objs[x]? = some (some (Obj.weak t))) :
    Exact p ⟨s.heap, s.objs.set x (some (Obj.weak ⟨none, none⟩)) ++ [some (Obj.weak t)]⟩ := by
  obtain ⟨h1, h2, h3, h4, h5, h6, h7⟩ := hE
  have hs : ∀ a, (s.objs.set x (some (Obj.weak ⟨none, none⟩)) ++
      [some (Obj.weak t)]).countP (Obj.is_shared_on a) =
      s.objs.countP (Obj.is_shared_on a) := by
    intro a
    have c := countP_set_add (Obj.is_shared_on a) s.objs x _
      (some (Obj.weak ⟨none, none⟩)) hx
    simp only [is_shared_on_weak, Bool.false_eq_true, if_false, Nat.add_zero] at c
    simp only [countP_push, is_shared_on_weak, Bool.false_eq_true, if_false, Nat.add_zero]
    exact c
  have hw : ∀ a, (s.objs.set x (some (Obj.weak ⟨none, none⟩)) ++
      [some (Obj.weak t)]).countP (Obj.is_weak_on a) =
      s.objs.countP (Obj.is_weak_on a) := by
    intro a
    have c := countP_set_add (Obj.is_weak_on a) s.objs x _
      (some (Obj.weak ⟨none, none⟩)) hx
    simp only [is_weak_on_weak, beq_iff_eq, reduceCtorEq, if_false, Nat.add_zero] at c
    simp only [countP_push, is_weak_on_weak, beq_iff_eq]
    omega
  refine ⟨?_, ?_, ?_, h4, ?_, ?_, h7⟩
  · intro a; simp only [State.live_shared, hs]; exact h1 a
  · intro a; simp only [State.live_weak, hw]; exact h2 a
  · intro a ha
    simp only [State.block_deletes, State.live_shared, State.live_weak, hs, hw]
    exact h3 a ha
  · intro y o' hy
    rcases getElem?_push_cases hy with h | h
    · rcases getElem?_set_cases h with h' | h'
      · exact h5 y o' h'
      · cases h'; simp [Obj.pointer, Obj.record]
    · cases h; exact h5 x _ hx
  · simp only [State.live_shared, hs]; exact h6

/-- The counted fragment: `lock()` on an expired handle allocates a block
holding (1, 0) and adds a strong handle with null payload on it. -/
theorem exact_new_empty {p : Nat} {s : State} (hE : Exact p s) :
    Exact p ⟨⟨s.heap.blocks ++ [⟨1, 0⟩], s.heap.deleted_blocks, s.heap.deleted_payloads⟩,
      s.objs ++ [some (Obj.shared ⟨none, some s.heap.blocks.length⟩)]⟩ := by
  obtain ⟨h1, h2, h3, h4, h5, h6, h7⟩ := hE
  have hn1 := h1 s.heap.blocks.length
  have hn2 := h2 s.heap.blocks.length
  rw [strong_at_of_le (Nat.le_refl _)] at hn1
  rw [weak_at_of_le (Nat.le_refl _)] at hn2
  simp only [State.live_shared, State.live_weak] at hn1 hn2
  refine ⟨?_, ?_, ?_, ?_, ?_, ?_, ?_⟩
  · intro a'
    have e1 := h1 a'
    simp only [State.live_shared] at e1 ⊢
    simp only [strong_at_append, countP_push, is_shared_on_shared, beq_iff_eq,
      Option.some.injEq]
    by_cases haa : s.heap.blocks.length = a'
    · subst haa; simp only [eq_self, if_true]; omega
    · simp only [haa, if_false]; omega
  · intro a'
    have e2 := h2 a'
    simp only [State.live_weak] at e2 ⊢
    simp only [weak_at_append, countP_push, is_weak_on_shared, Bool.false_eq_true, if_false,
      Nat.add_zero]
    by_cases haa : s.heap.blocks.length = a'
    · subst haa; simp only [eq_self, if_true]; omega
    · simp only [haa, if_false]; omega
  · intro a' ha'
    simp only [State.block_deletes, State.live_shared, State.live_weak, countP_push,
      is_shared_on_shared, is_weak_on_shared, beq_iff_eq, Option.some.injEq, Bool.false_eq_true,
      if_false, Nat.add_zero]
    by_cases haa : s.heap.blocks.length = a'
    · subst haa
      have hnd : s.heap.blocks.length ∉ s.heap.deleted_blocks :=
        fun h => Nat.lt_irrefl _ (h4 _ h)
      simp only [eq_self, if_true, List.count_eq_zero_of_not_mem hnd]
      rw [if_neg (by omega)]
    · have hlt : a' < s.heap.blocks.length := by
        simp only [List.length_append, List.length_singleton] at ha'; omega
      have e3 := h3 a' hlt
      simp only [State.block_deletes, State.live_shared, State.live_weak] at e3
      simp only [e3, haa, if_false, Nat.add_zero]
  · intro d hd
    have := h4 d hd
    simp only [List.length_append, List.length_singleton]; omega
  · intro y o' hy
    rcases getElem?_push_cases hy with h | h
    · exact h5 y o' h
    · cases h
      simp only [Obj.pointer, Obj.record, Option.some.injEq, ne_eq, not_true_eq_false,
        false_implies, and_true]
      intro h0; omega
  · simp only [State.live_shared] at h6 ⊢
    have hn0 : ¬ s.heap.blocks.length = 0 := by omega
    simp only [h6, countP_push, is_shared_on_shared, beq_iff_eq, Option.some.injEq, hn0,
      if_false, Nat.add_zero]
  · simp

/-- The counted fragment: an object that is attached to no record ends. -/
theorem exact_drop_detached {p : Nat} {s : State} {x : Nat} {o : Obj}
    (hE : Exact p s) (hx : s.objs[x]? = some (some o)) (hr : o.record = none) :
    Exact p ⟨s.heap, s.objs.set x none⟩ := by
  obtain ⟨h1, h2, h3, h4, h5, h6, h7⟩ := hE
  have hs : ∀ a, (s.objs.set x none).countP (Obj.is_shared_on a) =
      s.objs.countP (Obj.is_shared_on a) := by
    intro a
    have c := countP_set_add (Obj.is_shared_on a) s.objs x _ none hx
    cases o with
    | shared t =>
      simp only [Obj.record] at hr
      simp only [is_shared_on_shared, is_shared_on_none, hr, beq_iff_eq, reduceCtorEq,
        Bool.false_eq_true, if_false, Nat.add_zero] at c
      exact c
    | weak t =>
      simp only [is_shared_on_weak, is_shared_on_none, Bool.false_eq_true, if_false,
        Nat.add_zero] at c
      exact c
  have hw : ∀ a, (s.objs.set x none).countP (Obj.is_weak_on a) =
      s.objs.countP (Obj.is_weak_on a) := by
    intro a
    have c := countP_set_add (Obj.is_weak_on a) s.objs x _ none hx
    cases o with
    | shared t =>
      simp only [is_weak_on_shared, is_weak_on_none, Bool.false_eq_true, if_false,
        Nat.add_zero] at c
      exact c
    | weak t =>
      simp only [Obj.record] at hr
      simp only [is_weak_on_weak, is_weak_on_none, hr, beq_iff_eq, reduceCtorEq,
        Bool.false_eq_true, if_false, Nat.add_zero] at c
      exact c
  refine ⟨?_, ?_, ?_, h4, ?_, ?_, h7⟩
  · intro a; simp only [State.live_shared, hs]; exact h1 a
  · intro a; simp only [State.live_weak, hw]; exact h2 a
  · intro a ha
    simp only [State.block_deletes, State.live_shared, State.live_weak, hs, hw]
    exact h3 a ha
  · intro y o' hy
    rcases getElem?_set_cases hy with h' | h'
    · exact h5 y o' h'
    · cases h'
  · simp only [State.live_shared, hs]; exact h6

/-- The counted fragment: a strong handle attached to a live record ends. -/
theorem exact_drop_shared {p : Nat} {s : State} {x a : Nat} {q : Option Nat}
    {b : ControlBlock}
    (hE : Exact p s) (hlen : s.objs.length < SIZE_T_RANGE)
    (hx : s.objs[x]? = some (some (Obj.shared ⟨q, some a⟩)))
    (hb : s.heap.blocks[a]? = some b) :
    Exact p ⟨⟨s.heap.blocks.set a ⟨size_t_dec b.ref_count, b.weak_count⟩,
      s.heap.deleted_blocks ++
        (if size_t_dec b.ref_count = 0 ∧ b.weak_count = 0 then [a] else []),
      s.heap.deleted_payloads ++ (if size_t_dec b.ref_count = 0 then q.toList else [])⟩,
      s.objs.set x none⟩ := by
  obtain ⟨h1, h2, h3, h4, h5, h6, h7⟩ := hE
  have ha : a < s.heap.blocks.length := (List.getElem?_eq_some.1 hb).1
  have hrc := strong_at_of_block hb
  have hwc := weak_at_of_block hb
  have hpos := live_shared_pos hx
  have hle : s.objs.countP (Obj.is_shared_on a) ≤ s.objs.length := List.countP_le_length _
  have e1a := h1 a
  have e2a := h2 a
  simp only [State.live_shared, State.live_weak] at e1a e2a
  have hdec : size_t_dec b.ref_count = b.ref_count - 1 :=
    size_t_dec_of_pos (by omega) (by omega)
  have hs : ∀ a', (s.objs.set x none).countP (Obj.is_shared_on a') +
      (if a = a' then 1 else 0) = s.objs.countP (Obj.is_shared_on a') := by
    intro a'
    have c := countP_set_add (Obj.is_shared_on a') s.objs x _ none hx
    simp only [is_shared_on_shared, is_shared_on_none, beq_iff_eq, Option.some.injEq,
      Bool.false_eq_true, if_false, Nat.add_zero] at c
    exact c
  have hw : ∀ a', (s.objs.set x none).countP (Obj.is_weak_on a') =
      s.objs.countP (Obj.is_weak_on a') := by
    intro a'
    have c := countP_set_add (Obj.is_weak_on a') s.objs x _ none hx
    simp only [is_weak_on_shared, is_weak_on_none, Bool.false_eq_true, if_false,
      Nat.add_zero] at c
    exact c
  have hshape := h5 x _ hx
  simp only [Obj.pointer, Obj.record, Option.some.injEq, ne_eq] at hshape
  refine ⟨?_, ?_, ?_, ?_, ?_, ?_, ?_⟩
  · intro a'
    have e1 := h1 a'
    have c := hs a'
    simp only [State.live_shared] at e1 ⊢
    simp only [strong_at_set _ _ ha, hdec]
    by_cases haa : a = a'
    · subst haa; simp only [eq_self, if_true] at c ⊢; omega
    · simp only [haa, if_false] at c ⊢; omega
  · intro a'
    have e2 := h2 a'
    simp only [State.live_weak] at e2 ⊢
    simp only [weak_at_set _ _ ha, hw]
    by_cases haa : a = a'
    · subst haa; simp only [eq_self, if_true]; omega
    · simp only [haa, if_false]; omega
  · intro a' ha'
    have e3 := h3 a' (by simpa using ha')
    have c := hs a'
    simp only [State.block_deletes, State.live_shared, State.live_weak] at e3 ⊢
    simp only [List.count_append, e3, hw, hdec]
    by_cases haa : a = a'
    · subst haa
      simp only [eq_self, if_true] at c
      by_cases hC : b.ref_count - 1 = 0 ∧ b.weak_count = 0
      · simp only [hC, and_self, if_true, List.count_singleton, beq_self_eq_true]
        rw [if_neg (by omega), if_pos (by omega)]
      · simp only [hC, if_false, List.count_nil, Nat.add_zero]
        rw [if_neg (by omega), if_neg (by omega)]
    · simp only [haa, if_false, Nat.add_zero] at c
      have hcnt : List.count a' (if b.ref_count - 1 = 0 ∧ b.weak_count = 0 then [a] else []) =
          0 := by
        split_ifs
        · simp [List.count_singleton, haa]
        · rfl
      simp only [hcnt, Nat.add_zero, c]
  · intro d hd
    simp only [List.length_set]
    rcases List.mem_append.1 hd with h | h
    · exact h4 d h
    · split_ifs at h
      · simp only [List.mem_singleton] at h; omega
      · cases h
  · intro y o' hy
    rcases getElem?_set_cases hy with h' | h'
    · exact h5 y o' h'
    · cases h'
  · have c := hs 0
    simp only [State.live_shared] at h6 ⊢
    simp only [h6, hdec]
    by_cases ha0 : a = 0
    · subst ha0
      simp only [eq_self, if_true] at c
      have hq : q = some p := hshape.1 rfl
      subst hq
      by_cases hz : b.ref_count - 1 = 0
      · simp only [hz, if_true, Option.toList]
        rw [if_neg (by omega), if_pos (by omega)]; rfl
      · simp only [hz, if_false, List.append_nil]
        rw [if_neg (by omega), if_neg (by omega)]
    · simp only [ha0, if_false, Nat.add_zero] at c
      have hq : q = none := by
        by_contra hne
        exact ha0 (hshape.2 hne)
      subst hq
      simp only [Option.toList, ite_self, List.append_nil, c]
  · simpa using h7

/-- The counted fragment: a weak handle attached to a live record ends. -/
theorem exact_drop_weak {p : Nat} {s : State} {x a : Nat} {q : Option Nat}
    {b : ControlBlock}
    (hE : Exact p s) (hlen : s.objs.length < SIZE_T_RANGE)
    (hx : s.objs[x]? = some (some (Obj.weak ⟨q, some a⟩)))
    (hb : s.heap.blocks[a]? = some b) :
    Exact p ⟨⟨s.heap.blocks.set a ⟨b.ref_count, size_t_dec b.weak_count⟩,
      s.heap.deleted_blocks ++
        (if size_t_dec b.weak_count = 0 ∧ b.ref_count = 0 then [a] else []),
      s.heap.deleted_payloads⟩, s.objs.set x none⟩ := by
  obtain ⟨h1, h2, h3, h4, h5, h6, h7⟩ := hE
  have ha : a < s.heap.blocks.length := (List.getElem?_eq_some.1 hb).1
  have hrc := strong_at_of_block hb
  have hwc := weak_at_of_block hb
  have hpos := live_weak_pos hx
  have hle : s.objs.countP (Obj.is_weak_on a) ≤ s.objs.length := List.countP_le_length _
  have e1a := h1 a
  have e2a := h2 a
  simp only [State.live_shared, State.live_weak] at e1a e2a
  have hdec : size_t_dec b.weak_count = b.weak_count - 1 :=
    size_t_dec_of_pos (by omega) (by omega)
  have hw : ∀ a', (s.objs.set x none).countP (Obj.is_weak_on a') +
      (if a = a' then 1 else 0) = s.objs.countP (Obj.is_weak_on a') := by
    intro a'
    have c := countP_set_add (Obj.is_weak_on a') s.objs x _ none hx
    simp only [is_weak_on_weak, is_weak_on_none, beq_iff_eq, Option.some.injEq,
      Bool.false_eq_true, if_false, Nat.add_zero] at c
    exact c
  have hs : ∀ a', (s.objs.set x none).countP (Obj.is_shared_on a') =
      s.objs.countP (Obj.is_shared_on a') := by
    intro a'
    have c := countP_set_add (Obj.is_shared_on a') s.objs x _ none hx
    simp only [is_shared_on_weak, is_shared_on_none, Bool.false_eq_true, if_false,
      Nat.add_zero] at c
    exact c
  refine ⟨?_, ?_, ?_, ?_, ?_, ?_, ?_⟩
  · intro a'
    have e1 := h1 a'
    simp only [State.live_shared] at e1 ⊢
    simp only [strong_at_set _ _ ha, hs]
    by_cases haa : a = a'
    · subst haa; simp only [eq_self, if_true]; omega
    · simp only [haa, if_false]; omega
  · intro a'
    have e2 := h2 a'
    have c := hw a'
    simp only [State.live_weak] at e2 ⊢
    simp only [weak_at_set _ _ ha, hdec]
    by_cases haa : a = a'
    · subst haa; simp only [eq_self, if_true] at c ⊢; omega
    · simp only [haa, if_false] at c ⊢; omega
  · intro a' ha'
    have e3 := h3 a' (by simpa using ha')
    have c := hw a'
    simp only [State.block_deletes, State.live_shared, State.live_weak] at e3 ⊢
    simp only [List.count_append, e3, hs, hdec]
    by_cases haa : a = a'
    · subst haa
      simp only [eq_self, if_true] at c
      by_cases hC : b.weak_count - 1 = 0 ∧ b.ref_count = 0
      · simp only [hC, and_self, if_true, List.count_singleton, beq_self_eq_true]
        rw [if_neg (by omega), if_pos (by omega)]
      · simp only [hC, if_false, List.count_nil, Nat.add_zero]
        rw [if_neg (by omega), if_neg (by omega)]
    · simp only [haa, if_false, Nat.add_zero] at c
      have hcnt : List.count a' (if b.weak_count - 1 = 0 ∧ b.ref_count = 0 then [a] else []) =
          0 := by
        split_ifs
        · simp [List.count_singleton, haa]
        · rfl
      simp only [hcnt, Nat.add_zero, c]
  · intro d hd
    simp only [List.length_set]
    rcases List.mem_append.1 hd with h | h
    · exact h4 d h
    · split_ifs at h
      · simp only [List.mem_singleton] at h; omega
      · cases h
  · intro y o' hy
    rcases getElem?_set_cases hy with h' | h'
    · exact h5 y o' h'
    · cases h'
  · simp only [State.live_shared, hs]; exact h6
  · simpa using h7

/-! ## Runs without direct promotion: counts -/

/-- A transition keeps `Safe` when it does not lower any block's excess of
strong count over attached strong handles, raises no strong count by more than
one, and deletes only allocated blocks whose strong count is 0. -/
theorem safe_of_effect {s : State} {k : Nat} {bl' : List ControlBlock} {del' pay' : List Nat}
    {objs' : List (Option Obj)} (hS : Safe s k)
    (g1 : ∀ a, objs'.countP (Obj.is_shared_on a) + strong_at s.heap.blocks a ≤
      strong_at bl' a + s.objs.countP (Obj.is_shared_on a))
    (g2 : ∀ a, strong_at bl' a ≤ strong_at s.heap.blocks a + 1)
    (g3 : ∀ a ∈ del', strong_at bl' a = 0 ∧ a < bl'.length) :
    Safe ⟨⟨bl', del', pay'⟩, objs'⟩ (k + 1) := by
  obtain ⟨h1, h2, h3⟩ := hS
  refine ⟨?_, ?_, g3⟩
  · intro a
    have := h1 a
    have := g1 a
    simp only [State.live_shared] at *
    omega
  · intro a
    have := h2 a
    have := g2 a
    simp only at *
    omega

/-- Counting strong handles after adding a strong handle. -/
theorem live_shared_push_shared (objs : List (Option Obj)) (q : Option Nat) (a a' : Nat) :
    (objs ++ [some (Obj.shared ⟨q, some a⟩)]).countP (Obj.is_shared_on a') =
      objs.countP (Obj.is_shared_on a') + (if a = a' then 1 else 0) := by
  simp only [countP_push, is_shared_on_shared, beq_iff_eq, Option.some.injEq]

/-- Counting strong handles after adding a weak handle. -/
theorem live_shared_push_weak (objs : List (Option Obj)) (w : weak_ptr) (a' : Nat) :
    (objs ++ [some (Obj.weak w)]).countP (Obj.is_shared_on a') =
      objs.countP (Obj.is_shared_on a') := by
  simp only [countP_push, is_shared_on_weak, Bool.false_eq_true, if_false, Nat.add_zero]

/-- Counting strong handles after replacing an object by a strong handle on
block `a`. -/
theorem live_shared_set_shared {objs : List (Option Obj)} {x : Nat} {old : Option Obj}
    (hx : objs[x]? = some old) (q : Option Nat) (a a' : Nat) :
    (objs.set x (some (Obj.shared ⟨q, some a⟩))).countP (Obj.is_shared_on a') +
        (if Obj.is_shared_on a' old then 1 else 0) =
      objs.countP (Obj.is_shared_on a') + (if a = a' then 1 else 0) := by
  have c := countP_set_add (Obj.is_shared_on a') objs x old
    (some (Obj.shared ⟨q, some a⟩)) hx
  simp only [is_shared_on_shared, beq_iff_eq, Option.some.injEq] at c
  exact c

/-- Counting strong handles after replacing an object by one that is no strong
handle on any block. -/
theorem live_shared_set_detached {objs : List (Option Obj)} {x : Nat} {old new : Option Obj}
    (hx : objs[x]? = some old) (hnew : ∀ a, Obj.is_shared_on a new = false) (a' : Nat) :
    (objs.set x new).countP (Obj.is_shared_on a') +
        (if Obj.is_shared_on a' old then 1 else 0) =
      objs.countP (Obj.is_shared_on a') := by
  have c := countP_set_add (Obj.is_shared_on a') objs x old new hx
  simp only [hnew a', Bool.false_eq_true, if_false, Nat.add_zero] at c
  exact c

/-- A weak handle is no strong handle on any block. -/
theorem weak_detached (w : weak_ptr) : ∀ a, Obj.is_shared_on a (some (Obj.weak w)) = false :=
  fun _ => rfl

/-- A destroyed object is no strong handle on any block. -/
theorem none_detached : ∀ a, Obj.is_shared_on a none = false := fun _ => rfl

/-- A strong handle with a null record is no strong handle on any block. -/
theorem null_detached (q : Option Nat) :
    ∀ a, Obj.is_shared_on a (some (Obj.shared ⟨q, none⟩)) = false := by
  intro a; simp

/-- Deleted blocks stay allocated with strong count 0 when a block is added. -/
theorem deleted_ok_append {bl : List ControlBlock} {del : List Nat} (c : ControlBlock)
    (h : ∀ d ∈ del, strong_at bl d = 0 ∧ d < bl.length) :
    ∀ d ∈ del, strong_at (bl ++ [c]) d = 0 ∧ d < (bl ++ [c]).length := by
  intro d hd
  obtain ⟨h0, hlt⟩ := h d hd
  have hne : ¬ bl.length = d := by omega
  simp only [strong_at_append, hne, if_false, List.length_append, List.length_singleton]
  exact ⟨h0, by omega⟩

/-- Deleted blocks stay allocated with strong count 0 when a block that is
not deleted is overwritten, and the overwritten block may join them if its new
strong count is 0. -/
theorem deleted_ok_set {bl : List ControlBlock} {del : List Nat} {a : Nat} (c : ControlBlock)
    (extra : List Nat)
    (h : ∀ d ∈ del, strong_at bl d = 0 ∧ d < bl.length)
    (ha : a < bl.length) (hnd : a ∉ del)
    (hex : ∀ d ∈ extra, d = a ∧ c.ref_count = 0) :
    ∀ d ∈ del ++ extra, strong_at (bl.set a c) d = 0 ∧ d < (bl.set a c).length := by
  intro d hd
  simp only [List.length_set]
  rcases List.mem_append.1 hd with hd | hd
  · obtain ⟨h0, hlt⟩ := h d hd
    have hne : ¬ a = d := fun e => hnd (e ▸ hd)
    simp only [strong_at_set _ _ ha, hne, if_false]
    exact ⟨h0, hlt⟩
  · obtain ⟨rfl, hc⟩ := hex d hd
    simp only [strong_at_set _ _ ha, eq_self, if_true]
    exact ⟨hc, ha⟩

/-- The conditional list appended to the delete log names only the given
block, and only under the given condition. -/
theorem mem_cond_singleton {C : Prop} [Decidable C] {a d : Nat}
    (h : d ∈ (if C then [a] else [])) : d = a ∧ C := by
  split_ifs at h with hC
  · exact ⟨List.mem_singleton.1 h, hC⟩
  · cases h

/-- A transition that leaves the free store alone keeps `Safe` when it attaches
no further strong handle to any block. -/
theorem safe_of_objs {s : State} {k : Nat} {objs' : List (Option Obj)} (hS : Safe s k)
    (g1 : ∀ a, objs'.countP (Obj.is_shared_on a) ≤ s.objs.countP (Obj.is_shared_on a)) :
    Safe ⟨s.heap, objs'⟩ (k + 1) := by
  obtain ⟨h1, h2, h3⟩ := hS
  refine ⟨?_, fun a => Nat.le_succ_of_le (h2 a), h3⟩
  intro a
  have := h1 a
  have := g1 a
  simp only [State.live_shared] at *
  omega

/-- A statement other than direct promotion keeps `Safe`. -/
theorem step_safe {s s' : State} {k : Nat} {op : Op}
    (hS : Safe s k) (hk : k + 1 < SIZE_T_RANGE)
    (hop : op.no_direct_promotion = true) (hstep : step s op = .ok s') :
    Safe s' (k + 1) := by
  have hkeep : Safe s (k + 1) := ⟨hS.1, fun a => Nat.le_succ_of_le (hS.2.1 a), hS.2.2⟩
  obtain ⟨h1, h2, h3⟩ := hS
  simp only [State.live_shared] at h1
  have hS : Safe s k := ⟨h1, h2, h3⟩
  have hnew : strong_at s.heap.blocks s.heap.blocks.length = 0 :=
    strong_at_of_le (Nat.le_refl _)
  cases op with
  | shared_from_weak _ => cases hop
  | shared_new p =>
    rw [step_shared_new_eq] at hstep; cases hstep
    refine safe_of_effect hS ?_ ?_ (deleted_ok_append _ h3)
    · intro a'
      have := h1 a'
      simp only [live_shared_push_shared, strong_at_append]
      by_cases haa : s.heap.blocks.length = a'
      · subst haa; simp only [eq_self, if_true]; omega
      · simp only [haa, if_false]; omega
    · intro a'
      simp only [strong_at_append]
      by_cases haa : s.heap.blocks.length = a'
      · subst haa; simp only [eq_self, if_true]; omega
      · simp only [haa, if_false]; omega
  | shared_copy o =>
    obtain ⟨q, a, b, hx, hnd, hb, rfl⟩ := step_shared_copy_inv hstep
    have ha : a < s.heap.blocks.length := (List.getElem?_eq_some.1 hb).1
    have hrc := strong_at_of_block hb
    have hinc : size_t_inc b.ref_count = b.ref_count + 1 :=
      size_t_inc_of_lt (by have := h2 a; omega)
    refine safe_of_effect hS ?_ ?_ ?_
    · intro a'
      simp only [live_shared_push_shared, strong_at_set _ _ ha, hinc]
      by_cases haa : a = a'
      · subst haa; simp only [eq_self, if_true]; omega
      · simp only [haa, if_false]; omega
    · intro a'
      simp only [strong_at_set _ _ ha, hinc]
      by_cases haa : a = a'
      · subst haa; simp only [eq_self, if_true]; omega
      · simp only [haa, if_false]; omega
    · have := deleted_ok_set ⟨size_t_inc b.ref_count, b.weak_count⟩ [] h3 ha hnd
        (fun d hd => by cases hd)
      simpa using this
  | weak_lock t =>
    obtain ⟨q, a, b, hx, hnd, hb, ⟨hpos, rfl⟩ | ⟨h0, rfl⟩⟩ := step_weak_lock_inv hstep
    · have ha : a < s.heap.blocks.length := (List.getElem?_eq_some.1 hb).1
      have hrc := strong_at_of_block hb
      have hinc : size_t_inc b.ref_count = b.ref_count + 1 :=
        size_t_inc_of_lt (by have := h2 a; omega)
      refine safe_of_effect hS ?_ ?_ ?_
      · intro a'
        simp only [live_shared_push_shared, strong_at_set _ _ ha, hinc]
        by_cases haa : a = a'
        · subst haa; simp only [eq_self, if_true]; omega
        · simp only [haa, if_false]; omega
      · intro a'
        simp only [strong_at_set _ _ ha, hinc]
        by_cases haa : a = a'
        · subst haa; simp only [eq_self, if_true]; omega
        · simp only [haa, if_false]; omega
      · have := deleted_ok_set ⟨size_t_inc b.ref_count, b.weak_count⟩ [] h3 ha hnd
          (fun d hd => by cases hd)
        simpa using this
    · refine safe_of_effect hS ?_ ?_ (deleted_ok_append _ h3)
      · intro a'
        have := h1 a'
        simp only [live_shared_push_shared, strong_at_append]
        by_cases haa : s.heap.blocks.length = a'
        · subst haa; simp only [eq_self, if_true]; omega
        · simp only [haa, if_false]; omega
      · intro a'
        simp only [strong_at_append]
        by_cases haa : s.heap.blocks.length = a'
        · subst haa; simp only [eq_self, if_true]; omega
        · simp only [haa, if_false]; omega
  | weak_new p =>
    rw [step_weak_new_eq] at hstep; cases hstep
    refine safe_of_effect hS ?_ ?_ (deleted_ok_append _ h3)
    · intro a'
      simp only [live_shared_push_weak, strong_at_append]
      by_cases haa : s.heap.blocks.length = a'
      · subst haa; simp only [eq_self, if_true]; omega
      · simp only [haa, if_false]; omega
    · intro a'
      simp only [strong_at_append]
      by_cases haa : s.heap.blocks.length = a'
      · subst haa; simp only [eq_self, if_true]; omega
      · simp only [haa, if_false]; omega
  | weak_copy o =>
    obtain ⟨q, a, b, hx, hnd, hb, rfl⟩ := step_weak_copy_inv hstep
    have ha : a < s.heap.blocks.length := (List.getElem?_eq_some.1 hb).1
    have hrc := strong_at_of_block hb
    refine safe_of_effect hS ?_ ?_ ?_
    · intro a'
      simp only [live_shared_push_weak, strong_at_set _ _ ha]
      by_cases haa : a = a'
      · subst haa; simp only [eq_self, if_true]; omega
      · simp only [haa, if_false]; omega
    · intro a'
      simp only [strong_at_set _ _ ha]
      by_cases haa : a = a'
      · subst haa; simp only [eq_self, if_true]; omega
      · simp only [haa, if_false]; omega
    · have := deleted_ok_set ⟨b.ref_count, size_t_inc b.weak_count⟩ [] h3 ha hnd
        (fun d hd => by cases hd)
      simpa using this
  | weak_from_shared o =>
    obtain ⟨q, a, b, hx, hnd, hb, rfl⟩ := step_weak_from_shared_inv hstep
    have ha : a < s.heap.blocks.length := (List.getElem?_eq_some.1 hb).1
    have hrc := strong_at_of_block hb
    refine safe_of_effect hS ?_ ?_ ?_
    · intro a'
      simp only [live_shared_push_weak, strong_at_set _ _ ha]
      by_cases haa : a = a'
      · subst haa; simp only [eq_self, if_true]; omega
      · simp only [haa, if_false]; omega
    · intro a'
      simp only [strong_at_set _ _ ha]
      by_cases haa : a = a'
      · subst haa; simp only [eq_self, if_true]; omega
      · simp only [haa, if_false]; omega
    · have := deleted_ok_set ⟨b.ref_count, size_t_inc b.weak_count⟩ [] h3 ha hnd
        (fun d hd => by cases hd)
      simpa using this
  | shared_move o =>
    obtain ⟨t, hx, rfl⟩ := step_shared_move_inv hstep
    refine safe_of_objs hS ?_
    intro a'
    have c := countP_set_add (Obj.is_shared_on a') s.objs o _
      (some (Obj.shared ⟨none, none⟩)) hx
    simp only [is_shared_on_shared, beq_iff_eq, reduceCtorEq, if_false] at c
    simp only [countP_push, is_shared_on_shared, beq_iff_eq]
    omega
  | weak_move o =>
    obtain ⟨t, hx, rfl⟩ := step_weak_move_inv hstep
    refine safe_of_objs hS ?_
    intro a'
    have c := countP_set_add (Obj.is_shared_on a') s.objs o _
      (some (Obj.weak ⟨none, none⟩)) hx
    simp only [is_shared_on_weak, Bool.false_eq_true, if_false] at c
    simp only [countP_push, is_shared_on_weak, Bool.false_eq_true, if_false]
    omega
  | shared_assign_copy t o =>
    rcases step_shared_assign_copy_inv hstep with ⟨_, rfl⟩ | ⟨hne, d, q, a, b, ht, hx, hnd, hb, rfl⟩
    · exact hkeep
    · have ha : a < s.heap.blocks.length := (List.getElem?_eq_some.1 hb).1
      have hrc := strong_at_of_block hb
      have hinc : size_t_inc b.ref_count = b.ref_count + 1 :=
        size_t_inc_of_lt (by have := h2 a; omega)
      refine safe_of_effect hS ?_ ?_ ?_
      · intro a'
        have c := live_shared_set_shared ht q a a'
        simp only [strong_at_set _ _ ha, hinc]
        by_cases haa : a = a'
        · subst haa; simp only [eq_self, if_true] at c ⊢; omega
        · simp only [haa, if_false] at c ⊢; omega
      · intro a'
        simp only [strong_at_set _ _ ha, hinc]
        by_cases haa : a = a'
        · subst haa; simp only [eq_self, if_true]; omega
        · simp only [haa, if_false]; omega
      · have := deleted_ok_set ⟨size_t_inc b.ref_count, b.weak_count⟩ [] h3 ha hnd
          (fun d hd => by cases hd)
        simpa using this
  | weak_assign_copy t o =>
    rcases step_weak_assign_copy_inv hstep with ⟨_, rfl⟩ | ⟨hne, d, q, a, b, ht, hx, hnd, hb, rfl⟩
    · exact hkeep
    · have ha : a < s.heap.blocks.length := (List.getElem?_eq_some.1 hb).1
      have hrc := strong_at_of_block hb
      refine safe_of_effect hS ?_ ?_ ?_
      · intro a'
        have c := live_shared_set_detached ht (weak_detached ⟨q, some a⟩) a'
        simp only [strong_at_set _ _ ha]
        by_cases haa : a = a'
        · subst haa; simp only [eq_self, if_true] at c ⊢; omega
        · simp only [haa, if_false] at c ⊢; omega
      · intro a'
        simp only [strong_at_set _ _ ha]
        by_cases haa : a = a'
        · subst haa; simp only [eq_self, if_true]; omega
        · simp only [haa, if_false]; omega
      · have := deleted_ok_set ⟨b.ref_count, size_t_inc b.weak_count⟩ [] h3 ha hnd
          (fun d hd => by cases hd)
        simpa using this
  | shared_assign_move t o =>
    rcases step_shared_assign_move_inv hstep with ⟨_, rfl⟩ | ⟨hne, d, u, ht, hx, rfl⟩
    · exact hkeep
    · refine safe_of_objs hS ?_
      intro a'
      have c1 := countP_set_add (Obj.is_shared_on a') s.objs t _ (some (Obj.shared u)) ht
      have hx2 : (s.objs.set t (some (Obj.shared u)))[o]? = some (some (Obj.shared u)) := by
        rw [List.getElem?_set_ne (Ne.symm hne)]; exact hx
      have c2 := countP_set_add (Obj.is_shared_on a') _ o _
        (some (Obj.shared ⟨none, none⟩)) hx2
      simp only [is_shared_on_shared, beq_iff_eq, reduceCtorEq, if_false] at c1 c2
      omega
  | weak_assign_move t o =>
    rcases step_weak_assign_move_inv hstep with ⟨_, rfl⟩ | ⟨hne, d, u, ht, hx, rfl⟩
    · exact hkeep
    · refine safe_of_objs hS ?_
      intro a'
      have c1 := countP_set_add (Obj.is_shared_on a') s.objs t _ (some (Obj.weak u)) ht
      have hx2 : (s.objs.set t (some (Obj.weak u)))[o]? = some (some (Obj.weak u)) := by
        rw [List.getElem?_set_ne (Ne.symm hne)]; exact hx
      have c2 := countP_set_add (Obj.is_shared_on a') _ o _
        (some (Obj.weak ⟨none, none⟩)) hx2
      simp only [is_shared_on_weak, Bool.false_eq_true, if_false] at c1 c2
      omega
  | shared_swap t o =>
    obtain ⟨d, u, ht, hx, rfl⟩ := step_shared_swap_inv hstep
    refine safe_of_objs hS ?_
    intro a'
    have c1 := countP_set_add (Obj.is_shared_on a') s.objs t _ (some (Obj.shared u)) ht
    have hx2 : (s.objs.set t (some (Obj.shared u)))[o]? = some (some (Obj.shared u)) := by
      by_cases hto : t = o
      · subst hto
        rw [List.getElem?_set_self (List.getElem?_eq_some.1 ht).1]
      · rw [List.getElem?_set_ne hto]; exact hx
    have c2 := countP_set_add (Obj.is_shared_on a') _ o _ (some (Obj.shared d)) hx2
    simp only [is_shared_on_shared, beq_iff_eq] at c1 c2
    omega
  | weak_swap t o =>
    obtain ⟨d, u, ht, hx, rfl⟩ := step_weak_swap_inv hstep
    refine safe_of_objs hS ?_
    intro a'
    have c1 := countP_set_add (Obj.is_shared_on a') s.objs t _ (some (Obj.weak u)) ht
    have hx2 : (s.objs.set t (some (Obj.weak u)))[o]? = some (some (Obj.weak u)) := by
      by_cases hto : t = o
      · subst hto
        rw [List.getElem?_set_self (List.getElem?_eq_some.1 ht).1]
      · rw [List.getElem?_set_ne hto]; exact hx
    have c2 := countP_set_add (Obj.is_shared_on a') _ o _ (some (Obj.weak d)) hx2
    simp only [is_shared_on_weak, Bool.false_eq_true, if_false] at c1 c2
    omega
  | shared_destroy t =>
    rcases step_shared_destroy_inv hstep with ⟨q, hx, rfl⟩ | ⟨q, a, b, hx, hnd, hb, rfl⟩
    · refine safe_of_objs hS ?_
      intro a'
      have c := live_shared_set_detached hx none_detached a'
      omega
    · have ha : a < s.heap.blocks.length := (List.getElem?_eq_some.1 hb).1
      have hrc := strong_at_of_block hb
      have hpos : 0 < b.ref_count := by
        have := h1 a; have := live_shared_pos hx; omega
      have hdec : size_t_dec b.ref_count = b.ref_count - 1 := size_t_dec_of_pos hpos (by
        have := h2 a; omega)
      refine safe_of_effect hS ?_ ?_ ?_
      · intro a'
        have c := live_shared_set_detached hx none_detached a'
        simp only [is_shared_on_shared, beq_iff_eq, Option.some.injEq] at c
        simp only [strong_at_set _ _ ha, hdec]
        by_cases haa : a = a'
        · subst haa; simp only [eq_self, if_true] at c ⊢; omega
        · simp only [haa, if_false] at c ⊢; omega
      · intro a'
        simp only [strong_at_set _ _ ha, hdec]
        by_cases haa : a = a'
        · subst haa; simp only [eq_self, if_true]; omega
        · simp only [haa, if_false]; omega
      · exact deleted_ok_set _ _ h3 ha hnd (fun d hd =>
          ⟨(mem_cond_singleton hd).1, (mem_cond_singleton hd).2.1⟩)
  | weak_destroy t =>
    rcases step_weak_destroy_inv hstep with ⟨q, hx, rfl⟩ | ⟨q, a, b, hx, hnd, hb, rfl⟩
    · refine safe_of_objs hS ?_
      intro a'
      have c := live_shared_set_detached hx none_detached a'
      omega
    · have ha : a < s.heap.blocks.length := (List.getElem?_eq_some.1 hb).1
      have hrc := strong_at_of_block hb
      refine safe_of_effect hS ?_ ?_ ?_
      · intro a'
        have c := live_shared_set_detached hx none_detached a'
        simp only [strong_at_set _ _ ha]
        by_cases haa : a = a'
        · subst haa; simp only [eq_self, if_true] at c ⊢; omega
        · simp only [haa, if_false] at c ⊢; omega
      · intro a'
        simp only [strong_at_set _ _ ha]
        by_cases haa : a = a'
        · subst haa; simp only [eq_self, if_true]; omega
        · simp only [haa, if_false]; omega
      · exact deleted_ok_set _ _ h3 ha hnd (fun d hd =>
          ⟨(mem_cond_singleton hd).1, (mem_cond_singleton hd).2.2⟩)
  | shared_reset t p =>
    rcases step_shared_reset_inv hstep with ⟨q, hx, rfl⟩ | ⟨q, a, b, hx, hnd, hb, rfl⟩
    · refine safe_of_effect hS ?_ ?_ (deleted_ok_append _ h3)
      · intro a'
        have c := live_shared_set_shared hx p s.heap.blocks.length a'
        simp only [is_shared_on_shared, beq_iff_eq, reduceCtorEq, if_false] at c
        simp only [strong_at_append]
        by_cases haa : s.heap.blocks.length = a'
        · subst haa; simp only [eq_self, if_true] at c ⊢; omega
        · simp only [haa, if_false] at c ⊢; omega
      · intro a'
        simp only [strong_at_append]
        by_cases haa : s.heap.blocks.length = a'
        · subst haa; simp only [eq_self, if_true]; omega
        · simp only [haa, if_false]; omega
    · have ha : a < s.heap.blocks.length := (List.getElem?_eq_some.1 hb).1
      have hrc := strong_at_of_block hb
      have hpos : 0 < b.ref_count := by
        have := h1 a; have := live_shared_pos hx; omega
      have hdec : size_t_dec b.ref_count = b.ref_count - 1 := size_t_dec_of_pos hpos (by
        have := h2 a; omega)
      refine safe_of_effect hS ?_ ?_ ?_
      · intro a'
        have c := live_shared_set_shared hx p s.heap.blocks.length a'
        simp only [is_shared_on_shared, beq_iff_eq, Option.some.injEq] at c
        simp only [strong_at_append, List.length_set, strong_at_set _ _ ha, hdec]
        by_cases hn : s.heap.blocks.length = a'
        · subst hn
          have hna : ¬ a = s.heap.blocks.length := by omega
          simp only [eq_self, if_true, hna, if_false] at c ⊢; omega
        · by_cases haa : a = a'
          · subst haa; simp only [eq_self, if_true, hn, if_false] at c ⊢; omega
          · simp only [haa, hn, if_false] at c ⊢; omega
      · intro a'
        simp only [strong_at_append, List.length_set, strong_at_set _ _ ha, hdec]
        by_cases hn : s.heap.blocks.length = a'
        · subst hn; simp only [eq_self, if_true]; omega
        · by_cases haa : a = a'
          · subst haa; simp only [eq_self, if_true, hn, if_false]; omega
          · simp only [haa, hn, if_false]; omega
      · exact deleted_ok_append _ (deleted_ok_set _ _ h3 ha hnd (fun d hd =>
          ⟨(mem_cond_singleton hd).1, (mem_cond_singleton hd).2.1⟩))
  | weak_reset t =>
    obtain ⟨q, a, b, hx, hnd, hb, rfl⟩ := step_weak_reset_inv hstep
    have ha : a < s.heap.blocks.length := (List.getElem?_eq_some.1 hb).1
    have hrc := strong_at_of_block hb
    refine safe_of_effect hS ?_ ?_ ?_
    · intro a'
      have c := live_shared_set_detached hx
        (weak_detached ⟨none, some s.heap.blocks.length⟩) a'
      simp only [strong_at_append, List.length_set, strong_at_set _ _ ha]
      by_cases hn : s.heap.blocks.length = a'
      · subst hn; simp only [eq_self, if_true]; omega
      · by_cases haa : a = a'
        · subst haa; simp only [eq_self, if_true, hn, if_false]; omega
        · simp only [haa, hn, if_false]; omega
    · intro a'
      simp only [strong_at_append, List.length_set, strong_at_set _ _ ha]
      by_cases hn : s.heap.blocks.length = a'
      · subst hn; simp only [eq_self, if_true]; omega
      · by_cases haa : a = a'
        · subst haa; simp only [eq_self, if_true, hn, if_false]; omega
        · simp only [haa, hn, if_false]; omega
    · have := deleted_ok_append ⟨0, 0⟩ (deleted_ok_set ⟨b.ref_count, size_t_dec b.weak_count⟩
        [] h3 ha hnd (fun d hd => by cases hd))
      simpa using this

/-! ## Runs without direct promotion: where members come from -/

/-- An entry of the previous table is derived from it. -/
theorem derived_old {objs : List (Option Obj)} {rp : Option Nat} {n y : Nat} {v : Option Obj}
    (h : objs[y]? = some v) : Derived objs rp n v := by
  intro o' hv
  subst hv
  exact Or.inr (Or.inl ⟨y, o', h, rfl, rfl⟩)

/-- A destroyed object is derived from any table. -/
theorem derived_none (objs : List (Option Obj)) (rp : Option Nat) (n : Nat) :
    Derived objs rp n none := by
  intro o' hv
  cases hv

/-- An object with a null payload is derived from any table. -/
theorem derived_null (objs : List (Option Obj)) (rp : Option Nat) (n : Nat) {o' : Obj}
    (h : o'.pointer = none) : Derived objs rp n (some o') := by
  intro o'' hv
  cases hv
  exact Or.inl h

/-- An object with the members of an old object is derived from the table. -/
theorem derived_copy {objs : List (Option Obj)} {rp : Option Nat} {n y : Nat} {o o' : Obj}
    (h : objs[y]? = some (some o)) (hp : o.pointer = o'.pointer) (hr : o.record = o'.record) :
    Derived objs rp n (some o') := by
  intro o'' hv
  cases hv
  exact Or.inr (Or.inl ⟨y, o, h, hp, hr⟩)

/-- An object made from the raw payload and the new block is derived. -/
theorem derived_fresh (objs : List (Option Obj)) {rp : Option Nat} {n : Nat} {o' : Obj}
    (hp : o'.pointer = rp) (hr : o'.record = some n) : Derived objs rp n (some o') := by
  intro o'' hv
  cases hv
  exact Or.inr (Or.inr ⟨hp, hr⟩)

/-- The unchanged table is derived from itself. -/
theorem prov_refl (objs : List (Option Obj)) (rp : Option Nat) (n : Nat) :
    Prov objs rp n objs :=
  fun _ _ h => derived_old h

/-- Adding a derived object keeps the table derived. -/
theorem prov_push {objs l : List (Option Obj)} {rp : Option Nat} {n : Nat} {v : Option Obj}
    (hl : Prov objs rp n l) (hv : Derived objs rp n v) : Prov objs rp n (l ++ [v]) := by
  intro x w hw
  rcases getElem?_push_cases hw with h | h
  · exact hl x w h
  · exact h ▸ hv

/-- Overwriting an entry with a derived object keeps the table derived. -/
theorem prov_set {objs l : List (Option Obj)} {rp : Option Nat} {n : Nat} {v : Option Obj}
    (x : Nat) (hl : Prov objs rp n l) (hv : Derived objs rp n v) :
    Prov objs rp n (l.set x v) := by
  intro y w hw
  rcases getElem?_set_cases hw with h | h
  · exact hl y w h
  · exact h ▸ hv

/-- Strong counts that are 0 stay 0 when a block is added. -/
theorem zero_kept_append (bl : List ControlBlock) (c : ControlBlock) :
    ∀ a, a < bl.length → strong_at bl a = 0 → strong_at (bl ++ [c]) a = 0 := by
  intro a ha h0
  have hne : ¬ bl.length = a := by omega
  simp only [strong_at_append, hne, if_false]
  exact h0

/-- Strong counts that are 0 stay 0 when a block is overwritten with a strong
count that is 0 if the old one was. -/
theorem zero_kept_set {bl : List ControlBlock} {a : Nat} (c : ControlBlock)
    (ha : a < bl.length) (hc : strong_at bl a = 0 → c.ref_count = 0) :
    ∀ a', a' < bl.length → strong_at bl a' = 0 → strong_at (bl.set a c) a' = 0 := by
  intro a' _ h0
  simp only [strong_at_set _ _ ha]
  by_cases haa : a = a'
  · subst haa; simp only [eq_self, if_true]; exact hc h0
  · simp only [haa, if_false]; exact h0

/-- Strong counts that are 0 stay 0 when a block is overwritten and another is
added. -/
theorem zero_kept_set_append {bl : List ControlBlock} {a : Nat} (c c' : ControlBlock)
    (ha : a < bl.length) (hc : strong_at bl a = 0 → c.ref_count = 0) :
    ∀ a', a' < bl.length → strong_at bl a' = 0 →
      strong_at (bl.set a c ++ [c']) a' = 0 := by
  intro a' ha' h0
  exact zero_kept_append _ c' a' (by simpa using ha') (zero_kept_set c ha hc a' ha' h0)

/-- A transition that leaves the free store alone and derives its table has
the `Effect` property. -/
theorem effect_of_objs {s : State} {objs' : List (Option Obj)} {rp : Option Nat}
    (hP : Prov s.objs rp s.heap.blocks.length objs') : Effect s ⟨s.heap, objs'⟩ rp :=
  ⟨hP, Nat.le_refl _, fun _ _ h => h, Or.inl rfl⟩

/-- A transition that leaves the payload log alone has the `Effect` property
when its table is derived, the block list does not shrink and strong counts that
are 0 stay 0. -/
theorem effect_of_heap {s : State} {bl' : List ControlBlock} {del' : List Nat}
    {objs' : List (Option Obj)} {rp : Option Nat}
    (hP : Prov s.objs rp s.heap.blocks.length objs')
    (hlen : s.heap.blocks.length ≤ bl'.length)
    (hZ : ∀ a, a < s.heap.blocks.length → strong_at s.heap.blocks a = 0 →
      strong_at bl' a = 0) :
    Effect s ⟨⟨bl', del', s.heap.deleted_payloads⟩, objs'⟩ rp :=
  ⟨hP, hlen, hZ, Or.inl rfl⟩

/-- A transition that releases one strong handle has the `Effect` property
when the payload is logged only if the new strong count is 0. -/
theorem effect_of_release {s : State} {bl' : List ControlBlock} {del' : List Nat}
    {objs' : List (Option Obj)} {rp q : Option Nat} {t a r : Nat}
    (hP : Prov s.objs rp s.heap.blocks.length objs')
    (hlen : s.heap.blocks.length ≤ bl'.length)
    (hZ : ∀ a, a < s.heap.blocks.length → strong_at s.heap.blocks a = 0 →
      strong_at bl' a = 0)
    (hx : s.objs[t]? = some (some (Obj.shared ⟨q, some a⟩)))
    (ha : a < bl'.length) (hr : strong_at bl' a = r) :
    Effect s ⟨⟨bl', del', s.heap.deleted_payloads ++ (if r = 0 then q.toList else [])⟩,
      objs'⟩ rp := by
  refine ⟨hP, hlen, hZ, ?_⟩
  by_cases h0 : r = 0
  · cases q with
    | none => left; simp [h0]
    | some p =>
      right
      refine ⟨p, a, t, ?_, hx, ha, hr.trans h0⟩
      simp [h0]
  · left; simp [h0]

/-- A statement other than direct promotion, executed in a `Safe` state, has
the `Effect` property for its raw payload. -/
theorem step_effect {s s' : State} {k : Nat} {op : Op}
    (hS : Safe s k)
    (hop : op.no_direct_promotion = true) (hstep : step s op = .ok s') :
    Effect s s' op.raw_payload := by
  obtain ⟨h1, h2, h3⟩ := hS
  simp only [State.live_shared] at h1
  have hrefl : ∀ rp, Effect s s rp := fun rp =>
    ⟨prov_refl _ _ _, Nat.le_refl _, fun _ _ h => h, Or.inl rfl⟩
  cases op with
  | shared_from_weak _ => cases hop
  | shared_new p =>
    rw [step_shared_new_eq] at hstep; cases hstep
    exact effect_of_heap (prov_push (prov_refl _ _ _) (derived_fresh _ rfl rfl))
      (by simp) (zero_kept_append _ _)
  | weak_new p =>
    rw [step_weak_new_eq] at hstep; cases hstep
    exact effect_of_heap (prov_push (prov_refl _ _ _) (derived_fresh _ rfl rfl))
      (by simp) (zero_kept_append _ _)
  | shared_copy o =>
    obtain ⟨q, a, b, hx, hnd, hb, rfl⟩ := step_shared_copy_inv hstep
    have ha : a < s.heap.blocks.length := (List.getElem?_eq_some.1 hb).1
    have hpos : 0 < strong_at s.heap.blocks a := by
      have := h1 a; have := live_shared_pos hx; omega
    exact effect_of_heap (prov_push (prov_refl _ _ _) (derived_copy hx rfl rfl))
      (by simp) (zero_kept_set _ ha (fun h => by omega))
  | weak_copy o =>
    obtain ⟨q, a, b, hx, hnd, hb, rfl⟩ := step_weak_copy_inv hstep
    have ha : a < s.heap.blocks.length := (List.getElem?_eq_some.1 hb).1
    have hrc := strong_at_of_block hb
    exact effect_of_heap (prov_push (prov_refl _ _ _) (derived_copy hx rfl rfl))
      (by simp) (zero_kept_set _ ha (fun h => hrc.symm.trans h))
  | weak_from_shared o =>
    obtain ⟨q, a, b, hx, hnd, hb, rfl⟩ := step_weak_from_shared_inv hstep
    have ha : a < s.heap.blocks.length := (List.getElem?_eq_some.1 hb).1
    have hrc := strong_at_of_block hb
    exact effect_of_heap (prov_push (prov_refl _ _ _) (derived_copy hx rfl rfl))
      (by simp) (zero_kept_set _ ha (fun h => hrc.symm.trans h))
  | weak_lock t =>
    obtain ⟨q, a, b, hx, hnd, hb, ⟨hpos, rfl⟩ | ⟨h0, rfl⟩⟩ := step_weak_lock_inv hstep
    · have ha : a < s.heap.blocks.length := (List.getElem?_eq_some.1 hb).1
      have hrc := strong_at_of_block hb
      exact effect_of_heap (prov_push (prov_refl _ _ _) (derived_copy hx rfl rfl))
        (by simp) (zero_kept_set _ ha (fun h => by omega))
    · exact effect_of_heap (prov_push (prov_refl _ _ _) (derived_null _ _ _ rfl))
        (by simp) (zero_kept_append _ _)
  | shared_move o =>
    obtain ⟨t, hx, rfl⟩ := step_shared_move_inv hstep
    exact effect_of_objs (prov_push (prov_set _ (prov_refl _ _ _) (derived_null _ _ _ rfl))
      (derived_old hx))
  | weak_move o =>
    obtain ⟨t, hx, rfl⟩ := step_weak_move_inv hstep
    exact effect_of_objs (prov_push (prov_set _ (prov_refl _ _ _) (derived_null _ _ _ rfl))
      (derived_old hx))
  | shared_assign_copy t o =>
    rcases step_shared_assign_copy_inv hstep with ⟨_, rfl⟩ | ⟨hne, d, q, a, b, ht, hx, hnd, hb, rfl⟩
    · exact hrefl _
    · have ha : a < s.heap.blocks.length := (List.getElem?_eq_some.1 hb).1
      have hpos : 0 < strong_at s.heap.blocks a := by
        have := h1 a; have := live_shared_pos hx; omega
      exact effect_of_heap (prov_set _ (prov_refl _ _ _) (derived_copy hx rfl rfl))
        (by simp) (zero_kept_set _ ha (fun h => by omega))
  | weak_assign_copy t o =>
    rcases step_weak_assign_copy_inv hstep with ⟨_, rfl⟩ | ⟨hne, d, q, a, b, ht, hx, hnd, hb, rfl⟩
    · exact hrefl _
    · have ha : a < s.heap.blocks.length := (List.getElem?_eq_some.1 hb).1
      have hrc := strong_at_of_block hb
      exact effect_of_heap (prov_set _ (prov_refl _ _ _) (derived_copy hx rfl rfl))
        (by simp) (zero_kept_set _ ha (fun h => hrc.symm.trans h))
  | shared_assign_move t o =>
    rcases step_shared_assign_move_inv hstep with ⟨_, rfl⟩ | ⟨hne, d, u, ht, hx, rfl⟩
    · exact hrefl _
    · exact effect_of_objs (prov_set _ (prov_set _ (prov_refl _ _ _) (derived_old hx))
        (derived_null _ _ _ rfl))
  | weak_assign_move t o =>
    rcases step_weak_assign_move_inv hstep with ⟨_, rfl⟩ | ⟨hne, d, u, ht, hx, rfl⟩
    · exact hrefl _
    · exact effect_of_objs (prov_set _ (prov_set _ (prov_refl _ _ _) (derived_old hx))
        (derived_null _ _ _ rfl))
  | shared_swap t o =>
    obtain ⟨d, u, ht, hx, rfl⟩ := step_shared_swap_inv hstep
    exact effect_of_objs (prov_set _ (prov_set _ (prov_refl _ _ _) (derived_old hx))
      (derived_old ht))
  | weak_swap t o =>
    obtain ⟨d, u, ht, hx, rfl⟩ := step_weak_swap_inv hstep
    exact effect_of_objs (prov_set _ (prov_set _ (prov_refl _ _ _) (derived_old hx))
      (derived_old ht))
  | shared_destroy t =>
    rcases step_shared_destroy_inv hstep with ⟨q, hx, rfl⟩ | ⟨q, a, b, hx, hnd, hb, rfl⟩
    · exact effect_of_objs (prov_set _ (prov_refl _ _ _) (derived_none _ _ _))
    · have ha : a < s.heap.blocks.length := (List.getElem?_eq_some.1 hb).1
      have hpos : 0 < strong_at s.heap.blocks a := by
        have := h1 a; have := live_shared_pos hx; omega
      exact effect_of_release (prov_set _ (prov_refl _ _ _) (derived_none _ _ _))
        (by simp) (zero_kept_set _ ha (fun h => by omega)) hx (by simpa using ha)
        (by simp only [strong_at_set _ _ ha, eq_self, if_true])
  | weak_destroy t =>
    rcases step_weak_destroy_inv hstep with ⟨q, hx, rfl⟩ | ⟨q, a, b, hx, hnd, hb, rfl⟩
    · exact effect_of_objs (prov_set _ (prov_refl _ _ _) (derived_none _ _ _))
    · have ha : a < s.heap.blocks.length := (List.getElem?_eq_some.1 hb).1
      have hrc := strong_at_of_block hb
      exact effect_of_heap (prov_set _ (prov_refl _ _ _) (derived_none _ _ _))
        (by simp) (zero_kept_set _ ha (fun h => hrc.symm.trans h))
  | shared_reset t p =>
    rcases step_shared_reset_inv hstep with ⟨q, hx, rfl⟩ | ⟨q, a, b, hx, hnd, hb, rfl⟩
    · exact effect_of_heap (prov_set _ (prov_refl _ _ _) (derived_fresh _ rfl rfl))
        (by simp) (zero_kept_append _ _)
    · have ha : a < s.heap.blocks.length := (List.getElem?_eq_some.1 hb).1
      have hpos : 0 < strong_at s.heap.blocks a := by
        have := h1 a; have := live_shared_pos hx; omega
      have hna : ¬ s.heap.blocks.length = a := by omega
      exact effect_of_release (prov_set _ (prov_refl _ _ _) (derived_fresh _ rfl rfl))
        (by simp) (zero_kept_set_append _ _ ha (fun h => by omega)) hx
        (by simp only [List.length_append, List.length_set, List.length_singleton]; omega)
        (by simp only [strong_at_append, List.length_set, hna, if_false,
          strong_at_set _ _ ha, eq_self, if_true])
  | weak_reset t =>
    obtain ⟨q, a, b, hx, hnd, hb, rfl⟩ := step_weak_reset_inv hstep
    have ha : a < s.heap.blocks.length := (List.getElem?_eq_some.1 hb).1
    have hrc := strong_at_of_block hb
    exact effect_of_heap (prov_set _ (prov_refl _ _ _) (derived_null _ _ _ rfl))
      (by simp) (zero_kept_set_append _ _ ha (fun h => hrc.symm.trans h))

/-! ## Runs without direct promotion: ownership of payloads -/

/-- An object that carries a payload after a transition with the `Effect`
property got its members from an old object that carried it, or carries the
raw payload of the statement and is attached to the new block. -/
theorem carrier_cases {s s' : State} {rp : Option Nat} (hE : Effect s s' rp)
    {x : Nat} {o' : Obj} {p : Nat} (hx : s'.objs[x]? = some (some o'))
    (hp : o'.pointer = some p) :
    (∃ (y : Nat) (o : Obj), s.objs[y]? = some (some o) ∧ o.pointer = some p ∧
      o.record = o'.record) ∨
    (rp = some p ∧ o'.record = some s.heap.blocks.length) := by
  rcases hE.1 x _ hx o' rfl with h | ⟨y, o, hy, hyp, hyr⟩ | ⟨hrp, hr⟩
  · rw [hp] at h; cases h
  · exact Or.inl ⟨y, o, hy, hyp.trans hp, hyr⟩
  · exact Or.inr ⟨hrp.symm.trans hp, hr⟩

/-- The ownership discipline survives a transition with the `Effect` property
whose raw payload was not handed out before. -/
theorem owned_of_effect {s s' : State} {used : List Nat} {rp : Option Nat}
    (hO : Owned s used) (hE : Effect s s' rp) (hfresh : ∀ p, rp = some p → p ∉ used) :
    Owned s' (used ++ rp.toList) := by
  obtain ⟨o1, o2, o3⟩ := hO
  have hold : ∀ {x : Nat} {o' : Obj} {p : Nat}, s'.objs[x]? = some (some o') →
      o'.pointer = some p → p ∈ used →
      ∃ (y : Nat) (o : Obj), s.objs[y]? = some (some o) ∧ o.pointer = some p ∧
        o.record = o'.record := by
    intro x o' p hx hp hu
    rcases carrier_cases hE hx hp with h | ⟨hrp, _⟩
    · exact h
    · exact absurd hu (hfresh p hrp)
  refine ⟨?_, ?_, ?_⟩
  · intro x o' p hx hp
    rcases carrier_cases hE hx hp with ⟨y, o, hy, hyp, _⟩ | ⟨hrp, _⟩
    · exact List.mem_append.2 (Or.inl (o1 y o p hy hyp))
    · exact List.mem_append.2 (Or.inr (by rw [hrp]; simp))
  · intro x y oa ob p hx hy hpa hpb
    rcases carrier_cases hE hx hpa with ⟨x0, oa0, hx0, hpa0, hra⟩ | ⟨hrp, hra⟩
    · obtain ⟨y0, ob0, hy0, hpb0, hrb⟩ := hold hy hpb (o1 x0 oa0 p hx0 hpa0)
      rw [← hra, ← hrb]
      exact o2 x0 y0 oa0 ob0 p hx0 hy0 hpa0 hpb0
    · rcases carrier_cases hE hy hpb with ⟨y0, ob0, hy0, hpb0, _⟩ | ⟨_, hrb⟩
      · exact absurd (o1 y0 ob0 p hy0 hpb0) (hfresh p hrp)
      · rw [hra, hrb]
  · intro p hp
    have hpast : p ∈ s.heap.deleted_payloads → p ∈ used ++ rp.toList ∧
        ∀ (x : Nat) (o : Obj), s'.objs[x]? = some (some o) → o.pointer = some p →
          ∃ a, o.record = some a ∧ a < s'.heap.blocks.length ∧
            strong_at s'.heap.blocks a = 0 := by
      intro hin
      obtain ⟨hu, hall⟩ := o3 p hin
      refine ⟨List.mem_append.2 (Or.inl hu), ?_⟩
      intro x o' hx hpo
      obtain ⟨y, o, hy, hyp, hyr⟩ := hold hx hpo hu
      obtain ⟨a, hra, hlt, h0⟩ := hall y o hy hyp
      exact ⟨a, hyr ▸ hra, Nat.lt_of_lt_of_le hlt hE.2.1, hE.2.2.1 a hlt h0⟩
    rcases hE.2.2.2 with hsame | ⟨p0, a0, t, hlog, ht, hlt0, hz0⟩
    · rw [hsame] at hp
      exact hpast hp
    · rw [hlog] at hp
      rcases List.mem_append.1 hp with hin | hin
      · exact hpast hin
      · have hpp : p = p0 := List.mem_singleton.1 hin
        subst hpp
        have hu : p ∈ used := o1 t _ p ht rfl
        refine ⟨List.mem_append.2 (Or.inl hu), ?_⟩
        intro x o' hx hpo
        obtain ⟨y, o, hy, hyp, hyr⟩ := hold hx hpo hu
        have hrec := o2 y t o _ p hy ht hyp rfl
        exact ⟨a0, hyr ▸ hrec, hlt0, hz0⟩

/-- No object exists before the first statement, so the empty state is `Safe`. -/
theorem safe_initial : Safe State.init 0 := by
  refine ⟨fun a => Nat.zero_le _, fun a => Nat.le_of_eq rfl, ?_⟩
  intro a ha
  cases ha

/-- The empty state satisfies the ownership discipline with no payload handed
out. -/
theorem owned_initial : Owned State.init [] := by
  refine ⟨?_, ?_, ?_⟩
  · intro x o p hx
    simp [State.init] at hx
  · intro x y o1 o2 p hx
    simp [State.init] at hx
  · intro p hp
    cases hp

/-- A run without direct promotion in which every raw payload is handed out at
most once keeps `Safe` and the ownership discipline. -/
theorem run_safe_owned (ops : List Op) :
    ∀ (s s' : State) (k : Nat) (used : List Nat), Safe s k → Owned s used →
      (∀ op ∈ ops, op.no_direct_promotion = true) →
      (used ++ ops.filterMap Op.raw_payload).Nodup →
      k + ops.length < SIZE_T_RANGE → run s ops = .ok s' →
      Safe s' (k + ops.length) ∧ Owned s' (used ++ ops.filterMap Op.raw_payload) := by
  induction ops with
  | nil =>
    intro s s' k used hS hO _ _ _ hrun
    simp only [run] at hrun
    cases hrun
    simpa using ⟨hS, hO⟩
  | cons op ops ih =>
    intro s s' k used hS hO hops hnd hlen hrun
    simp only [List.length_cons] at hlen
    simp only [run] at hrun
    cases hst : step s op with
    | error e => rw [hst] at hrun; cases hrun
    | ok s1 =>
      rw [hst] at hrun
      have hop := hops op (List.mem_cons_self _ _)
      have hS1 : Safe s1 (k + 1) := step_safe hS (by omega) hop hst
      have hE := step_effect hS hop hst
      have hsplit : used ++ (op :: ops).filterMap Op.raw_payload =
          (used ++ op.raw_payload.toList) ++ ops.filterMap Op.raw_payload := by
        cases hrp : op.raw_payload with
        | none => simp [List.filterMap_cons, hrp]
        | some p => simp [List.filterMap_cons, hrp]
      have hfresh : ∀ p, op.raw_payload = some p → p ∉ used := by
        intro p hrp hin
        rw [hsplit, hrp] at hnd
        have h2 := (List.nodup_append.1 (List.nodup_append.1 hnd).1).2.2
        exact h2 hin (by simp)
      have hO1 := owned_of_effect hO hE hfresh
      rw [hsplit] at hnd ⊢
      have := ih s1 s' (k + 1) _ hS1 hO1
        (fun o ho => hops o (List.mem_cons_of_mem _ ho)) hnd (by omega) hrun
      have e : k + (op :: ops).length = k + 1 + ops.length := by
        simp only [List.length_cons]; omega
      rw [e]
      exact this

/-! ## The concrete scenario (C11) -/

/-- C11: the scenario of the specification, observed after each stage.  `A` is
object 0, `B` object 1, `W` object 2, `C` object 3, the handle returned by the
second `lock()` is object 4; the record is block 0 and the payload is 42. -/
theorem concrete_scenario_observations :
    (run State.init [.shared_new (some 42)]).map (fun s => s.block 0) = .ok (some ⟨1, 0⟩) ∧
    (run State.init [.shared_new (some 42), .shared_copy 0]).map (fun s => s.block 0) =
      .ok (some ⟨2, 0⟩) ∧
    (run State.init [.shared_new (some 42), .shared_copy 0, .weak_from_shared 0]).map
        (fun s => s.block 0) = .ok (some ⟨2, 1⟩) ∧
    (run State.init [.shared_new (some 42), .shared_copy 0, .weak_from_shared 0,
        .shared_destroy 0]).map
        (fun s => (s.block 0, s.payload_deletes 42, weak_ptr.expired s 2)) =
      .ok (some ⟨1, 1⟩, 0, .ok false) ∧
    (run State.init [.shared_new (some 42), .shared_copy 0, .weak_from_shared 0,
        .shared_destroy 0, .weak_lock 2]).map
        (fun s => (s.get_shared 3, s.block 0, s.payload_deletes 42)) =
      .ok (.ok ⟨some 42, some 0⟩, some ⟨2, 1⟩, 0) ∧
    (run State.init [.shared_new (some 42), .shared_copy 0, .weak_from_shared 0,
        .shared_destroy 0, .weak_lock 2, .shared_destroy 1]).map
        (fun s => (s.block 0, s.payload_deletes 42)) = .ok (some ⟨1, 1⟩, 0) ∧
    (run State.init [.shared_new (some 42), .shared_copy 0, .weak_from_shared 0,
        .shared_destroy 0, .weak_lock 2, .shared_destroy 1, .shared_destroy 3]).map
        (fun s => (s.block 0, s.payload_deletes 42, s.block_deletes 0, weak_ptr.expired s 2)) =
      .ok (some ⟨0, 1⟩, 1, 0, .ok true) ∧
    (run State.init [.shared_new (some 42), .shared_copy 0, .weak_from_shared 0,
        .shared_destroy 0, .weak_lock 2, .shared_destroy 1, .shared_destroy 3,
        .weak_lock 2]).map
        (fun s => (s.get_shared 4, shared_ptr.operator_bool s 4, shared_ptr.use_count s 4,
          s.block 0, s.block_deletes 0)) =
      .ok (.ok ⟨none, some 1⟩, .ok false, .ok 0, some ⟨0, 1⟩, 0) ∧
    (run State.init [.shared_new (some 42), .shared_copy 0, .weak_from_shared 0,
        .shared_destroy 0, .weak_lock 2, .shared_destroy 1, .shared_destroy 3,
        .weak_lock 2, .weak_destroy 2]).map
        (fun s => (s.block 0, s.block_deletes 0, s.payload_deletes 42)) =
      .ok (some ⟨0, 0⟩, 1, 1) :=
  ⟨rfl, rfl, rfl, rfl, rfl, rfl, rfl, rfl, rfl⟩

/-! ## Destruction (C12) -/

/-- One destruction in `size_t` arithmetic: destroying a handle attached to a
live record applies `--` to the count of the handle's own kind only (one less
for every count that was at least 1; a count of 0 wraps).  A strong destroy
deletes the handle's payload
(when it has one) iff the strong count reached 0, and deletes the record iff
additionally the weak count is 0; a weak destroy deletes no payload and deletes
the record iff the weak count reached 0 and the strong count is 0.  Every other
block is left as it was.  Destroying a handle whose record pointer is null
leaves the free store unchanged. -/
theorem destroy_decrements_own_count_and_frees (s : State) (x a : Nat) (q : Option Nat)
    (b : ControlBlock)
    (hd : a ∉ s.heap.deleted_blocks) (hb : s.block a = some b) :
    (s.get_shared x = .ok ⟨q, some a⟩ →
      ∃ s', step s (.shared_destroy x) = .ok s' ∧
        s'.block a = some ⟨size_t_dec b.ref_count, b.weak_count⟩ ∧
        (0 < b.ref_count → b.ref_count < SIZE_T_RANGE →
          s'.block a = some ⟨b.ref_count - 1, b.weak_count⟩) ∧
        s'.heap.deleted_payloads =
          (if size_t_dec b.ref_count = 0 then s.heap.deleted_payloads ++ q.toList
           else s.heap.deleted_payloads) ∧
        s'.heap.deleted_blocks =
          (if size_t_dec b.ref_count = 0 ∧ b.weak_count = 0 then s.heap.deleted_blocks ++ [a]
           else s.heap.deleted_blocks) ∧
        (∀ c, c ≠ a → s'.block c = s.block c) ∧
        s'.objs = s.objs.set x none) ∧
    (s.get_weak x = .ok ⟨q, some a⟩ →
      ∃ s', step s (.weak_destroy x) = .ok s' ∧
        s'.block a = some ⟨b.ref_count, size_t_dec b.weak_count⟩ ∧
        (0 < b.weak_count → b.weak_count < SIZE_T_RANGE →
          s'.block a = some ⟨b.ref_count, b.weak_count - 1⟩) ∧
        s'.heap.deleted_payloads = s.heap.deleted_payloads ∧
        s'.heap.deleted_blocks =
          (if size_t_dec b.weak_count = 0 ∧ b.ref_count = 0 then s.heap.deleted_blocks ++ [a]
           else s.heap.deleted_blocks) ∧
        (∀ c, c ≠ a → s'.block c = s.block c) ∧
        s'.objs = s.objs.set x none) ∧
    (s.get_shared x = .ok ⟨q, none⟩ →
      step s (.shared_destroy x) = .ok ⟨s.heap, s.objs.set x none⟩) ∧
    (s.get_weak x = .ok ⟨q, none⟩ →
      step s (.weak_destroy x) = .ok ⟨s.heap, s.objs.set x none⟩) := by
  have ha : a < s.heap.blocks.length := Heap.lt_of_block hb
  refine ⟨?_, ?_, ?_, ?_⟩
  · intro hx
    have hx' := State.get_shared_eq_ok.1 hx
    refine ⟨_, step_shared_destroy_ok hx' hd hb, ?_, ?_, ?_, ?_, ?_, rfl⟩
    · split_ifs <;>
        simp [State.block, Heap.write, Heap.delete_payload, Heap.delete_block, ha] <;>
        cases q <;> simp [ha]
    · intro hpos hlt
      rw [← size_t_dec_of_pos hpos hlt]
      split_ifs <;>
        simp [State.block, Heap.write, Heap.delete_payload, Heap.delete_block, ha] <;>
        cases q <;> simp [ha]
    · split_ifs <;> cases q <;> simp [Heap.write, Heap.delete_payload, Heap.delete_block]
    · by_cases h0 : size_t_dec b.ref_count = 0 <;> by_cases hw : b.weak_count = 0 <;>
        cases q <;> simp [h0, hw, Heap.write, Heap.delete_payload, Heap.delete_block]
    · intro c hc
      split_ifs <;> cases q <;>
        simp [State.block, Heap.write, Heap.delete_payload, Heap.delete_block,
          List.getElem?_set_ne hc.symm]
  · intro hx
    have hx' := State.get_weak_eq_ok.1 hx
    refine ⟨_, step_weak_destroy_ok hx' hd hb, ?_, ?_, ?_, ?_, ?_, rfl⟩
    · split_ifs <;> simp [State.block, Heap.write, Heap.delete_block, ha]
    · intro hpos hlt
      rw [← size_t_dec_of_pos hpos hlt]
      split_ifs <;> simp [State.block, Heap.write, Heap.delete_block, ha]
    · split_ifs <;> simp [Heap.write, Heap.delete_block]
    · split_ifs <;> simp [Heap.write, Heap.delete_block]
    · intro c hc
      split_ifs <;>
        simp [State.block, Heap.write, Heap.delete_block, List.getElem?_set_ne hc.symm]
  · intro hx
    exact step_shared_destroy_null (State.get_shared_eq_ok.1 hx)
  · intro hx
    exact step_weak_destroy_null (State.get_weak_eq_ok.1 hx)

/-- One destruction at a concrete state: object 0 is the only strong handle of
a payload-7 group whose record (block 0) also carries one weak handle (object 1); object 2
is a moved-from strong handle. -/
theorem destroy_decrements_own_count_and_frees_witness :
    (∃ s', step ⟨⟨[⟨1, 1⟩], [], []⟩, [some (.shared ⟨some 7, some 0⟩),
        some (.weak ⟨some 7, some 0⟩), some (.shared ⟨none, none⟩)]⟩ (.shared_destroy 0) =
        .ok s' ∧
      s'.block 0 = some ⟨0, 1⟩ ∧
      s'.heap.deleted_payloads = [7] ∧
      s'.heap.deleted_blocks = []) ∧
    (∃ s', step ⟨⟨[⟨1, 1⟩], [], []⟩, [some (.shared ⟨some 7, some 0⟩),
        some (.weak ⟨some 7, some 0⟩), some (.shared ⟨none, none⟩)]⟩ (.weak_destroy 1) =
        .ok s' ∧
      s'.block 0 = some ⟨1, 0⟩ ∧
      s'.heap.deleted_payloads = [] ∧
      s'.heap.deleted_blocks = []) :=
  ⟨by
    obtain ⟨s', h1, h2, _, h4, h5, _⟩ :=
      (destroy_decrements_own_count_and_frees ⟨⟨[⟨1, 1⟩], [], []⟩,
        [some (.shared ⟨some 7, some 0⟩), some (.weak ⟨some 7, some 0⟩),
         some (.shared ⟨none, none⟩)]⟩ 0 0 (some 7) ⟨1, 1⟩ (by decide) rfl).1 rfl
    exact ⟨s', h1, h2, h4, h5⟩,
   by
    obtain ⟨s', h1, h2, _, h4, h5, _⟩ :=
      (destroy_decrements_own_count_and_frees ⟨⟨[⟨1, 1⟩], [], []⟩,
        [some (.shared ⟨some 7, some 0⟩), some (.weak ⟨some 7, some 0⟩),
         some (.shared ⟨none, none⟩)]⟩ 1 0 (some 7) ⟨1, 1⟩ (by decide) rfl).2.1 rfl
    exact ⟨s', h1, h2, h4, h5⟩⟩

/-- C12, evaluated on the code: `weak_ptr<T> W(p); weak_ptr<T> V(W); V.reset();`
leaves `V` attached to record 1, which is allocated, not deleted and holds
(0, 0).  Destroying `V` does not take that weak count one down and does not
free the record: the count becomes `2 ^ 64 - 1` and the record stays
allocated.  Destroying `W` afterwards follows the rule (record 0 goes from
weak 1 to 0 and is deleted once); with every handle gone record 1 is still
not deleted. -/
theorem weak_destroy_after_reset_wraps_and_leaks :
    (run State.init [.weak_new (some 7), .weak_copy 0, .weak_reset 1]).map
        (fun s => (s.get_weak 1, s.block 0, s.block 1, s.heap.deleted_blocks)) =
      .ok (.ok ⟨none, some 1⟩, some ⟨0, 1⟩, some ⟨0, 0⟩, []) ∧
    (run State.init [.weak_new (some 7), .weak_copy 0, .weak_reset 1,
        .weak_destroy 1]).map
        (fun s => (s.block 1, s.block_deletes 1, s.heap.deleted_payloads)) =
      .ok (some ⟨0, 18446744073709551615⟩, 0, []) ∧
    (run State.init [.weak_new (some 7), .weak_copy 0, .weak_reset 1,
        .weak_destroy 1, .weak_destroy 0]).map
        (fun s => (s.live_objects, s.block 0, s.block_deletes 0, s.block 1,
          s.block_deletes 1)) =
      .ok (0, some ⟨0, 0⟩, 1, some ⟨0, 18446744073709551615⟩, 0) :=
  ⟨rfl, rfl, rfl⟩

/-! ## Count wrap-around (C13) -/

/-- C13, evaluated on the code: after `weak_ptr<T> W(p)` and `W.reset()` the
handle `W` is attached to record 1, which is allocated, not deleted and holds
weak count 0; destroying `W` decrements that count, which wraps to
`2 ^ 64 - 1`.  The same happens for a weak handle derived from a strong one. -/
theorem weak_reset_then_destroy_wraps :
    (run State.init [.weak_new (some 7), .weak_reset 0]).map
        (fun s => (s.get_weak 0, s.block 1, s.block_deletes 1)) =
      .ok (.ok ⟨none, some 1⟩, some ⟨0, 0⟩, 0) ∧
    (run State.init [.weak_new (some 7), .weak_reset 0, .weak_destroy 0]).map
        (fun s => s.block 1) = .ok (some ⟨0, 18446744073709551615⟩) ∧
    (run State.init [.shared_new (some 7), .weak_from_shared 0, .weak_reset 1]).map
        (fun s => (s.get_weak 1, s.block 1, s.block_deletes 1)) =
      .ok (.ok ⟨none, some 1⟩, some ⟨0, 0⟩, 0) ∧
    (run State.init [.shared_new (some 7), .weak_from_shared 0, .weak_reset 1,
        .weak_destroy 1]).map
        (fun s => s.block 1) = .ok (some ⟨0, 18446744073709551615⟩) :=
  ⟨rfl, rfl, rfl, rfl⟩

/-! ## `weak_ptr::reset` (C14) -/

/-- One `reset()` in `size_t` arithmetic: on a weak handle attached to a live
record it applies `--` to that record's weak count (exactly one less for every
count that was at least 1; a count of 0 wraps), leaves its strong count and every other existing block
unchanged, deletes nothing, and leaves the handle with a null payload attached
to a record allocated by the call, holding (0, 0) and distinct from the old
record. -/
theorem weak_reset_detaches_to_fresh_record (s : State) (x a : Nat) (q : Option Nat)
    (b : ControlBlock)
    (hx : s.get_weak x = .ok ⟨q, some a⟩)
    (hd : a ∉ s.heap.deleted_blocks) (hb : s.block a = some b) :
    ∃ s', weak_ptr.reset s x = .ok s' ∧
      s'.block a = some ⟨b.ref_count, size_t_dec b.weak_count⟩ ∧
      (0 < b.weak_count → b.weak_count < SIZE_T_RANGE →
        s'.block a = some ⟨b.ref_count, b.weak_count - 1⟩) ∧
      s'.get_weak x = .ok ⟨none, some s.heap.blocks.length⟩ ∧
      s.heap.blocks.length ≠ a ∧
      s.block s.heap.blocks.length = none ∧
      s'.block s.heap.blocks.length = some ⟨0, 0⟩ ∧
      (∀ c, c ≠ a → c < s.heap.blocks.length → s'.block c = s.block c) ∧
      s'.heap.deleted_blocks = s.heap.deleted_blocks ∧
      s'.heap.deleted_payloads = s.heap.deleted_payloads := by
  have hx' := State.get_weak_eq_ok.1 hx
  have hxlt : x < s.objs.length := (List.getElem?_eq_some.1 hx').1
  have ha : a < s.heap.blocks.length := Heap.lt_of_block hb
  have hblk : ((s.heap.blocks.set a ⟨b.ref_count, size_t_dec b.weak_count⟩ ++
      [ControlBlock.mk 0 0])[a]?) = some ⟨b.ref_count, size_t_dec b.weak_count⟩ := by
    rw [List.getElem?_append_left (by simpa using ha)]
    simp [ha]
  refine ⟨_, weak_reset_ok hx' hd hb, hblk, ?_, ?_, by omega, ?_, ?_, ?_, rfl, rfl⟩
  · intro hpos hlt
    rw [← size_t_dec_of_pos hpos hlt]
    exact hblk
  · simp [State.get_weak, hxlt]
  · simp [State.block]
  · simp [State.block, List.getElem?_append_right]
  · intro c hca hc
    simp only [State.block]
    rw [List.getElem?_append_left (by simpa using hc), List.getElem?_set_ne hca.symm]

/-- One `reset()` at a concrete state: a weak handle (object 1) of a payload-7
group whose record holds (1, 1). -/
theorem weak_reset_detaches_to_fresh_record_witness :
    ∃ s', weak_ptr.reset ⟨⟨[⟨1, 1⟩], [], []⟩,
        [some (.shared ⟨some 7, some 0⟩), some (.weak ⟨some 7, some 0⟩)]⟩ 1 = .ok s' ∧
      s'.block 0 = some ⟨1, 0⟩ ∧
      s'.get_weak 1 = .ok ⟨none, some 1⟩ ∧
      s'.block 1 = some ⟨0, 0⟩ ∧
      s'.heap.deleted_blocks = [] ∧
      s'.heap.deleted_payloads = [] := by
  obtain ⟨s', h1, h2, _, h4, _, _, h7, _, h9, h10⟩ :=
    weak_reset_detaches_to_fresh_record ⟨⟨[⟨1, 1⟩], [], []⟩,
      [some (.shared ⟨some 7, some 0⟩), some (.weak ⟨some 7, some 0⟩)]⟩ 1 0 (some 7) ⟨1, 1⟩
      rfl (by decide) rfl
  exact ⟨s', h1, h2, h4, h7, h9, h10⟩

/-- Rewriting a block without changing its strong count keeps a zero strong
count at every address. -/
theorem zero_strong_of_set {bl : List ControlBlock} {a r : Nat} {b : ControlBlock} (w : Nat)
    (hb : bl[a]? = some b) (h : ∃ b0, bl[r]? = some b0 ∧ b0.ref_count = 0) :
    ∃ b1, (bl.set a ⟨b.ref_count, w⟩)[r]? = some b1 ∧ b1.ref_count = 0 := by
  obtain ⟨b0, h0, hz⟩ := h
  by_cases har : a = r
  · subst har
    rw [hb] at h0; cases h0
    exact ⟨⟨b.ref_count, w⟩, by simp [(List.getElem?_eq_some.1 hb).1], hz⟩
  · exact ⟨b0, by rw [List.getElem?_set_ne har]; exact h0, hz⟩

/-- Allocating a block keeps a zero strong count at every existing address. -/
theorem zero_strong_of_append {bl : List ControlBlock} {r : Nat} (c : ControlBlock)
    (h : ∃ b0, bl[r]? = some b0 ∧ b0.ref_count = 0) :
    ∃ b1, (bl ++ [c])[r]? = some b1 ∧ b1.ref_count = 0 := by
  obtain ⟨b0, h0, hz⟩ := h
  exact ⟨b0, by rw [List.getElem?_append_left (List.getElem?_eq_some.1 h0).1]; exact h0, hz⟩

/-- A statement on weak handles only never changes a strong count that is 0. -/
theorem weak_only_keeps_zero_strong {s s' : State} {op : Op} {r : Nat}
    (hop : op.weak_only = true) (hstep : step s op = .ok s')
    (h : ∃ b, s.block r = some b ∧ b.ref_count = 0) :
    ∃ b, s'.block r = some b ∧ b.ref_count = 0 := by
  simp only [State.block] at h ⊢
  cases op with
  | weak_new p =>
    rw [step_weak_new_eq] at hstep; cases hstep
    exact zero_strong_of_append _ h
  | weak_copy o =>
    obtain ⟨q, a, b, _, _, hb, rfl⟩ := step_weak_copy_inv hstep
    exact zero_strong_of_set _ hb h
  | weak_move o =>
    obtain ⟨t, _, rfl⟩ := step_weak_move_inv hstep
    exact h
  | weak_assign_copy t o =>
    rcases step_weak_assign_copy_inv hstep with ⟨_, rfl⟩ | ⟨_, d, q, a, b, _, _, _, hb, rfl⟩
    · exact h
    · exact zero_strong_of_set _ hb h
  | weak_assign_move t o =>
    rcases step_weak_assign_move_inv hstep with ⟨_, rfl⟩ | ⟨_, d, u, _, _, rfl⟩
    · exact h
    · exact h
  | weak_swap t o =>
    obtain ⟨d, u, _, _, rfl⟩ := step_weak_swap_inv hstep
    exact h
  | weak_reset t =>
    obtain ⟨q, a, b, _, _, hb, rfl⟩ := step_weak_reset_inv hstep
    exact zero_strong_of_append _ (zero_strong_of_set _ hb h)
  | weak_lock t =>
    obtain ⟨q, a, b, _, _, hb, ⟨hpos, rfl⟩ | ⟨h0, rfl⟩⟩ := step_weak_lock_inv hstep
    · obtain ⟨b0, hr, hz⟩ := h
      have har : a ≠ r := by
        rintro rfl
        rw [hb] at hr; cases hr; omega
      exact ⟨b0, by rw [List.getElem?_set_ne har]; exact hr, hz⟩
    · exact zero_strong_of_append _ h
  | weak_destroy t =>
    rcases step_weak_destroy_inv hstep with ⟨q, _, rfl⟩ | ⟨q, a, b, _, _, hb, rfl⟩
    · exact h
    · exact zero_strong_of_set _ hb h
  | shared_new _ => cases hop
  | shared_copy _ => cases hop
  | shared_from_weak _ => cases hop
  | shared_move _ => cases hop
  | shared_assign_copy _ _ => cases hop
  | shared_assign_move _ _ => cases hop
  | shared_swap _ _ => cases hop
  | shared_reset _ _ => cases hop
  | shared_destroy _ => cases hop
  | weak_from_shared _ => cases hop

/-- A run of statements on weak handles only never changes a strong count
that is 0. -/
theorem run_weak_only_keeps_zero_strong {r : Nat} (ops : List Op) :
    ∀ (s s' : State), (∀ op ∈ ops, op.weak_only = true) → run s ops = .ok s' →
      (∃ b, s.block r = some b ∧ b.ref_count = 0) →
      ∃ b, s'.block r = some b ∧ b.ref_count = 0 := by
  induction ops with
  | nil => intro s s' _ hrun h; simp only [run] at hrun; cases hrun; exact h
  | cons op ops ih =>
    intro s s' hops hrun h
    cases hstep : step s op with
    | error e => simp only [run, hstep] at hrun; cases hrun
    | ok s1 =>
      simp only [run, hstep] at hrun
      exact ih s1 s' (fun o ho => hops o (List.mem_cons_of_mem _ ho)) hrun
        (weak_only_keeps_zero_strong (hops op (List.mem_cons_self _ _)) hstep h)

/-- C15: a weak handle constructed from a raw pointer gets a newly allocated
record holding (0, 1).  After every run of statements that operate on weak
handles only (construction, copy, move, assignment, swap, `reset`, `lock`,
destruction) the record's strong count is still 0, and every weak handle
attached to the record, as long as the record is not deleted, reports
`expired()` and gets from `lock()` a strong handle with null payload (boolean
query false) on a record of its own, the strong count of the weak record
staying 0. -/
theorem standalone_weak_never_promoted (s s2 : State) (p : Option Nat) (ops : List Op)
    (hops : ∀ op ∈ ops, op.weak_only = true)
    (hrun : run s (.weak_new p :: ops) = .ok s2) :
    (∃ s1, step s (.weak_new p) = .ok s1 ∧
      s.block s.heap.blocks.length = none ∧
      s1.block s.heap.blocks.length = some ⟨0, 1⟩ ∧
      s1.get_weak s.objs.length = .ok ⟨p, some s.heap.blocks.length⟩) ∧
    (∃ b, s2.block s.heap.blocks.length = some b ∧ b.ref_count = 0) ∧
    (∀ w q, s2.get_weak w = .ok ⟨q, some s.heap.blocks.length⟩ →
      s.heap.blocks.length ∉ s2.heap.deleted_blocks →
      weak_ptr.expired s2 w = .ok true ∧
      ∃ s3, weak_ptr.lock s2 w = .ok s3 ∧
        s3.get_shared s2.objs.length = .ok ⟨none, some s2.heap.blocks.length⟩ ∧
        shared_ptr.operator_bool s3 s2.objs.length = .ok false ∧
        s2.heap.blocks.length ≠ s.heap.blocks.length ∧
        ∃ b, s3.block s.heap.blocks.length = some b ∧ b.ref_count = 0) := by
  have h1 : (∃ b, (⟨⟨s.heap.blocks ++ [⟨0, 1⟩], s.heap.deleted_blocks,
      s.heap.deleted_payloads⟩,
      s.objs ++ [some (.weak ⟨p, some s.heap.blocks.length⟩)]⟩ : State).block
        s.heap.blocks.length = some b ∧ b.ref_count = 0) :=
    ⟨⟨0, 1⟩, by simp [State.block], rfl⟩
  simp only [run, step_weak_new_eq] at hrun
  have h2 := run_weak_only_keeps_zero_strong ops _ s2 hops hrun h1
  refine ⟨⟨_, step_weak_new_eq s p, ?_, ?_, ?_⟩, h2, ?_⟩
  · simp [State.block]
  · simp [State.block]
  · simp [State.get_weak]
  · intro w q hw hnd
    obtain ⟨b, hb, hz⟩ := h2
    have hw' := State.get_weak_eq_ok.1 hw
    have he := weak_expired_ok hw' hnd hb
    have hlt : s.heap.blocks.length < s2.heap.blocks.length := Heap.lt_of_block hb
    refine ⟨by rw [he, hz]; rfl, _, weak_lock_expired hw' hnd hb hz, ?_, ?_, by omega, ?_⟩
    · simp [State.get_shared]
    · simp [shared_ptr.operator_bool, State.get_shared, bind, Except.bind]
    · exact ⟨b, by simp only [State.block]; rw [List.getElem?_append_left hlt]; exact hb, hz⟩

/-- C15 at a concrete run: a standalone weak handle over payload 7 is copied,
locked, moved and its first copy destroyed. -/
theorem standalone_weak_never_promoted_witness :
    ∃ s2, run State.init [.weak_new (some 7), .weak_copy 0, .weak_lock 1, .weak_move 0,
        .weak_destroy 1] = .ok s2 ∧
      (∃ b, s2.block 0 = some b ∧ b.ref_count = 0) ∧
      weak_ptr.expired s2 3 = .ok true :=
  ⟨_, rfl,
    (standalone_weak_never_promoted State.init _ (some 7)
      [.weak_copy 0, .weak_lock 1, .weak_move 0, .weak_destroy 1] (by decide) rfl).2.1,
    ((standalone_weak_never_promoted State.init _ (some 7)
      [.weak_copy 0, .weak_lock 1, .weak_move 0, .weak_destroy 1] (by decide) rfl).2.2
      3 (some 7) rfl (by decide)).1⟩

/-! ## Direct construction of a strong handle from a weak handle (C16) -/

/-- C16: `shared_ptr(const weak_ptr<T>&)` on a weak handle attached to a live
record succeeds whatever the strong count is: the new strong handle has the
weak handle's payload pointer and record, and the record's strong count has
been incremented once (`++` on a `size_t`, one more for every count below
`SIZE_MAX`), so from strong count 0 it becomes 1.  The weak count, every other
block and both delete logs are unchanged; in particular a payload that was
already deleted stays deleted while the new handle points to it. -/
theorem strong_from_weak_increments_unchecked (s : State) (w a : Nat) (p : Option Nat)
    (b : ControlBlock)
    (hw : s.get_weak w = .ok ⟨p, some a⟩)
    (hd : a ∉ s.heap.deleted_blocks) (hb : s.block a = some b) :
    ∃ s', shared_ptr.ctor_weak s w = .ok s' ∧
      s'.get_shared s.objs.length = .ok ⟨p, some a⟩ ∧
      s'.block a = some ⟨size_t_inc b.ref_count, b.weak_count⟩ ∧
      (b.ref_count + 1 < SIZE_T_RANGE →
        s'.block a = some ⟨b.ref_count + 1, b.weak_count⟩) ∧
      (b.ref_count = 0 → s'.block a = some ⟨1, b.weak_count⟩) ∧
      (∀ c, c ≠ a → s'.block c = s.block c) ∧
      s'.heap.deleted_blocks = s.heap.deleted_blocks ∧
      s'.heap.deleted_payloads = s.heap.deleted_payloads := by
  have hw' := State.get_weak_eq_ok.1 hw
  have hblk := Heap.write_blocks_self (h := s.heap) ⟨size_t_inc b.ref_count, b.weak_count⟩ hb
  refine ⟨_, shared_ctor_weak_ok hw' hd hb, ?_, hblk, ?_, ?_, ?_, rfl, rfl⟩
  · simp [State.get_shared]
  · intro hmax
    rw [← size_t_inc_of_lt hmax]
    exact hblk
  · intro h0
    have h1 : size_t_inc b.ref_count = 1 := by rw [h0]; decide
    rw [← h1]
    exact hblk
  · intro c hc
    exact Heap.write_blocks_ne _ hc.symm

/-- C16 at a concrete state: the strong handles of a payload-7 group are gone
and the payload has been deleted; the weak handle (object 1) is expired. -/
theorem strong_from_weak_increments_unchecked_witness :
    ∃ s', shared_ptr.ctor_weak ⟨⟨[⟨0, 1⟩], [], [7]⟩,
        [none, some (.weak ⟨some 7, some 0⟩)]⟩ 1 = .ok s' ∧
      s'.get_shared 2 = .ok ⟨some 7, some 0⟩ ∧
      s'.block 0 = some ⟨1, 1⟩ ∧
      s'.heap.deleted_blocks = [] ∧
      s'.heap.deleted_payloads = [7] := by
  obtain ⟨s', h1, h2, _, _, h5, _, h7, h8⟩ :=
    strong_from_weak_increments_unchecked ⟨⟨[⟨0, 1⟩], [], [7]⟩,
      [none, some (.weak ⟨some 7, some 0⟩)]⟩ 1 0 (some 7) ⟨0, 1⟩ rfl (by decide) rfl
  exact ⟨s', h1, h2, h5 rfl, h7, h8⟩

/-! ## Count queries (C17) -/

/-- C17: on a live record the count query of a strong handle with a non-null
payload is the record's strong count; the count query of a strong handle with a
null payload is 0 whatever its record pointer is (null, or a record holding any
counts); the count query of a weak handle is the record's strong count, and
`expired()` is true exactly when that query is 0. -/
theorem use_count_reports_strong_count (s : State) (x a q : Nat) (p cb : Option Nat)
    (b : ControlBlock)
    (hd : a ∉ s.heap.deleted_blocks) (hb : s.block a = some b) :
    (s.get_shared x = .ok ⟨some q, some a⟩ → shared_ptr.use_count s x = .ok b.ref_count) ∧
    (s.get_shared x = .ok ⟨none, cb⟩ → shared_ptr.use_count s x = .ok 0) ∧
    (s.get_weak x = .ok ⟨p, some a⟩ →
      weak_ptr.use_count s x = .ok b.ref_count ∧
      weak_ptr.expired s x = .ok (b.ref_count == 0) ∧
      ∃ e n, weak_ptr.expired s x = .ok e ∧ weak_ptr.use_count s x = .ok n ∧
        (e = true ↔ n = 0)) := by
  refine ⟨?_, ?_, ?_⟩
  · intro hx
    simp [shared_ptr.use_count, hx, Heap.deref_ok hd hb, bind, Except.bind]
  · intro hx
    simp [shared_ptr.use_count, hx, bind, Except.bind]
  · intro hx
    have hu : weak_ptr.use_count s x = .ok b.ref_count := by
      simp [weak_ptr.use_count, hx, Heap.deref_ok hd hb, bind, Except.bind]
    have he : weak_ptr.expired s x = .ok (b.ref_count == 0) := by
      simp [weak_ptr.expired, hx, Heap.deref_ok hd hb, bind, Except.bind]
    exact ⟨hu, he, _, _, he, hu, by simp⟩

/-- C17 at concrete states: a record holding strong 2 and weak 5 with a strong
handle over payload 7 (object 0) and a weak handle (object 3); a
default-constructed strong handle (object 1) whose record holds (1, 0); a
moved-from strong handle (object 2). -/
theorem use_count_reports_strong_count_witness :
    shared_ptr.use_count ⟨⟨[⟨2, 5⟩, ⟨1, 0⟩], [], []⟩,
      [some (.shared ⟨some 7, some 0⟩), some (.shared ⟨none, some 1⟩),
       some (.shared ⟨none, none⟩), some (.weak ⟨some 7, some 0⟩)]⟩ 0 = .ok 2 ∧
    shared_ptr.use_count ⟨⟨[⟨2, 5⟩, ⟨1, 0⟩], [], []⟩,
      [some (.shared ⟨some 7, some 0⟩), some (.shared ⟨none, some 1⟩),
       some (.shared ⟨none, none⟩), some (.weak ⟨some 7, some 0⟩)]⟩ 1 = .ok 0 ∧
    shared_ptr.use_count ⟨⟨[⟨2, 5⟩, ⟨1, 0⟩], [], []⟩,
      [some (.shared ⟨some 7, some 0⟩), some (.shared ⟨none, some 1⟩),
       some (.shared ⟨none, none⟩), some (.weak ⟨some 7, some 0⟩)]⟩ 2 = .ok 0 ∧
    weak_ptr.use_count ⟨⟨[⟨2, 5⟩, ⟨1, 0⟩], [], []⟩,
      [some (.shared ⟨some 7, some 0⟩), some (.shared ⟨none, some 1⟩),
       some (.shared ⟨none, none⟩), some (.weak ⟨some 7, some 0⟩)]⟩ 3 = .ok 2 ∧
    weak_ptr.expired ⟨⟨[⟨2, 5⟩, ⟨1, 0⟩], [], []⟩,
      [some (.shared ⟨some 7, some 0⟩), some (.shared ⟨none, some 1⟩),
       some (.shared ⟨none, none⟩), some (.weak ⟨some 7, some 0⟩)]⟩ 3 = .ok false :=
  ⟨(use_count_reports_strong_count ⟨⟨[⟨2, 5⟩, ⟨1, 0⟩], [], []⟩,
      [some (.shared ⟨some 7, some 0⟩), some (.shared ⟨none, some 1⟩),
       some (.shared ⟨none, none⟩), some (.weak ⟨some 7, some 0⟩)]⟩
      0 0 7 none none ⟨2, 5⟩ (by decide) rfl).1 rfl,
   (use_count_reports_strong_count ⟨⟨[⟨2, 5⟩, ⟨1, 0⟩], [], []⟩,
      [some (.shared ⟨some 7, some 0⟩), some (.shared ⟨none, some 1⟩),
       some (.shared ⟨none, none⟩), some (.weak ⟨some 7, some 0⟩)]⟩
      1 0 7 none (some 1) ⟨2, 5⟩ (by decide) rfl).2.1 rfl,
   (use_count_reports_strong_count ⟨⟨[⟨2, 5⟩, ⟨1, 0⟩], [], []⟩,
      [some (.shared ⟨some 7, some 0⟩), some (.shared ⟨none, some 1⟩),
       some (.shared ⟨none, none⟩), some (.weak ⟨some 7, some 0⟩)]⟩
      2 0 7 none none ⟨2, 5⟩ (by decide) rfl).2.1 rfl,
   ((use_count_reports_strong_count ⟨⟨[⟨2, 5⟩, ⟨1, 0⟩], [], []⟩,
      [some (.shared ⟨some 7, some 0⟩), some (.shared ⟨none, some 1⟩),
       some (.shared ⟨none, none⟩), some (.weak ⟨some 7, some 0⟩)]⟩
      3 0 7 (some 7) none ⟨2, 5⟩ (by decide) rfl).2.2 rfl).1,
   ((use_count_reports_strong_count ⟨⟨[⟨2, 5⟩, ⟨1, 0⟩], [], []⟩,
      [some (.shared ⟨some 7, some 0⟩), some (.shared ⟨none, some 1⟩),
       some (.shared ⟨none, none⟩), some (.weak ⟨some 7, some 0⟩)]⟩
      3 0 7 (some 7) none ⟨2, 5⟩ (by decide) rfl).2.2 rfl).2.1⟩

/-! ## The counted fragment (C18) -/

/-- One statement of the counted fragment keeps the invariant and adds at most
one object. -/
theorem step_exact {p : Nat} {s s' : State} {op : Op}
    (hE : Exact p s) (hlen : s.objs.length + 1 < SIZE_T_RANGE)
    (hop : op.counted = true) (hstep : step s op = .ok s') :
    Exact p s' ∧ s'.objs.length ≤ s.objs.length + 1 := by
  cases op with
  | shared_copy o =>
    obtain ⟨q, a, b, hx, _, hb, rfl⟩ := step_shared_copy_inv hstep
    have hpos : 0 < b.ref_count := by
      have := hE.1 a
      rw [strong_at_of_block hb] at this
      have := live_shared_pos hx
      simp only [State.live_shared] at *
      omega
    exact ⟨exact_inc_strong hE hlen hx rfl rfl hb hpos, by simp⟩
  | shared_move o =>
    obtain ⟨t, hx, rfl⟩ := step_shared_move_inv hstep
    exact ⟨exact_move_shared hE hx, by simp⟩
  | weak_from_shared o =>
    obtain ⟨q, a, b, hx, _, hb, rfl⟩ := step_weak_from_shared_inv hstep
    have := live_shared_pos hx
    exact ⟨exact_inc_weak hE hlen hx rfl rfl hb (by omega), by simp⟩
  | weak_copy o =>
    obtain ⟨q, a, b, hx, _, hb, rfl⟩ := step_weak_copy_inv hstep
    have := live_weak_pos hx
    exact ⟨exact_inc_weak hE hlen hx rfl rfl hb (by omega), by simp⟩
  | weak_move o =>
    obtain ⟨t, hx, rfl⟩ := step_weak_move_inv hstep
    exact ⟨exact_move_weak hE hx, by simp⟩
  | weak_lock t =>
    obtain ⟨q, a, b, hx, _, hb, ⟨hpos, rfl⟩ | ⟨_, rfl⟩⟩ := step_weak_lock_inv hstep
    · exact ⟨exact_inc_strong hE hlen hx rfl rfl hb hpos, by simp⟩
    · exact ⟨exact_new_empty hE, by simp⟩
  | shared_destroy t =>
    rcases step_shared_destroy_inv hstep with ⟨q, hx, rfl⟩ | ⟨q, a, b, hx, _, hb, rfl⟩
    · exact ⟨exact_drop_detached hE hx rfl, by simp⟩
    · exact ⟨exact_drop_shared hE (by omega) hx hb, by simp⟩
  | weak_destroy t =>
    rcases step_weak_destroy_inv hstep with ⟨q, hx, rfl⟩ | ⟨q, a, b, hx, _, hb, rfl⟩
    · exact ⟨exact_drop_detached hE hx rfl, by simp⟩
    · exact ⟨exact_drop_weak hE (by omega) hx hb, by simp⟩
  | shared_new _ => cases hop
  | shared_from_weak _ => cases hop
  | shared_assign_copy _ _ => cases hop
  | shared_assign_move _ _ => cases hop
  | shared_swap _ _ => cases hop
  | shared_reset _ _ => cases hop
  | weak_new _ => cases hop
  | weak_assign_copy _ _ => cases hop
  | weak_assign_move _ _ => cases hop
  | weak_swap _ _ => cases hop
  | weak_reset _ => cases hop

/-- A run of the counted fragment keeps the invariant. -/
theorem run_exact {p : Nat} (ops : List Op) :
    ∀ (s s' : State), (∀ op ∈ ops, op.counted = true) → Exact p s →
      s.objs.length + ops.length < SIZE_T_RANGE → run s ops = .ok s' → Exact p s' := by
  induction ops with
  | nil => intro s s' _ hE _ hrun; simp only [run] at hrun; cases hrun; exact hE
  | cons op ops ih =>
    intro s s' hops hE hlen hrun
    simp only [List.length_cons] at hlen
    cases hstep : step s op with
    | error e => simp only [run, hstep] at hrun; cases hrun
    | ok s1 =>
      simp only [run, hstep] at hrun
      obtain ⟨hE1, hl1⟩ := step_exact hE (by omega) (hops op (List.mem_cons_self _ _)) hstep
      exact ih s1 s' (fun o ho => hops o (List.mem_cons_of_mem _ ho)) hE1 (by omega) hrun

/-- The invariant holds right after the group is created. -/
theorem exact_initial (p : Nat) :
    Exact p ⟨⟨[⟨1, 0⟩], [], []⟩, [some (Obj.shared ⟨some p, some 0⟩)]⟩ := by
  refine ⟨?_, ?_, ?_, ?_, ?_, ?_, ?_⟩
  · intro a
    cases a with
    | zero => rfl
    | succ n => simp [strong_at, State.live_shared, List.countP_cons]
  · intro a
    cases a with
    | zero => rfl
    | succ n => simp [weak_at, State.live_weak, List.countP_cons]
  · intro a ha
    simp only [List.length_singleton] at ha
    have : a = 0 := by omega
    subst this
    rfl
  · intro a ha; cases ha
  · intro x o hx
    cases x with
    | zero =>
      simp only [List.getElem?_cons_zero, Option.some.injEq] at hx
      subst hx
      simp [Obj.pointer, Obj.record]
    | succ n => simp at hx
  · rfl
  · simp

/-- When no object is alive, no strong handle is attached to any block. -/
theorem live_shared_eq_zero_of_no_objects {s : State} (h : s.live_objects = 0) (a : Nat) :
    s.live_shared a = 0 := by
  simp only [State.live_objects, State.live_shared, List.countP_eq_zero] at h ⊢
  intro o ho
  have := h o ho
  cases o with
  | none => simp
  | some v => simp at this

/-- When no object is alive, no weak handle is attached to any block. -/
theorem live_weak_eq_zero_of_no_objects {s : State} (h : s.live_objects = 0) (a : Nat) :
    s.live_weak a = 0 := by
  simp only [State.live_objects, State.live_weak, List.countP_eq_zero] at h ⊢
  intro o ho
  have := h o ho
  cases o with
  | none => simp
  | some v => simp at this

/-- C18: after a strong handle is constructed over payload `p` (record: block
0), in every state reached by copy construction, move construction, derivation
of weak handles from strong ones, weak copy and move construction, `lock()` and
destruction, every block holds exactly the number of live strong handles and
the number of live weak handles attached to it; the payload has been deleted
once if no strong handle is attached to block 0 and not at all otherwise; block
0 has been deleted once if no handle is attached to it and not at all
otherwise; so once every handle is destroyed, payload and record have each been
deleted exactly once. -/
theorem counted_fragment_counts_are_exact (p : Nat) (ops : List Op) (s : State)
    (hops : ∀ op ∈ ops, op.counted = true)
    (hlen : ops.length + 1 < SIZE_T_RANGE)
    (hrun : run State.init (.shared_new (some p) :: ops) = .ok s) :
    s.block 0 = some ⟨s.live_shared 0, s.live_weak 0⟩ ∧
    (∀ a b, s.block a = some b →
      b.ref_count = s.live_shared a ∧ b.weak_count = s.live_weak a) ∧
    s.payload_deletes p = (if s.live_shared 0 = 0 then 1 else 0) ∧
    s.block_deletes 0 = (if s.live_shared 0 + s.live_weak 0 = 0 then 1 else 0) ∧
    (s.live_objects = 0 → s.payload_deletes p = 1 ∧ s.block_deletes 0 = 1) := by
  have h0 : step State.init (.shared_new (some p)) =
      .ok ⟨⟨[⟨1, 0⟩], [], []⟩, [some (Obj.shared ⟨some p, some 0⟩)]⟩ := rfl
  simp only [run, h0] at hrun
  have hE := run_exact ops _ s hops (exact_initial p)
    (by simp only [List.length_singleton]; omega) hrun
  obtain ⟨h1, h2, h3, h4, h5, h6, h7⟩ := hE
  have hall : ∀ a b, s.block a = some b →
      b.ref_count = s.live_shared a ∧ b.weak_count = s.live_weak a := by
    intro a b hb
    exact ⟨by rw [← h1 a, strong_at_of_block hb], by rw [← h2 a, weak_at_of_block hb]⟩
  have hpay : s.payload_deletes p = (if s.live_shared 0 = 0 then 1 else 0) := by
    simp only [State.payload_deletes, h6]
    split_ifs <;> simp
  have hblk := h3 0 h7
  refine ⟨?_, hall, hpay, hblk, ?_⟩
  · obtain ⟨b, hb⟩ : ∃ b, s.block 0 = some b :=
      ⟨s.heap.blocks[0], by simp [State.block, h7]⟩
    obtain ⟨e1, e2⟩ := hall 0 b hb
    rw [hb, ← e1, ← e2]
  · intro hnone
    have z1 := live_shared_eq_zero_of_no_objects hnone 0
    have z2 := live_weak_eq_zero_of_no_objects hnone 0
    rw [hpay, hblk, z1, z2]
    simp

/-- C18 at a concrete run over payload 7: a copy, a weak handle, a move, a
`lock()`, then every handle is destroyed. -/
theorem counted_fragment_counts_are_exact_witness :
    ∃ s, run State.init [.shared_new (some 7), .shared_copy 0, .weak_from_shared 0,
        .shared_move 1, .weak_lock 2, .shared_destroy 0, .shared_destroy 1,
        .shared_destroy 3, .shared_destroy 4, .weak_destroy 2] = .ok s ∧
      s.live_objects = 0 ∧ s.payload_deletes 7 = 1 ∧ s.block_deletes 0 = 1 :=
  ⟨_, rfl, rfl,
    (counted_fragment_counts_are_exact 7 [.shared_copy 0, .weak_from_shared 0,
      .shared_move 1, .weak_lock 2, .shared_destroy 0, .shared_destroy 1,
      .shared_destroy 3, .shared_destroy 4, .weak_destroy 2] _ (by decide) (by decide)
      rfl).2.2.2.2 rfl⟩

/-! ## Runs without direct promotion (C19) -/

/-- C19: in every state reached from the empty program state by statements
of both handle kinds other than direct construction of a strong handle from a
weak one (copy and move construction and assignment, swap, reset, lock,
destruction), none of which faults and with every non-null raw payload handed to
at most one constructor or `reset`, and fewer than 2^64 statements: every
block's strong count is at least the number of live strong handles attached to
it, no deleted block has a live strong handle attached, and no deleted payload
is carried by a live strong handle. -/
theorem strong_count_covers_live_handles (ops : List Op) (s : State)
    (hops : ∀ op ∈ ops, op.no_direct_promotion = true)
    (hfresh : (ops.filterMap Op.raw_payload).Nodup)
    (hlen : ops.length + 1 < SIZE_T_RANGE)
    (hrun : run State.init ops = .ok s) :
    (∀ a b, s.block a = some b → s.live_shared a ≤ b.ref_count) ∧
    (∀ a, a ∈ s.heap.deleted_blocks → s.live_shared a = 0) ∧
    (∀ p x cb, p ∈ s.heap.deleted_payloads → s.get_shared x ≠ .ok ⟨some p, cb⟩) := by
  obtain ⟨⟨h1, h2, h3⟩, o1, o2, o3⟩ := run_safe_owned ops State.init s 0 [] safe_initial
    owned_initial hops (by simpa using hfresh) (by omega) hrun
  refine ⟨?_, ?_, ?_⟩
  · intro a b hb
    rw [← strong_at_of_block hb]
    exact h1 a
  · intro a ha
    have := h1 a
    have := (h3 a ha).1
    omega
  · intro p x cb hp hget
    have hx := State.get_shared_eq_ok.1 hget
    obtain ⟨a, hra, _, h0⟩ := (o3 p hp).2 x _ hx rfl
    have hcb : cb = some a := hra
    subst hcb
    have := h1 a
    have := live_shared_pos hx
    simp only [State.live_shared] at *
    omega

/-- C19 at a concrete run with copy assignment, swap, `lock()`, `reset` and
destruction over three distinct payloads: block 0 still has two live strong
handles and strong count 3, and payload 8, whose last strong handle was reset,
is deleted and carried by no strong handle. -/
theorem strong_count_covers_live_handles_witness :
    ∃ s, run State.init [.shared_new (some 7), .shared_copy 0, .weak_from_shared 0,
        .shared_new (some 8), .shared_assign_copy 1 0, .shared_swap 0 3, .weak_lock 2,
        .shared_reset 0 (some 9), .shared_destroy 1] = .ok s ∧
      (∀ a b, s.block a = some b → s.live_shared a ≤ b.ref_count) ∧
      (∀ a, a ∈ s.heap.deleted_blocks → s.live_shared a = 0) ∧
      (∀ p x cb, p ∈ s.heap.deleted_payloads → s.get_shared x ≠ .ok ⟨some p, cb⟩) ∧
      s.heap.deleted_payloads = [8] ∧ s.block 0 = some ⟨3, 1⟩ ∧ s.live_shared 0 = 2 :=
  ⟨_, rfl,
    (strong_count_covers_live_handles [.shared_new (some 7), .shared_copy 0,
      .weak_from_shared 0, .shared_new (some 8), .shared_assign_copy 1 0, .shared_swap 0 3,
      .weak_lock 2, .shared_reset 0 (some 9), .shared_destroy 1] _ (by decide) (by decide)
      (by decide) rfl).1,
    (strong_count_covers_live_handles [.shared_new (some 7), .shared_copy 0,
      .weak_from_shared 0, .shared_new (some 8), .shared_assign_copy 1 0, .shared_swap 0 3,
      .weak_lock 2, .shared_reset 0 (some 9), .shared_destroy 1] _ (by decide) (by decide)
      (by decide) rfl).2.1,
    (strong_count_covers_live_handles [.shared_new (some 7), .shared_copy 0,
      .weak_from_shared 0, .shared_new (some 8), .shared_assign_copy 1 0, .shared_swap 0 3,
      .weak_lock 2, .shared_reset 0 (some 9), .shared_destroy 1] _ (by decide) (by decide)
      (by decide) rfl).2.2,
    rfl, rfl, rfl⟩

/-! ## Copy assignment (C20) -/

/-- C20: copy assignment `b = a` between two distinct strong handles, `a` on a
live record `ra` and `b` on a different record `rb`, gives `b` the payload
pointer and record of `a`, leaves `a` as it was, increments the strong count of
`ra` once (`++` on a `size_t`, one more below `SIZE_MAX`) and leaves its weak
count unchanged, leaves block `rb` and every other block unchanged, and
deletes nothing: the ownership `b` held is not released.  Self-assignment
leaves the whole state unchanged. -/
theorem copy_assign_shares_without_release (s : State) (xa xb ra rb : Nat)
    (pa pb : Option Nat) (b : ControlBlock)
    (ha : s.get_shared xa = .ok ⟨pa, some ra⟩) (hxb : s.get_shared xb = .ok ⟨pb, some rb⟩)
    (hne : xa ≠ xb) (hrec : ra ≠ rb)
    (hd : ra ∉ s.heap.deleted_blocks) (hb : s.block ra = some b) :
    (∃ s', shared_ptr.assign_copy s xb xa = .ok s' ∧
      s'.get_shared xb = .ok ⟨pa, some ra⟩ ∧
      s'.get_shared xa = .ok ⟨pa, some ra⟩ ∧
      s'.block ra = some ⟨size_t_inc b.ref_count, b.weak_count⟩ ∧
      (b.ref_count + 1 < SIZE_T_RANGE →
        s'.block ra = some ⟨b.ref_count + 1, b.weak_count⟩) ∧
      s'.block rb = s.block rb ∧
      (∀ c, c ≠ ra → s'.block c = s.block c) ∧
      s'.heap.deleted_payloads = s.heap.deleted_payloads ∧
      s'.heap.deleted_blocks = s.heap.deleted_blocks) ∧
    shared_ptr.assign_copy s xa xa = .ok s ∧
    shared_ptr.assign_copy s xb xb = .ok s := by
  have ha' := State.get_shared_eq_ok.1 ha
  have hb' := State.get_shared_eq_ok.1 hxb
  have halt : xa < s.objs.length := (List.getElem?_eq_some.1 ha').1
  have hblt : xb < s.objs.length := (List.getElem?_eq_some.1 hb').1
  have hblk := Heap.write_blocks_self (h := s.heap) ⟨size_t_inc b.ref_count, b.weak_count⟩ hb
  refine ⟨⟨_, shared_assign_copy_ok ha' hb' hne hd hb, ?_, ?_, hblk, ?_, ?_, ?_, rfl, rfl⟩,
    ?_, ?_⟩
  · simp [State.get_shared, hblt]
  · simp [State.get_shared, List.getElem?_set_ne hne.symm, ha']
  · intro hmax
    rw [← size_t_inc_of_lt hmax]
    exact hblk
  · exact Heap.write_blocks_ne _ hrec
  · intro c hc
    exact Heap.write_blocks_ne _ hc.symm
  · simp [shared_ptr.assign_copy, ha, bind, Except.bind]
  · simp [shared_ptr.assign_copy, hxb, bind, Except.bind]

/-- C20 at a concrete state: `a` (object 0) over payload 7 on record 0, `b`
(object 1) over payload 8 on record 1. -/
theorem copy_assign_shares_without_release_witness :
    (∃ s', shared_ptr.assign_copy ⟨⟨[⟨1, 0⟩, ⟨1, 0⟩], [], []⟩,
        [some (.shared ⟨some 7, some 0⟩), some (.shared ⟨some 8, some 1⟩)]⟩ 1 0 = .ok s' ∧
      s'.get_shared 1 = .ok ⟨some 7, some 0⟩ ∧
      s'.block 0 = some ⟨2, 0⟩ ∧
      s'.block 1 = some ⟨1, 0⟩ ∧
      s'.heap.deleted_payloads = [] ∧
      s'.heap.deleted_blocks = []) ∧
    shared_ptr.assign_copy ⟨⟨[⟨1, 0⟩, ⟨1, 0⟩], [], []⟩,
        [some (.shared ⟨some 7, some 0⟩), some (.shared ⟨some 8, some 1⟩)]⟩ 0 0 =
      .ok ⟨⟨[⟨1, 0⟩, ⟨1, 0⟩], [], []⟩,
        [some (.shared ⟨some 7, some 0⟩), some (.shared ⟨some 8, some 1⟩)]⟩ := by
  obtain ⟨⟨s', h1, h2, _, h4, _, h6, _, h8, h9⟩, hself, _⟩ :=
    copy_assign_shares_without_release ⟨⟨[⟨1, 0⟩, ⟨1, 0⟩], [], []⟩,
      [some (.shared ⟨some 7, some 0⟩), some (.shared ⟨some 8, some 1⟩)]⟩ 0 1 0 1
      (some 7) (some 8) ⟨1, 0⟩ rfl rfl (by decide) (by decide) (by decide) rfl
  exact ⟨⟨s', h1, h2, h4, h6, h8, h9⟩, hself⟩

end MySharedPtr
